import Mathlib

/-!
# UBMP4 Simon game: the main loop of `UBMP4-Simon-Game.c`

A shallow embedding of the game state machine of `UBMP4-Simon-Game.c` and
`UBMP4-Simon-Starter-Game.c` (the two files share `main`, `get_button`, `LED`
and `sound`; they differ in the three hooks `game_start`, `game_win`,
`game_lose`).

* The module-level variables of the C program are the fields of `Game`.
* `unsigned char` variables are naturals reduced modulo 256, the
  `unsigned int` counter `idle` modulo 65536.
* The environment is read from the state: `sw` holds the successive samples
  of the four pushbutton pins (one sample is consumed by each `get_button()`
  call), `rnd` the successive results of `rand()`.
* Everything the program does to the outside world (delays, `LED` calls,
  tones) is appended to `trace`; the entry of each hook is marked by a
  `call_*` event so that calls can be counted.
* `pattern` is the array `unsigned char pattern[patternLength]`.  An access
  with an index outside the array is recorded in `oob`; the model then goes on
  with the byte `stray` standing for the memory cell that was hit, so that the
  control flow after such an access can still be followed.  That this cell is
  one no program variable uses is an assumption on the memory layout, which
  the sources do not fix.  `storeAt`, `roundHeadAt` and `roundAt` leave the
  byte behind the array open (`Behind`); the win of a game played without a
  mistake, which is reached through a store to `pattern[42]`, is stated for a
  free byte and for `maxStep` behind the array.
* C loops are run by `whileLoop` with a fuel bound; `none` means the fuel ran
  out.  The theorems show that the fuel given in the definitions is enough.
* The Off loop runs on a `Machine`: the game, the interrupt registers that
  `nap` and the interrupt function `wake` write, and the interrupts that will
  end the sleeps to come.  `tmr` holds the successive values read from `TMR0`.
  What the device header and the C library fix (bit positions in `INTCON`,
  the effect of `srand` on the results of `rand`) is a parameter `Target`.
-/

namespace Simon

/-! ## Program constants -/

/-- Switch pressed logic state (`#define pressed 0`): a pin reads one bit. -/
def pressed : Bool := false

/-- Idle time-out duration in 50 ms intervals (`#define timeOut 2400`). -/
def timeOut : Nat := 2400

/-- Total number of pattern steps to match (`#define patternLength 42`). -/
def patternLength : Nat := 42

/-- Game off (`#define off 0`). -/
def off : Nat := 0

/-- Traditional pattern matching game mode (`#define simon 1`). -/
def simon : Nat := 1

/-! ## Hardware and program state -/

/-- One sample of the input pins of the four game pushbuttons. -/
structure Switches where
  SW2 : Bool
  SW3 : Bool
  SW4 : Bool
  SW5 : Bool
deriving DecidableEq, Repr

/-- The output latches of the power LED and of the four game LEDs. -/
structure Leds where
  LED1 : Bool
  LED2 : Bool
  LED3 : Bool
  LED4 : Bool
  LED5 : Bool
deriving DecidableEq, Repr

/-- The two program variants that contain the complete round loop. -/
inductive Variant
  | game
  | starterGame
deriving DecidableEq, Repr

/-- What the program does that can be observed from outside, plus one marker
per hook entry and per `rand`/`srand` call. The Off loop adds two more: the
entry into `SLEEP()`, and each read of the four pins in its wait for the
release of the buttons, a loop without a delay of its own whose place among
the outputs could not be told otherwise. -/
inductive Event
  | delay_ms (ms : Nat)
  | LED (num : Nat)
  | note (halfPeriod_us : Nat) (per : Nat)
  | rand (r : Nat)
  | srand (seed : Nat)
  | call_start
  | call_win
  | call_lose
  | sleep
  | pins (s : Switches)
deriving DecidableEq, Repr

/-- The program variables, the environment still to be consumed and the
record of what happened so far. -/
structure Game where
  mode : Nat
  randomSeed : Nat
  button : Nat
  pattern : List Nat
  step : Nat
  maxStep : Nat
  idle : Nat
  newSeed : Nat
  leds : Leds
  sw : List Switches
  rnd : List Nat
  tmr : List Nat
  trace : List Event
  oob : List Nat
  stray : Nat
deriving DecidableEq, Repr

/-! ## Loops -/

/-- A C `while` loop: `cond` evaluates the controlling expression (it may
itself change the state, as a call in the condition does) and `body` runs the
loop body.  `none` when the fuel is used up with the condition still true. -/
def whileLoop {σ : Type} (cond : σ → Bool × σ) (body : σ → Option σ) : Nat → σ → Option σ
  | 0, s => if (cond s).1 then none else some (cond s).2
  | n + 1, s =>
    if (cond s).1 then (body (cond s).2).bind (whileLoop cond body n) else some (cond s).2

/-! ## Input and output functions -/

/-- The function `get_button` on one sample of the pins: the code of a pressed
button, 0 when no button is pressed. -/
def get_button (s : Switches) : Nat :=
  if s.SW2 = pressed then 1
  else if s.SW3 = pressed then 2
  else if s.SW4 = pressed then 3
  else if s.SW5 = pressed then 4
  else 0

/-- The pins with no button held down. -/
def released : Switches := ⟨true, true, true, true⟩

/-- A call `get_button()` in the running program: it samples the pins. When the
recorded samples are used up the pins read as released. -/
def readButton (g : Game) : Nat × Game :=
  match g.sw with
  | [] => (get_button released, g)
  | s :: rest => (get_button s, { g with sw := rest })

/-- The effect of `LED(num)` on the latches. -/
def Leds.light (num : Nat) (l : Leds) : Leds :=
  if num = 1 then { l with LED2 := true }
  else if num = 2 then { l with LED3 := true }
  else if num = 3 then { l with LED4 := true }
  else if num = 4 then { l with LED5 := true }
  else { l with LED2 := false, LED3 := false, LED4 := false, LED5 := false }

/-- Append one event to the trace. -/
def emit (e : Event) (g : Game) : Game :=
  { g with trace := g.trace ++ [e] }

/-- The function `LED`. -/
def LED (num : Nat) (g : Game) : Game :=
  emit (Event.LED num) { g with leds := g.leds.light num }

/-- The built-in `__delay_ms`. -/
def delay_ms (ms : Nat) (g : Game) : Game :=
  emit (Event.delay_ms ms) g

/-- Note E5: `per` half periods of 758 microseconds. -/
def note_E5 (per : Nat) (g : Game) : Game := emit (Event.note 758 per) g

/-- Note C#6: `per` half periods of 451 microseconds. -/
def note_CS6 (per : Nat) (g : Game) : Game := emit (Event.note 451 per) g

/-- Note A5: `per` half periods of 568 microseconds. -/
def note_A5 (per : Nat) (g : Game) : Game := emit (Event.note 568 per) g

/-- Note E6: `per` half periods of 379 microseconds. -/
def note_E6 (per : Nat) (g : Game) : Game := emit (Event.note 379 per) g

/-- The low note of the losing sound. -/
def note_low (per : Nat) (g : Game) : Game := emit (Event.note 1136 per) g

/-- The lower note of the losing sound. -/
def note_lower (per : Nat) (g : Game) : Game := emit (Event.note 2272 per) g

/-- The function `sound`: play the note of the selected button. -/
def sound (num : Nat) (g : Game) : Game :=
  if num = 1 then note_E5 379 g
  else if num = 2 then note_CS6 568 g
  else if num = 3 then note_E6 758 g
  else if num = 4 then note_A5 451 g
  else g

/-! ## Pattern memory and symbol generation -/

/-- The symbol stored for the result `r` of `rand()`:
`(rand() & 0b00000011) + 1`, converted to `unsigned char`. -/
def symbolOf (r : Nat) : Nat := (Nat.land r 3 + 1) % 256

/-- The largest value `rand()` returns (`RAND_MAX`). -/
def randMax : Nat := 32767

/-- Checked read of the array: `none` outside `pattern[patternLength]`. -/
def patternGet? (p : List Nat) (i : Nat) : Option Nat :=
  if i < patternLength then p.get? i else none

/-- Checked write of the array: `none` outside `pattern[patternLength]`. -/
def patternSet? (p : List Nat) (i v : Nat) : Option (List Nat) :=
  if i < patternLength then some (p.set i v) else none

/-- The value the program gets from `pattern[i]`. -/
def loadPattern (g : Game) (i : Nat) : Nat :=
  match patternGet? g.pattern i with
  | some v => v
  | none => g.stray

/-- The state after the program has read `pattern[i]`. -/
def touchPattern (g : Game) (i : Nat) : Game :=
  match patternGet? g.pattern i with
  | some _ => g
  | none => { g with oob := g.oob ++ [i] }

/-- The assignment `pattern[i] = v`. The source has no bounds check and does
not fix what a store outside the array hits: here such a store is recorded in
`oob` and is taken to hit a byte, `stray`, that no program variable uses.
`storeAt` leaves the byte behind the array open. -/
def storePattern (g : Game) (i v : Nat) : Game :=
  match patternSet? g.pattern i v with
  | some p => { g with pattern := p }
  | none => { g with oob := g.oob ++ [i], stray := v }

/-- A call `rand()`: the next recorded result (0 when they are used up). -/
def callRand (g : Game) : Nat × Game :=
  match g.rnd with
  | [] => (0, emit (Event.rand 0) g)
  | r :: rest => (r, emit (Event.rand r) { g with rnd := rest })

/-! ## The three hooks -/

/-- The function `game_start`: the start-up lights and sounds of
`UBMP4-Simon-Game.c`; empty in the starter variant. -/
def game_start (v : Variant) (g : Game) : Game :=
  match v with
  | Variant.starterGame => emit Event.call_start g
  | Variant.game =>
    let g := emit Event.call_start g
    let g := LED 1 g
    let g := note_E5 200 g
    let g := LED 4 g
    let g := note_A5 200 g
    let g := LED 2 g
    let g := note_CS6 200 g
    let g := LED 3 g
    let g := note_E6 200 g
    LED 0 g

/-- The function `game_win`: all four LEDs and two notes in
`UBMP4-Simon-Game.c`; empty in the starter variant. -/
def game_win (v : Variant) (g : Game) : Game :=
  match v with
  | Variant.starterGame => emit Event.call_win g
  | Variant.game =>
    let g := emit Event.call_win g
    let g := LED 1 g
    let g := LED 2 g
    let g := LED 3 g
    let g := LED 4 g
    let g := note_E6 500 g
    let g := delay_ms 200 g
    let g := note_E6 800 g
    LED 0 g

/-- One flash of the score display: `LED(num)`, 500 ms, `LED(0)`, 500 ms, then
`maxStep = maxStep - dec`. -/
def scoreFlash (num dec : Nat) (g : Game) : Game :=
  let g := LED num g
  let g := delay_ms 500 g
  let g := LED 0 g
  let g := delay_ms 500 g
  { g with maxStep := (g.maxStep + 256 - dec) % 256 }

/-- The function `game_lose`: in `UBMP4-Simon-Game.c` the losing sound, then
`maxStep = maxStep - 1` and the three score loops (tens on LED 1, fives on
LED 2, ones on LED 3); empty in the starter variant. -/
def game_lose (v : Variant) (g : Game) : Option Game :=
  match v with
  | Variant.starterGame => some (emit Event.call_lose g)
  | Variant.game =>
    let g := emit Event.call_lose g
    let g := note_low 500 g
    let g := delay_ms 500 g
    let g := note_lower 400 g
    let g := delay_ms 500 g
    let g := { g with maxStep := (g.maxStep + 256 - 1) % 256 }
    (whileLoop (fun s => (decide (10 ≤ s.maxStep), s)) (fun s => some (scoreFlash 1 10 s)) 256 g).bind
      fun g =>
    (whileLoop (fun s => (decide (5 ≤ s.maxStep), s)) (fun s => some (scoreFlash 2 5 s)) 256 g).bind
      fun g =>
    whileLoop (fun s => (decide (0 < s.maxStep), s)) (fun s => some (scoreFlash 3 1 s)) 256 g

/-! ## The round loop of `main` -/

/-- An evaluation of `pattern[i]` in an expression: the value read and the
state with the access recorded. -/
def readPattern (g : Game) (i : Nat) : Nat × Game :=
  (loadPattern g i, touchPattern g i)

/-- The body of the playback loop
`for(step = 0; step != maxStep; step++)`. -/
def playbackBody (g : Game) : Game :=
  let (p, g) := readPattern g g.step
  let g := LED p g
  let (p, g) := readPattern g g.step
  let g := sound p g
  let g := LED 0 g
  let g := delay_ms 500 g
  { g with step := (g.step + 1) % 256 }

/-- The playback loop from its current step: `step != maxStep` is tested, the
body run, `step++`. -/
def playbackLoop (g : Game) : Option Game :=
  whileLoop (fun s => (decide (s.step ≠ s.maxStep), s)) (fun s => some (playbackBody s)) 256 g

/-- Play all of the steps in the new pattern:
`for(step = 0; step != maxStep; step++)`. -/
def playback (g : Game) : Option Game :=
  playbackLoop { g with step := 0 }

/-- The idle timer tick of both wait loops: `idle++` and the shutdown test
`if(idle == timeOut) mode = off`. -/
def idleTick (g : Game) : Game :=
  let g := { g with idle := (g.idle + 1) % 65536 }
  if g.idle = timeOut then { g with mode := off } else g

/-- The body of `while(button == 0 && mode == simon)`. -/
def waitPressBody (g : Game) : Game :=
  let g := delay_ms 50 g
  let (b, g) := readButton g
  let g := { g with button := b }
  idleTick g

/-- Wait for a button press: `while(button == 0 && mode == simon)`. -/
def waitPress (g : Game) : Option Game :=
  whileLoop (fun s => (decide (s.button = 0) && decide (s.mode = simon), s))
    (fun s => some (waitPressBody s)) 65536 g

/-- The controlling expression `get_button() != 0 && mode == simon` of the
release loop: the call is made on every evaluation. -/
def releaseCond (g : Game) : Bool × Game :=
  let (b, g) := readButton g
  (decide (b ≠ 0) && decide (g.mode = simon), g)

/-- Wait for the key release: `while(get_button() != 0 && mode == simon)`. -/
def waitRelease (g : Game) : Option Game :=
  whileLoop releaseCond (fun s => some (idleTick (delay_ms 50 s))) 65536 g

/-- The comparison of the guess with the pattern and the losing branch:
`if(button != pattern[step] && mode == simon)`. -/
def judge (v : Variant) (g : Game) : Option Game :=
  let (p, g) := readPattern g g.step
  if g.button ≠ p ∧ g.mode = simon then
    (game_lose v (delay_ms 500 g)).map fun s => { s with mode := off }
  else some g

/-- The body of the verification loop: one guess of the player. -/
def guessStep (v : Variant) (g : Game) : Option Game :=
  let g := { g with idle := 0 }
  let (b, g) := readButton g
  let g := { g with button := b }
  (waitPress g).bind fun g =>
  let g := LED g.button g
  let g := sound g.button g
  let g := LED 0 g
  (judge v g).bind fun g =>
  let g := { g with step := (g.step + 1) % 256 }
  let g := { g with idle := 0 }
  waitRelease g

/-- The verification loop from its current step:
`while(step != maxStep && mode == simon)`. -/
def verifyLoop (v : Variant) (g : Game) : Option Game :=
  whileLoop (fun s => (decide (s.step ≠ s.maxStep) && decide (s.mode = simon), s)) (guessStep v)
    256 g

/-- Let the user try to match the pattern: `step = 0` and the verification
loop. -/
def verify (v : Variant) (g : Game) : Option Game :=
  verifyLoop v { g with step := 0 }

/-- The start of a round: the delay, the new pattern step, the increment of
`maxStep` and the check for a win. -/
def roundHead (v : Variant) (g : Game) : Game :=
  let g := delay_ms 1000 g
  let (r, g) := callRand g
  let g := storePattern g g.maxStep (symbolOf r)
  let g := { g with maxStep := (g.maxStep + 1) % 256 }
  if g.maxStep = patternLength + 1 then { game_win v g with mode := off } else g

/-- The body of `while(mode == simon)`: one round. -/
def round (v : Variant) (g : Game) : Option Game :=
  (playback (roundHead v g)).bind (verify v)

/-- The round loop `while(mode == simon)`. -/
def roundLoop (v : Variant) (g : Game) : Option Game :=
  whileLoop (fun s => (decide (s.mode = simon), s)) (round v) 256 g

/-! ## Vocabulary of the statements -/

/-- Whether button `i` (1 to 4, on pins SW2 to SW5) is held down in a sample. -/
def isDown (s : Switches) (i : Nat) : Bool :=
  if i = 1 then s.SW2 == pressed
  else if i = 2 then s.SW3 == pressed
  else if i = 3 then s.SW4 == pressed
  else if i = 4 then s.SW5 == pressed
  else false

/-- The events of `n` flashes of LED `num` in the score display. -/
def scoreEvents (num n : Nat) : List Event :=
  (List.replicate n
    [Event.LED num, Event.delay_ms 500, Event.LED 0, Event.delay_ms 500]).flatten

/-- The entry of `game_lose` and its two low notes. -/
def loseSound : List Event :=
  [Event.call_lose, Event.note 1136 500, Event.delay_ms 500, Event.note 2272 400,
    Event.delay_ms 500]

/-- Everything `game_lose` of `UBMP4-Simon-Game.c` emits when it shows
`score`. -/
def loseEvents (score : Nat) : List Event :=
  loseSound ++ scoreEvents 1 (score / 10) ++ scoreEvents 2 (score % 10 / 5)
    ++ scoreEvents 3 (score % 5)

/-- A state of the round loop with `maxStep = m`, every pattern cell holding
symbol 1, and nothing recorded yet. -/
def sampleGame (m : Nat) : Game :=
  { mode := simon, randomSeed := 0, button := 0, pattern := List.replicate patternLength 1,
    step := 0, maxStep := m, idle := 0, newSeed := 0,
    leds := ⟨false, false, false, false, false⟩, sw := [], rnd := [], tmr := [], trace := [],
    oob := [], stray := 0 }

/-- The tone `sound(num)` plays: one note for a button code, nothing
otherwise. -/
def soundEvents (num : Nat) : List Event :=
  if num = 1 then [Event.note 758 379]
  else if num = 2 then [Event.note 451 568]
  else if num = 3 then [Event.note 379 758]
  else if num = 4 then [Event.note 568 451]
  else []

/-- What the verification loop shows for a guess: `LED(button)`,
`sound(button)`, `LED(0)`. -/
def guessEvents (b : Nat) : List Event :=
  Event.LED b :: (soundEvents b ++ [Event.LED 0])

/-- What the playback loop emits for the pattern steps `p`: for each symbol
`LED`, `sound`, `LED(0)` and the 500 ms pause. -/
def playbackEvents : List Nat → List Event
  | [] => []
  | s :: rest =>
    (Event.LED s :: (soundEvents s ++ [Event.LED 0, Event.delay_ms 500])) ++ playbackEvents rest

/-- The polls of a wait loop: `n` delays of 50 ms. -/
def pollEvents (n : Nat) : List Event := List.replicate n (Event.delay_ms 50)

/-- One press of the player as the program samples it: `wait` reads that see
no button, the read `down` that sees the press, the reads `hold` made while
the button stays down, and then a read that sees the release. -/
structure Press where
  wait : Nat
  down : Switches
  hold : List Switches
deriving DecidableEq, Repr

/-- The button code the program reads for a press. -/
def Press.code (p : Press) : Nat := get_button p.down

/-- The pin samples of a press, in the order they are read. -/
def Press.samples (p : Press) : List Switches :=
  List.replicate p.wait released ++ p.down :: (p.hold ++ [released])

/-- A press that arrives and is released before the idle time-out: the read
that sees it comes before `timeOut` polls have gone by, a button is down in
it and in every read while it is held, and it is held for less than
`timeOut` polls. -/
def Press.inTime (p : Press) : Prop :=
  p.wait < timeOut ∧ get_button p.down ≠ 0 ∧ p.hold.length < timeOut ∧
    ∀ s ∈ p.hold, get_button s ≠ 0

instance (p : Press) : Decidable p.inTime := by
  unfold Press.inTime
  infer_instance

/-- The events of a judged press that matches. -/
def Press.events (p : Press) : List Event :=
  pollEvents p.wait ++ guessEvents p.code ++ pollEvents p.hold.length

/-- All the samples of a sequence of presses. -/
def samplesOf (ps : List Press) : List Switches :=
  (ps.map Press.samples).flatten

/-- All the events of a sequence of matching presses. -/
def eventsOf (ps : List Press) : List Event :=
  (ps.map Press.events).flatten

/-- The state after the guess step has judged the press `p` as matching and
has seen its release; `rest` are the samples not yet read. -/
def afterMatch (p : Press) (rest : List Switches) (g : Game) : Game :=
  { g with idle := p.hold.length, button := p.code, step := (g.step + 1) % 256, sw := rest,
           leds := g.leds.light 0, trace := g.trace ++ p.events }

/-- The events of a judged press that does not match, in
`UBMP4-Simon-Game.c` with `maxStep = m`: the polls, the guess, the 500 ms
pause and `game_lose`. -/
def missEvents (p : Press) (m : Nat) : List Event :=
  pollEvents p.wait ++ guessEvents p.code ++ Event.delay_ms 500 :: loseEvents ((m + 255) % 256)

/-- The state after the guess step of `UBMP4-Simon-Game.c` has judged the
press `p` as wrong: `game_lose` has run, the game is off, and the release
loop has read the buttons once. -/
def afterMiss (p : Press) (rest : List Switches) (g : Game) : Game :=
  { g with mode := off, idle := 0, button := p.code, step := (g.step + 1) % 256, maxStep := 0,
           sw := (p.hold ++ released :: rest).tail, leds := g.leds.light 0,
           trace := g.trace ++ missEvents p g.maxStep }

/-- The state after the guess steps have judged the presses `ps` one after
the other as matching; `rest` are the samples that follow them. -/
def afterMatches : List Press → List Switches → Game → Game
  | [], _, g => g
  | p :: ps, rest, g => afterMatches ps rest (afterMatch p (samplesOf ps ++ rest) g)

/-- The presses `ps` agree with the pattern cells from index `i` on. -/
def Matches (pat : List Nat) : Nat → List Press → Prop
  | _, [] => True
  | i, p :: ps => patternGet? pat i = some p.code ∧ Matches pat (i + 1) ps

/-- The markers of the three hooks, as opposed to the output events. -/
def Event.isCall : Event → Bool
  | Event.call_start => true
  | Event.call_win => true
  | Event.call_lose => true
  | _ => false

/-- A stretch of the trace in which no hook is entered. -/
def Quiet (l : List Event) : Prop := ∀ e ∈ l, e.isCall = false

/-- The pins with only button `b` held down. -/
def key (b : Nat) : Switches := ⟨b != 1, b != 2, b != 3, b != 4⟩

/-- A press of button `b` that is seen by the first read and is released by
the next one. -/
def tap (b : Nat) : Press := ⟨0, key b, []⟩

/-- The loss scenario of the specification: the stored pattern starts
`[1, 2, 3]`, `maxStep` is 3, and the player presses 1, 2, 4. -/
def lossScenario : Game :=
  { sampleGame 3 with
    pattern := [1, 2, 3] ++ List.replicate 39 1
    sw := samplesOf [tap 1, tap 2, tap 4] }

/-- The values the program reads from `pattern[s]`, ..., `pattern[s+n-1]`. -/
def cells (g : Game) : Nat → Nat → List Nat
  | _, 0 => []
  | s, n + 1 => loadPattern g s :: cells g (s + 1) n

/-- The out-of-range indices the playback loop records when it plays the
steps `s`, ..., `s+n-1`: each step reads `pattern[step]` twice. -/
def strayReads (pat : List Nat) : Nat → Nat → List Nat
  | _, 0 => []
  | s, n + 1 => (if (patternGet? pat s).isSome then [] else [s, s]) ++ strayReads pat (s + 1) n

/-- What `game_win` emits. -/
def winEvents (v : Variant) : List Event :=
  match v with
  | Variant.starterGame => [Event.call_win]
  | Variant.game =>
    [Event.call_win, Event.LED 1, Event.LED 2, Event.LED 3, Event.LED 4, Event.note 379 500,
      Event.delay_ms 200, Event.note 379 800, Event.LED 0]

/-- The LED latches after `game_win`. -/
def winLeds (v : Variant) (l : Leds) : Leds :=
  match v with
  | Variant.starterGame => l
  | Variant.game => l.light 0

/-- The round body run `n` times in a row. -/
def playRounds (v : Variant) : Nat → Game → Option Game
  | 0, g => some g
  | n + 1, g => (round v g).bind (playRounds v n)

/-- The symbol of pattern step `i` in a game that starts with the `rand()`
results `rnd` still to come. -/
def drawn (rnd : List Nat) (i : Nat) : Nat := symbolOf (rnd.getD i 0)

/-- The presses of a player who reproduces the pattern in round `k + 1`:
`k + 1` presses in time whose codes are the first `k + 1` drawn symbols. -/
def PerfectRound (rnd : List Nat) (k : Nat) (ps : List Press) : Prop :=
  ps.length = k + 1 ∧ (∀ p ∈ ps, p.inTime) ∧
    ∀ i, i < k + 1 → (ps.map Press.code)[i]? = some (drawn rnd i)

/-- A player who reproduces the pattern in every one of the given rounds. -/
def PerfectPlay (rnd : List Nat) (rounds : List (List Press)) : Prop :=
  ∀ k, k < rounds.length → PerfectRound rnd k (rounds.getD k [])

/-- All the samples of the given rounds. -/
def playSamples (rounds : List (List Press)) : List Switches :=
  (rounds.map samplesOf).flatten

instance (rnd : List Nat) (k : Nat) (ps : List Press) : Decidable (PerfectRound rnd k ps) := by
  unfold PerfectRound
  infer_instance

instance (rnd : List Nat) (rounds : List (List Press)) : Decidable (PerfectPlay rnd rounds) := by
  unfold PerfectPlay
  infer_instance

/-- The state of a game started in `g0` and played by a perfect player, when
`n` rounds are done: the first `n` pattern cells hold the drawn symbols, the
samples of the first `n` rounds are read, no hook has been entered and no
access has left the array. -/
def RoundsDone (g0 : Game) (rounds : List (List Press)) (rest : List Switches) (n : Nat)
    (g : Game) : Prop :=
  g.mode = simon ∧ g.maxStep = n ∧ g.pattern.length = patternLength ∧
  (∀ i, i < n → g.pattern[i]? = some (drawn g0.rnd i)) ∧
  g.rnd = g0.rnd.drop n ∧ g.sw = playSamples (rounds.drop n) ++ rest ∧
  List.count Event.call_win g.trace = List.count Event.call_win g0.trace ∧
  List.count Event.call_lose g.trace = List.count Event.call_lose g0.trace ∧
  g.oob = g0.oob

/-- A perfect play of 42 rounds in a game whose `rand()` always returns 0, so
that every symbol is 1: round `k + 1` is `k + 1` taps of button 1. -/
def perfectTaps : List (List Press) :=
  (List.range patternLength).map fun k => List.replicate (k + 1) (tap 1)

/-- A freshly started game with the samples of `perfectTaps` to come. -/
def perfectGame : Game :=
  { sampleGame 0 with sw := playSamples perfectTaps }

/-- The state at the head of a loop after exactly `k` runs of its body, when
the condition held before each of them. -/
def loopState {σ : Type} (cond : σ → Bool × σ) (body : σ → Option σ) : Nat → σ → Option σ
  | 0, s => some s
  | k + 1, s => if (cond s).1 then (body (cond s).2).bind (loopState cond body k) else none

/-- What waiting and showing leave alone: the pattern, the counters `step`
and `maxStep`, the random numbers to come, and the number of entries of every
hook; the mode stays as it is or becomes off. -/
def Kept (g g' : Game) : Prop :=
  g'.pattern = g.pattern ∧ g'.maxStep = g.maxStep ∧ g'.step = g.step ∧ g'.rnd = g.rnd ∧
  (g'.mode = g.mode ∨ g'.mode = off) ∧
  ∀ e : Event, e.isCall = true → List.count e g'.trace = List.count e g.trace

/-- What one guess of the player leaves alone: the pattern, the random
numbers to come and the number of `game_win` calls; the mode stays as it is
or becomes off; and, as long as the game goes on, `maxStep` is kept while
`step` advances by one. -/
def GuessKept (g g' : Game) : Prop :=
  g'.pattern = g.pattern ∧ g'.rnd = g.rnd ∧ g'.maxStep < 256 ∧
  List.count Event.call_win g'.trace = List.count Event.call_win g.trace ∧
  (g'.mode = g.mode ∨ g'.mode = off) ∧
  (g'.mode = simon → g'.maxStep = g.maxStep ∧ g'.step = (g.step + 1) % 256)

/-- A game after 41 rounds, with all cells holding symbol 1 and `rand()`
returning 0, whose player taps button 1 forty-two times in the next round. -/
def round42Game : Game :=
  { sampleGame 41 with sw := samplesOf (List.replicate 42 (tap 1)) }

/-! ## The Off loop of `main`: sleep, wake-up and game start -/

/-- What the device header and the C library, which are not among the
sources, fix for the program: what `srand(seed)` makes of the `rand()` results
still to come, and the positions of the bits `GIE`, `IOCIE` and `IOCIF` in
`INTCON`. -/
structure Target where
  reseed : Nat → List Nat → List Nat
  bitGIE : Nat
  bitIOCIE : Nat
  bitIOCIF : Nat

/-- The interrupt registers the program writes. -/
structure Intr where
  IOCAF : Nat
  IOCBF : Nat
  IOCAN : Nat
  IOCBN : Nat
  INTCON : Nat
deriving DecidableEq, Repr

/-- Set bit `i` of an 8-bit register. -/
def setBit (x i : Nat) : Nat := Nat.lor x (2 ^ i) % 256

/-- Clear bit `i` of a register: the bits of `x` without the one `x` shares
with the mask `2 ^ i`. -/
def clearBit (x i : Nat) : Nat := Nat.xor x (Nat.land x (2 ^ i))

/-- The flag `IOCIF`. -/
def Intr.IOCIF (T : Target) (r : Intr) : Bool := r.INTCON.testBit T.bitIOCIF

/-- The enable bit `IOCIE`. -/
def Intr.IOCIE (T : Target) (r : Intr) : Bool := r.INTCON.testBit T.bitIOCIE

/-- The interrupt function `wake`, up to the end of its body: `di()`, then
the flags are cleared for an interrupt-on-change, and the interrupt
configuration is written anew for any other interrupt. -/
def wake (T : Target) (r : Intr) : Intr :=
  let r := { r with INTCON := clearBit r.INTCON T.bitGIE }
  if r.IOCIF T = true ∧ r.IOCIE T = true then
    let r := { r with IOCAF := 0 }
    let r := { r with IOCBF := 0 }
    { r with INTCON := clearBit r.INTCON T.bitIOCIF }
  else
    let r := { r with IOCAN := 0b00001000 }
    let r := { r with IOCBN := 0b11110000 }
    { r with INTCON := 0b00001000 }

/-- What ends a sleep: a change on the button pins, which sets port flags and
`IOCIF`, or some other interrupt. -/
inductive WakeUp
  | buttonChange (flagsA flagsB : Nat)
  | other
deriving DecidableEq, Repr

/-- What the hardware does to the registers when the interrupt arrives. -/
def raise (T : Target) (c : WakeUp) (r : Intr) : Intr :=
  match c with
  | WakeUp.buttonChange a b =>
    { r with IOCAF := a, IOCBF := b, INTCON := setBit r.INTCON T.bitIOCIF }
  | WakeUp.other => r

/-- The processor: the game, the interrupt registers and the interrupts that
will end the sleeps to come. -/
structure Machine where
  game : Game
  intr : Intr
  wakeups : List WakeUp
deriving DecidableEq, Repr

/-- Modelled from the spec: the header `UBMP420.h`, which places the LEDs on
the port pins, is missing; by section 4.4 entering low power clears all
visual indicators, so `LATC = 0` is taken to clear the four game LEDs. -/
def clearPortC (l : Leds) : Leds :=
  { l with LED2 := false, LED3 := false, LED4 := false, LED5 := false }

/-- The function `nap`: power LED off, port C cleared, interrupt flags
cleared, interrupts enabled, `SLEEP()`. The sleep ends with the next
interrupt, on which `wake` runs; `none` when no interrupt ever comes. -/
def nap (T : Target) (m : Machine) : Option Machine :=
  let g := { m.game with leds := { m.game.leds with LED1 := true } }
  let g := { g with leds := clearPortC g.leds }
  let r := { m.intr with IOCAF := 0 }
  let r := { r with IOCBF := 0 }
  let r := { r with INTCON := clearBit r.INTCON T.bitIOCIF }
  let r := { r with INTCON := setBit r.INTCON T.bitGIE }
  let g := emit Event.sleep g
  match m.wakeups with
  | [] => none
  | c :: rest => some { game := g, intr := wake T (raise T c r), wakeups := rest }

/-- The condition `SW2 == pressed || SW3 == pressed || SW4 == pressed ||
SW5 == pressed` on one sample of the pins. -/
def anyPressed (s : Switches) : Bool :=
  s.SW2 == pressed || s.SW3 == pressed || s.SW4 == pressed || s.SW5 == pressed

/-- One evaluation of the condition of the release wait: it samples the
pins. -/
def releasedCond (g : Game) : Bool × Game :=
  match g.sw with
  | [] => (anyPressed released, emit (Event.pins released) g)
  | s :: rest => (anyPressed s, emit (Event.pins s) { g with sw := rest })

/-- The wait `while(SW2 == pressed || ... || SW5 == pressed);` for the release
of all buttons. The recorded samples are finite and the pins read as released
after them, so that as many runs as there are samples are enough. -/
def waitAllReleased (g : Game) : Option Game :=
  whileLoop releasedCond (fun s => some s) g.sw.length g

/-- The seed mix `(newSeed << 8) | randomSeed` in the 16 bits of an
`unsigned int`. -/
def mixSeed (s t : Nat) : Nat := Nat.lor (Nat.shiftLeft s 8) t % 65536

/-- A call `srand(seed)`. -/
def srand (T : Target) (seed : Nat) (g : Game) : Game :=
  emit (Event.srand seed) { g with rnd := T.reseed seed g.rnd }

/-- The Off loop body after `nap()` has returned: power LED on,
`game_start()`, the wait for the release of the buttons, the new seed from
`TMR0`, `srand`, `maxStep = 0`, `mode = simon`. -/
def offWake (T : Target) (v : Variant) (g : Game) : Option Game :=
  let g := { g with leds := { g.leds with LED1 := false } }
  let g := game_start v g
  (waitAllReleased g).map fun g =>
  let g := { g with randomSeed := g.tmr.headD 0 % 256, tmr := g.tmr.tail }
  let g := { g with newSeed := mixSeed g.newSeed g.randomSeed }
  let g := srand T g.newSeed g
  let g := { g with maxStep := 0 }
  { g with mode := simon }

/-- The body of `while(mode == off)`. -/
def offBody (T : Target) (v : Variant) (m : Machine) : Option Machine :=
  (nap T { m with game := LED 0 m.game }).bind fun m =>
  (offWake T v m.game).map fun g => { m with game := g }

/-- The Off loop `while(mode == off)`: its body leaves with `mode == simon`,
so one run is enough. -/
def offLoop (T : Target) (v : Variant) (m : Machine) : Option Machine :=
  whileLoop (fun s => (decide (s.game.mode = off), s)) (offBody T v) 1 m

/-- One turn of the endless loop `while(1)` of `main`: the Off loop, then the
round loop. -/
def mainIter (T : Target) (v : Variant) (m : Machine) : Option Machine :=
  (offLoop T v m).bind fun m => (roundLoop v m.game).map fun g => { m with game := g }

/-- The first `n` turns of `while(1)`. -/
def mainIters (T : Target) (v : Variant) : Nat → Machine → Option Machine
  | 0, m => some m
  | n + 1, m => (mainIter T v m).bind (mainIters T v n)

/-- The device of the sources: `GIE`, `IOCIE` and `IOCIF` are bits 7, 3 and 0
of `INTCON`; `rand()` is left to return the recorded results whatever the
seed. -/
def ubmp4 : Target := ⟨fun _ old => old, 7, 3, 0⟩

/-- The machine at power-on with the given inputs to come: `mode == off`,
all variables 0, interrupt-on-change enabled. -/
def powerOn (sw : List Switches) (rnd tmr : List Nat) (wakeups : List WakeUp) : Machine :=
  { game := { sampleGame 0 with mode := off, sw := sw, rnd := rnd, tmr := tmr },
    intr := ⟨0, 0, 0b00001000, 0b11110000, 0b00001000⟩,
    wakeups := wakeups }

/-- A game at `maxStep = 3` whose player presses button 1, which matches the
pattern, and never lets go of it. -/
def stuckGame : Game :=
  { sampleGame 3 with sw := key 1 :: List.replicate 2401 (key 1) }

/-- What `game_start` emits. -/
def startEvents (v : Variant) : List Event :=
  match v with
  | Variant.starterGame => [Event.call_start]
  | Variant.game =>
    [Event.call_start, Event.LED 1, Event.note 758 200, Event.LED 4, Event.note 568 200,
      Event.LED 2, Event.note 451 200, Event.LED 3, Event.note 379 200, Event.LED 0]

/-- The LED latches after `game_start`. -/
def startLeds (v : Variant) (l : Leds) : Leds :=
  match v with
  | Variant.starterGame => l
  | Variant.game => l.light 0

/-- The reads of the pins in the wait for the release of all buttons: one
for each sample that shows a button down, and the one that ends the wait. -/
def releasePins (sw : List Switches) : List Event :=
  (sw.takeWhile anyPressed).map Event.pins
    ++ [Event.pins ((sw.dropWhile anyPressed).headD released)]

/-- The interrupt registers when `nap` executes `SLEEP()`. -/
def napRegs (T : Target) (r : Intr) : Intr :=
  { r with IOCAF := 0, IOCBF := 0, INTCON := setBit (clearBit r.INTCON T.bitIOCIF) T.bitGIE }

/-- The seed the Off loop passes to `srand` from the state `g`. -/
def nextSeed (g : Game) : Nat := mixSeed g.newSeed (g.tmr.headD 0 % 256)

/-- The game when the Off loop body, entered in state `g`, has run. -/
def started (T : Target) (v : Variant) (g : Game) : Game :=
  { g with
    mode := simon, maxStep := 0,
    randomSeed := g.tmr.headD 0 % 256, tmr := g.tmr.tail,
    newSeed := nextSeed g, rnd := T.reseed (nextSeed g) g.rnd,
    sw := (g.sw.dropWhile anyPressed).tail,
    leds := startLeds v { clearPortC (g.leds.light 0) with LED1 := false },
    trace := g.trace ++ [Event.LED 0, Event.sleep] ++ startEvents v ++ releasePins g.sw
      ++ [Event.srand (nextSeed g)] }

/-- A machine in the Off loop after a game that was won (`maxStep` is 43),
woken by button 2, which is read as down once before it is released. -/
def wonMachine : Machine :=
  { game := { sampleGame 43 with mode := off, sw := [key 2, released], tmr := [9], newSeed := 7 },
    intr := ⟨0, 0, 0b00001000, 0b11110000, 0b00001000⟩,
    wakeups := [WakeUp.buttonChange 0 32] }

/-- Whether an event is a call of `rand`. -/
def Event.isRand : Event → Bool
  | Event.rand _ => true
  | _ => false

/-- Whether an event is a call of `srand`. -/
def Event.isSrand : Event → Bool
  | Event.srand _ => true
  | _ => false

/-- An event that is neither a call of `rand` nor one of `srand`. -/
def Event.plain (e : Event) : Prop := e.isRand = false ∧ e.isSrand = false

/-- The trace of `g'` is the trace of `g` followed by events that all
satisfy `P`. -/
def Adds (P : Event → Prop) (g g' : Game) : Prop :=
  ∃ l, g'.trace = g.trace ++ l ∧ ∀ e ∈ l, P e

/-- What `j` rounds of a game whose `rand()` results were `R` at its start
have made of the state: `j` results are used up, the first `j` cells of the
array hold the symbols drawn from them, and while the game goes on `maxStep`
is `j`, at most 42. -/
def Drawn (R : List Nat) (j : Nat) (s : Game) : Prop :=
  s.rnd = R.drop j ∧ s.pattern.length = patternLength ∧
  (s.mode = simon → s.maxStep = j ∧ j ≤ patternLength) ∧
  ∀ i, i < j → i < patternLength → s.pattern[i]? = some (drawn R i)

/-- The results of a linear congruential generator started from `seed`, as
a sample of a `rand()` whose results are fixed by the seed. -/
def lcgResults (seed : Nat) : List Nat :=
  (List.iterate (fun x => (x * 1103515245 + 12345) % 2147483648) seed 65).tail.map
    fun x => x / 65536 % 32768

/-- A target whose `srand` sets the state of the generator: the results to
come depend on the seed alone. -/
def seeded : Target := ⟨fun seed _ => lcgResults seed, 7, 3, 0⟩

/-- A machine at power-on whose player taps button 1 at once in the first
round and taps 1 and 3 in the second. -/
def quickPlayer : Machine :=
  powerOn [released, key 1, released, key 1, released, key 3, released] [] [7]
    [WakeUp.buttonChange 0 16]

/-- A machine at power-on, woken with button 4 down, whose player waits and
then holds button 1 in the first round and presses 2 in the second. -/
def slowPlayer : Machine :=
  powerOn [key 4, released, released, released, key 1, key 1, key 1, released, key 2] [] [7]
    [WakeUp.buttonChange 0 128]

/-- The hook entries of a trace, in order. -/
def calls (l : List Event) : List Event := l.filter Event.isCall

/-- What a state `a` of `UBMP4-Simon-Game.c` and a state `b` of
`UBMP4-Simon-Starter-Game.c` have in common when the two programs have run
on the same inputs: the mode, the pattern (with the record of the accesses
outside the array), `step`, `button`, `idle`, the seeds, the inputs still to
come and the sequence of hook entries so far; `maxStep` as long as a game
goes on. The LEDs and the rest of the trace, which the hook bodies change,
are left out, and so is `maxStep` while the game is off. -/
structure Same (a b : Game) : Prop where
  mode : a.mode = b.mode
  pattern : a.pattern = b.pattern
  step : a.step = b.step
  button : a.button = b.button
  idle : a.idle = b.idle
  sw : a.sw = b.sw
  rnd : a.rnd = b.rnd
  tmr : a.tmr = b.tmr
  newSeed : a.newSeed = b.newSeed
  randomSeed : a.randomSeed = b.randomSeed
  oob : a.oob = b.oob
  stray : a.stray = b.stray
  calls : calls a.trace = calls b.trace
  maxStep : a.mode = simon → a.maxStep = b.maxStep
  bound : a.mode = simon → a.maxStep < 256

/-- The same for the two machines: also the interrupt registers and the
interrupts to come. -/
structure SameMachine (a b : Machine) : Prop where
  game : Same a.game b.game
  intr : a.intr = b.intr
  wakeups : a.wakeups = b.wakeups

/-- Two runs that both return, with results related by `R`, or both do not
return. -/
def Both {α β : Type} (R : α → β → Prop) : Option α → Option β → Prop
  | some a, some b => R a b
  | none, none => True
  | _, _ => False

/-- A machine at power-on whose player loses the first round of the first
game with a press of button 2, where the pattern holds 1, and matches the
first round of the second game. -/
def losingPlayer : Machine :=
  powerOn [released, key 2, released, released, key 1, released] [0, 0, 0, 0] [7, 9]
    [WakeUp.buttonChange 0 32, WakeUp.buttonChange 0 16]

/-- What the round loop leaves alone of the seed material: `newSeed`,
`randomSeed` and the timer samples to come. -/
def SeedKept (g g' : Game) : Prop :=
  g'.newSeed = g.newSeed ∧ g'.randomSeed = g.randomSeed ∧ g'.tmr = g.tmr

/-- The arguments of the `srand` calls of a trace, in order. -/
def seedsOf : List Event → List Nat
  | [] => []
  | Event.srand seed :: es => seed :: seedsOf es
  | _ :: es => seedsOf es

/-- The `i`-th timer sample (from 1) of a list of values of `TMR0`, as the
8 bits stored in `randomSeed`. -/
def sample (ts : List Nat) (i : Nat) : Nat := ts.getD (i - 1) 0 % 256

/-- The seeds of the next `n` games when `newSeed` is `s` and the values of
`TMR0` to come are `ts`: each game mixes one sample into the seed of the
game before. -/
def seedRun (s : Nat) : List Nat → Nat → List Nat
  | _, 0 => []
  | ts, n + 1 =>
    mixSeed s (ts.headD 0 % 256) :: seedRun (mixSeed s (ts.headD 0 % 256)) ts.tail n

/-- The state in which a guess step enters its loop that waits for a
press: `idle = 0` and the first read of the buttons are done. -/
def pressEntry (g : Game) : Game :=
  { g with idle := 0, sw := g.sw.tail, button := get_button (g.sw.headD released) }

/-- Whether an event is one of the four tones `sound` plays for a button. -/
def Event.isTone (e : Event) : Bool :=
  decide (e ∈ soundEvents 1 ++ soundEvents 2 ++ soundEvents 3 ++ soundEvents 4)

/-- The number of places in a sequence of results of `get_button` where a 0
is followed by a button code: the transitions from released to pressed. -/
def rises : List Nat → Nat
  | [] => 0
  | a :: t => (if a = 0 ∧ t.headD 0 ≠ 0 then 1 else 0) + rises t

/-- From state `a` to state `b` the program has read the samples `Q` of the
pins, in this order (the pins read as released once the recorded samples are
used up), and has played `n` button tones. -/
def Heard (a b : Game) (Q : List Switches) (n : Nat) : Prop :=
  (∃ j, Q ++ b.sw = a.sw ++ List.replicate j released) ∧
  ∃ l, b.trace = a.trace ++ l ∧ l.countP Event.isTone = n

theorem whileLoop_stop {σ : Type} (cond : σ → Bool × σ) (body : σ → Option σ) (n : Nat) (s : σ)
    (h : (cond s).1 = false) : whileLoop cond body n s = some (cond s).2 := by
  cases n <;> simp [whileLoop, h]

theorem whileLoop_step {σ : Type} (cond : σ → Bool × σ) (body : σ → Option σ) (n : Nat) (s : σ)
    (h : (cond s).1 = true) :
    whileLoop cond body (n + 1) s = (body (cond s).2).bind (whileLoop cond body n) := by
  simp [whileLoop, h]

/-- More fuel does not change a result. -/
theorem whileLoop_mono {σ : Type} (cond : σ → Bool × σ) (body : σ → Option σ) {n : Nat} :
    ∀ {s t : σ} {m : Nat}, whileLoop cond body n s = some t → n ≤ m →
      whileLoop cond body m s = some t := by
  induction n with
  | zero =>
    intro s t m h _
    by_cases hc : (cond s).1 = true
    · simp [whileLoop, hc] at h
    · simp only [Bool.not_eq_true] at hc
      rw [whileLoop_stop cond body _ _ hc] at h ⊢
      exact h
  | succ n ih =>
    intro s t m h hm
    obtain ⟨m, rfl⟩ : ∃ k, m = k + 1 := ⟨m - 1, by omega⟩
    by_cases hc : (cond s).1 = true
    · rw [whileLoop_step cond body _ _ hc] at h ⊢
      cases hb : body (cond s).2 with
      | none => simp [hb] at h
      | some u =>
        simp only [hb, Option.some_bind] at h ⊢
        exact ih h (by omega)
    · simp only [Bool.not_eq_true] at hc
      rw [whileLoop_stop cond body _ _ hc] at h ⊢
      exact h

/-- Invariant rule: what holds before the loop and is kept by the body holds,
together with the exit condition, for the result. -/
theorem whileLoop_inv {σ : Type} (cond : σ → Bool × σ) (body : σ → Option σ)
    (I : σ → Prop) (J : σ → Prop)
    (hbody : ∀ s s', I s → (cond s).1 = true → body (cond s).2 = some s' → I s')
    (hexit : ∀ s, I s → (cond s).1 = false → J (cond s).2) :
    ∀ (n : Nat) (s t : σ), I s → whileLoop cond body n s = some t → J t := by
  intro n
  induction n with
  | zero =>
    intro s t hI h
    by_cases hc : (cond s).1 = true
    · simp [whileLoop, hc] at h
    · simp only [Bool.not_eq_true] at hc
      rw [whileLoop_stop cond body _ _ hc] at h
      cases h
      exact hexit s hI hc
  | succ n ih =>
    intro s t hI h
    by_cases hc : (cond s).1 = true
    · rw [whileLoop_step cond body _ _ hc] at h
      cases hb : body (cond s).2 with
      | none => simp [hb] at h
      | some u =>
        simp only [hb, Option.some_bind] at h
        exact ih u t (hbody s u hI hc hb) h
    · simp only [Bool.not_eq_true] at hc
      rw [whileLoop_stop cond body _ _ hc] at h
      cases h
      exact hexit s hI hc

/-- Termination rule: a measure that the body decreases bounds the fuel
needed. -/
theorem whileLoop_total {σ : Type} (cond : σ → Bool × σ) (body : σ → Option σ)
    (I : σ → Prop) (μ : σ → Nat)
    (hbody : ∀ s, I s → (cond s).1 = true →
      ∃ s', body (cond s).2 = some s' ∧ I s' ∧ μ s' < μ s) :
    ∀ (n : Nat) (s : σ), I s → μ s ≤ n → ∃ t, whileLoop cond body n s = some t := by
  intro n
  induction n with
  | zero =>
    intro s hI hμ
    by_cases hc : (cond s).1 = true
    · obtain ⟨s', _, _, hlt⟩ := hbody s hI hc
      omega
    · simp only [Bool.not_eq_true] at hc
      exact ⟨_, whileLoop_stop cond body _ _ hc⟩
  | succ n ih =>
    intro s hI hμ
    by_cases hc : (cond s).1 = true
    · obtain ⟨s', hb, hI', hlt⟩ := hbody s hI hc
      rw [whileLoop_step cond body _ _ hc, hb]
      exact ih s' hI' (by omega)
    · simp only [Bool.not_eq_true] at hc
      exact ⟨_, whileLoop_stop cond body _ _ hc⟩

/-! ### Symbols and buttons -/

theorem land_three (r : Nat) : Nat.land r 3 = r % 4 := by
  have := Nat.and_pow_two_sub_one_eq_mod r 2
  simpa using this

theorem symbolOf_eq (r : Nat) : symbolOf r = r % 4 + 1 := by
  unfold symbolOf
  rw [land_three]
  omega

theorem count_mod_four (k n : Nat) (hk : k < 4) :
    ((List.range (4 * n)).filter (fun r => decide (r % 4 = k))).length = n := by
  induction n with
  | zero => simp
  | succ n ih =>
    have h : 4 * (n + 1) = 4 * n + 1 + 1 + 1 + 1 := by ring
    rw [h]
    simp only [List.range_succ, List.filter_append, List.length_append, ih]
    simp [List.filter_cons]
    have : (4 * n) % 4 = 0 := by omega
    have : (4 * n + 1) % 4 = 1 := by omega
    have : (4 * n + 2) % 4 = 2 := by omega
    have : (4 * n + 3) % 4 = 3 := by omega
    interval_cases k <;> simp [*]

theorem count_symbol (k n : Nat) (hk : k < 4) :
    ((List.range (4 * n)).filter (fun r => decide (symbolOf r = k + 1))).length = n := by
  have h := count_mod_four k n hk
  have e : (List.range (4 * n)).filter (fun r => decide (symbolOf r = k + 1))
      = (List.range (4 * n)).filter (fun r => decide (r % 4 = k)) := by
    apply List.filter_congr
    intro r _
    rw [symbolOf_eq]
    simp
  rw [e, h]

/-- C9: for every result `r` of `rand()` (0 to 32767) the stored symbol
`(r & 3) + 1` is one of 1, 2, 3, 4, and each of the four symbols is the image
of exactly 8192 of the 32768 possible results. -/
theorem symbol_generation :
    (∀ r, r ≤ randMax → symbolOf r ∈ [1, 2, 3, 4]) ∧
    (∀ s ∈ [1, 2, 3, 4],
      ((List.range (randMax + 1)).filter (fun r => decide (symbolOf r = s))).length = 8192) := by
  constructor
  · intro r _
    rw [symbolOf_eq]
    have : r % 4 < 4 := Nat.mod_lt _ (by norm_num)
    interval_cases r % 4 <;> simp
  · intro s hs
    have e : randMax + 1 = 4 * 8192 := by decide
    rw [e]
    simp only [List.mem_cons, List.mem_singleton, List.not_mem_nil, or_false] at hs
    rcases hs with rfl | rfl | rfl | rfl
    · exact count_symbol 0 8192 (by norm_num)
    · exact count_symbol 1 8192 (by norm_num)
    · exact count_symbol 2 8192 (by norm_num)
    · exact count_symbol 3 8192 (by norm_num)

/-- C10: `get_button` returns 0 exactly when none of the four switches is
pressed; otherwise it returns the least `i` in 1..4 whose switch SW(i+1) is
pressed; the result is always at most 4. -/
theorem get_button_priority (s : Switches) :
    (get_button s = 0 ↔ ∀ i, isDown s i = false) ∧
    (get_button s ≠ 0 →
      1 ≤ get_button s ∧ isDown s (get_button s) = true ∧
      ∀ j, 1 ≤ j → j < get_button s → isDown s j = false) ∧
    get_button s ≤ 4 := by
  rcases s with ⟨a, b, c, d⟩
  refine ⟨?_, ?_, ?_⟩
  · constructor
    · intro h i
      cases a <;> cases b <;> cases c <;> cases d <;>
        simp [get_button, pressed] at h
      simp only [isDown, pressed]
      split_ifs <;> rfl
    · intro h
      have h1 := h 1
      have h2 := h 2
      have h3 := h 3
      have h4 := h 4
      cases a <;> cases b <;> cases c <;> cases d <;>
        simp [isDown, pressed] at h1 h2 h3 h4 <;> rfl
  · intro h
    refine ⟨by omega, ?_, ?_⟩
    · cases a <;> cases b <;> cases c <;> cases d <;>
        simp [get_button, pressed, isDown] at h ⊢
    · intro j h1 h2
      cases a <;> cases b <;> cases c <;> cases d <;>
        simp [get_button, pressed] at h2 <;>
        first
        | omega
        | (interval_cases j <;> simp [isDown, pressed])
  · cases a <;> cases b <;> cases c <;> cases d <;> simp [get_button, pressed]

/-! ### The hook `game_lose` -/

theorem light_light_zero (num : Nat) (l : Leds) : (l.light num).light 0 = l.light 0 := by
  simp only [Leds.light]
  split_ifs <;> simp_all

theorem scoreEvents_succ (num n : Nat) :
    scoreEvents num (n + 1)
      = [Event.LED num, Event.delay_ms 500, Event.LED 0, Event.delay_ms 500]
          ++ scoreEvents num n := by
  simp [scoreEvents, List.replicate_succ]

/-- A score loop `while(maxStep >= k)` runs `q` times when `maxStep` holds
`q` times `k` and a remainder. -/
theorem scoreLoop (num k : Nat) (hk : 0 < k) : ∀ (q : Nat) (g : Game) (fuel : Nat),
    q * k ≤ g.maxStep → g.maxStep < q * k + k → g.maxStep < 256 → q ≤ fuel →
    whileLoop (fun s => (decide (k ≤ s.maxStep), s)) (fun s => some (scoreFlash num k s)) fuel g
      = some { g with
          maxStep := g.maxStep - q * k
          leds := if q = 0 then g.leds else g.leds.light 0
          trace := g.trace ++ scoreEvents num q } := by
  intro q
  induction q with
  | zero =>
    intro g fuel _ h2 _ _
    rw [whileLoop_stop]
    · simp [scoreEvents]
    · simp; omega
  | succ q ih =>
    intro g fuel h1 h2 h3 h4
    obtain ⟨fuel, rfl⟩ : ∃ f, fuel = f + 1 := ⟨fuel - 1, by omega⟩
    have hq : (q + 1) * k = q * k + k := by ring
    have hle : k ≤ g.maxStep := by omega
    rw [whileLoop_step _ _ _ _ (by simpa using hle)]
    simp only [Option.some_bind]
    have hm : (scoreFlash num k g).maxStep = g.maxStep - k := by
      simp [scoreFlash, LED, delay_ms, emit]
      omega
    rw [ih (scoreFlash num k g) fuel (by omega) (by omega) (by omega) (by omega), hm]
    have e : g.maxStep - k - q * k = g.maxStep - (q + 1) * k := by omega
    simp [scoreFlash, LED, delay_ms, emit, light_light_zero, scoreEvents_succ, e]

theorem scoreLoop_ones (q : Nat) (g : Game) (fuel : Nat) (h1 : g.maxStep = q)
    (h3 : g.maxStep < 256) (h4 : q ≤ fuel) :
    whileLoop (fun s => (decide (0 < s.maxStep), s)) (fun s => some (scoreFlash 3 1 s)) fuel g
      = some { g with
          maxStep := 0
          leds := if q = 0 then g.leds else g.leds.light 0
          trace := g.trace ++ scoreEvents 3 q } := by
  have := scoreLoop 3 1 (by norm_num) q g fuel (by omega) (by omega) h3 h4
  have e : g.maxStep - q * 1 = 0 := by omega
  rw [e] at this
  exact this

/-- The hook `game_lose` of `UBMP4-Simon-Game.c` in closed form: it returns,
shows `maxStep - 1` and leaves `maxStep` at 0. -/
theorem game_lose_game (g : Game) (h : g.maxStep < 256) :
    game_lose Variant.game g = some { g with
      maxStep := 0
      leds := if (g.maxStep + 255) % 256 = 0 then g.leds else g.leds.light 0
      trace := g.trace ++ loseEvents ((g.maxStep + 255) % 256) } := by
  have hs : (g.maxStep + 256 - 1) % 256 = (g.maxStep + 255) % 256 := by omega
  have hsc : (g.maxStep + 255) % 256 < 256 := Nat.mod_lt _ (by norm_num)
  generalize (g.maxStep + 255) % 256 = sc at hs hsc ⊢
  have e1 := scoreLoop 1 10 (by norm_num) (sc / 10)
    { g with maxStep := sc, trace := g.trace ++ loseSound } 256
    (by simp only; omega) (by simp only; omega) (by simp only; omega) (by omega)
  have e2 := scoreLoop 2 5 (by norm_num) (sc % 10 / 5)
    { g with maxStep := sc - sc / 10 * 10
             leds := if sc / 10 = 0 then g.leds else g.leds.light 0
             trace := g.trace ++ loseSound ++ scoreEvents 1 (sc / 10) } 256
    (by simp only; omega) (by simp only; omega) (by simp only; omega) (by omega)
  have e3 := scoreLoop_ones (sc % 5)
    { g with maxStep := sc - sc / 10 * 10 - sc % 10 / 5 * 5
             leds := if sc % 10 / 5 = 0 then (if sc / 10 = 0 then g.leds else g.leds.light 0)
                     else (if sc / 10 = 0 then g.leds else g.leds.light 0).light 0
             trace := g.trace ++ loseSound ++ scoreEvents 1 (sc / 10)
                        ++ scoreEvents 2 (sc % 10 / 5) } 256
    (by simp only; omega) (by simp only; omega) (by omega)
  simp only [game_lose, note_low, note_lower, delay_ms, emit, hs, List.append_assoc,
    List.singleton_append, List.cons_append, List.nil_append]
  simp only [loseSound, List.append_assoc, List.singleton_append, List.cons_append,
    List.nil_append] at e1 e2 e3
  rw [e1]
  simp only [Option.some_bind]
  rw [e2]
  simp only [Option.some_bind]
  rw [e3]
  simp only [loseEvents, loseSound, List.append_assoc, List.singleton_append, List.cons_append,
    List.nil_append]
  congr 2
  by_cases a : sc / 10 = 0 <;> by_cases b : sc % 10 / 5 = 0 <;> by_cases c : sc % 5 = 0 <;>
    by_cases d : sc = 0 <;> simp [a, b, c, d, light_light_zero]
  all_goals omega

/-- C4: when `game_lose` of `UBMP4-Simon-Game.c` is entered with
`maxStep = m`, `1 ≤ m ≤ 42`, it returns after the losing sound and after
flashing LED 1 `a` times, then LED 2 `b` times, then LED 3 `c` times, with
`a = (m-1)/10`, `b = ((m-1) mod 10)/5`, `c = (m-1) mod 5`, so that
`10a + 5b + c = m - 1`, `b ≤ 1` and `c ≤ 4`. -/
theorem game_lose_score (g : Game) (m : Nat) (hm : g.maxStep = m) (h1 : 1 ≤ m)
    (h42 : m ≤ patternLength) :
    ∃ g', game_lose Variant.game g = some g' ∧
      g'.trace = g.trace ++ loseSound ++ scoreEvents 1 ((m - 1) / 10)
        ++ scoreEvents 2 ((m - 1) % 10 / 5) ++ scoreEvents 3 ((m - 1) % 5) ∧
      10 * ((m - 1) / 10) + 5 * ((m - 1) % 10 / 5) + (m - 1) % 5 = m - 1 ∧
      (m - 1) % 10 / 5 ≤ 1 ∧ (m - 1) % 5 ≤ 4 := by
  have h42' : m ≤ 42 := h42
  have hlt : g.maxStep < 256 := by omega
  have e : (g.maxStep + 255) % 256 = m - 1 := by omega
  refine ⟨_, game_lose_game g hlt, ?_, by omega, by omega, by omega⟩
  simp only [e, loseEvents, List.append_assoc]

/-- C4 at the mismatch of the spec's loss scenario: `maxStep = 3` gives the
score 2, shown as no flash of LED 1, none of LED 2 and two of LED 3. -/
theorem game_lose_score_witness :
    ∃ g', game_lose Variant.game (sampleGame 3) = some g' ∧
      g'.trace = (sampleGame 3).trace ++ loseSound ++ scoreEvents 1 0
        ++ scoreEvents 2 0 ++ scoreEvents 3 2 ∧
      10 * 0 + 5 * 0 + 2 = 3 - 1 ∧ 0 ≤ 1 ∧ 2 ≤ 4 :=
  game_lose_score (sampleGame 3) 3 rfl (by decide) (by decide)

/-! ### Normal forms of the straight-line pieces -/

theorem readButton_eq (g : Game) :
    readButton g = (get_button (g.sw.headD released), { g with sw := g.sw.tail }) := by
  unfold readButton
  cases h : g.sw with
  | nil => simp [h]; cases g; simp_all
  | cons s rest => simp

theorem LED_eq (num : Nat) (g : Game) :
    LED num g = { g with leds := g.leds.light num, trace := g.trace ++ [Event.LED num] } := rfl

theorem delay_ms_eq (ms : Nat) (g : Game) :
    delay_ms ms g = { g with trace := g.trace ++ [Event.delay_ms ms] } := rfl

theorem sound_eq (num : Nat) (g : Game) :
    sound num g = { g with trace := g.trace ++ soundEvents num } := by
  unfold sound soundEvents note_E5 note_CS6 note_E6 note_A5 emit
  split_ifs <;> simp

theorem idleTick_eq (g : Game) :
    idleTick g = { g with
      idle := (g.idle + 1) % 65536
      mode := if (g.idle + 1) % 65536 = timeOut then off else g.mode } := by
  unfold idleTick
  simp only
  split_ifs <;> rfl

theorem waitPressBody_eq (g : Game) :
    waitPressBody g = { g with
      button := get_button (g.sw.headD released)
      sw := g.sw.tail
      idle := (g.idle + 1) % 65536
      mode := if (g.idle + 1) % 65536 = timeOut then off else g.mode
      trace := g.trace ++ [Event.delay_ms 50] } := by
  simp only [waitPressBody, readButton_eq, idleTick_eq, delay_ms_eq]

theorem releaseCond_eq (g : Game) :
    releaseCond g = (decide (get_button (g.sw.headD released) ≠ 0) && decide (g.mode = simon),
      { g with sw := g.sw.tail }) := by
  simp only [releaseCond, readButton_eq]

theorem get_button_released : get_button released = 0 := rfl

theorem pollEvents_succ (n : Nat) :
    pollEvents (n + 1) = Event.delay_ms 50 :: pollEvents n := rfl

theorem pollEvents_succ_right (n : Nat) :
    pollEvents (n + 1) = pollEvents n ++ [Event.delay_ms 50] := by
  simp [pollEvents, List.replicate_succ']

/-! ### The wait loops on given samples -/

/-- While the next `k` reads see no button and the time-out is not reached,
the press loop just polls. -/
theorem waitPress_polls (k : Nat) : ∀ (g : Game) (n : Nat),
    g.button = 0 → g.mode = simon →
    (∀ i, i < k → get_button (g.sw.getD i released) = 0) → g.idle + k < timeOut →
    whileLoop (fun s => (decide (s.button = 0) && decide (s.mode = simon), s))
        (fun s => some (waitPressBody s)) (n + k) g
      = whileLoop (fun s => (decide (s.button = 0) && decide (s.mode = simon), s))
        (fun s => some (waitPressBody s)) n
        { g with button := 0, sw := g.sw.drop k, idle := g.idle + k,
                 trace := g.trace ++ pollEvents k } := by
  induction k with
  | zero =>
    intro g n hb _ _ _
    cases g
    simp_all [pollEvents]
  | succ k ih =>
    intro g n hb hm hz hi
    have ht : timeOut = 2400 := rfl
    rw [← Nat.add_assoc, whileLoop_step _ _ _ _ (by simp [hb, hm])]
    simp only [Option.some_bind]
    have h0 := hz 0 (by omega)
    have e1 : (g.idle + 1) % 65536 = g.idle + 1 := by omega
    have e2 : ¬ (g.idle + 1 = timeOut) := by omega
    have hg1 := waitPressBody_eq g
    rw [e1, if_neg e2] at hg1
    have hs : g.sw.headD released = g.sw.getD 0 released := by
      cases g.sw <;> rfl
    rw [hs, h0] at hg1
    rw [ih (waitPressBody g) n (by rw [hg1]) (by rw [hg1]; exact hm) ?_
      (by rw [hg1]; simp only; omega)]
    · congr 1
      rw [hg1]
      simp only [pollEvents_succ, List.append_assoc, List.singleton_append, Nat.add_assoc,
        Nat.add_comm 1 k, List.drop_tail]
    · intro i hik
      have := hz (i + 1) (by omega)
      rw [hg1]
      cases h : g.sw with
      | nil => simp [get_button_released]
      | cons a l => simpa [h] using this

/-- The press loop leaves at once when a button is already read or the game
is no longer running. -/
theorem waitPress_done (g : Game) (h : g.button ≠ 0 ∨ g.mode ≠ simon) :
    waitPress g = some g := by
  unfold waitPress
  rw [whileLoop_stop]
  rcases h with h | h <;> simp [h]

/-- The press loop when the press is seen by poll number `k + 1`, before the
time-out. -/
theorem waitPress_press (k : Nat) (g : Game) (hb : g.button = 0) (hm : g.mode = simon)
    (hz : ∀ i, i < k → get_button (g.sw.getD i released) = 0)
    (hd : get_button (g.sw.getD k released) ≠ 0) (hi : g.idle + k + 1 < timeOut) :
    waitPress g = some { g with
      button := get_button (g.sw.getD k released), sw := g.sw.drop (k + 1),
      idle := g.idle + k + 1, trace := g.trace ++ pollEvents (k + 1) } := by
  have ht : timeOut = 2400 := rfl
  unfold waitPress
  apply whileLoop_mono _ _ (n := 1 + k) _ (by omega)
  rw [waitPress_polls k g 1 hb hm hz (by omega)]
  rw [whileLoop_step _ _ _ _ (by simp [hm])]
  simp only [Option.some_bind]
  rw [whileLoop_stop _ _ _ _ (by
    simp only [waitPressBody_eq, Bool.and_eq_false_imp, decide_eq_true_eq, decide_eq_false_iff_not]
    intro h
    rw [List.headD_eq_head?_getD, List.head?_drop] at h
    exact absurd h (by simpa using hd))]
  simp only [waitPressBody_eq]
  have e1 : (g.idle + k + 1) % 65536 = g.idle + k + 1 := by omega
  have e2 : ¬ (g.idle + k + 1 = timeOut) := by omega
  simp [e1, e2, pollEvents_succ_right, List.headD_eq_head?_getD, List.head?_drop]

/-- The press loop when no button is read until the idle counter reaches
`timeOut`: it ends with the game off. -/
theorem waitPress_timeout (k : Nat) (g : Game) (hb : g.button = 0) (hm : g.mode = simon)
    (hz : ∀ i, i < k + 1 → get_button (g.sw.getD i released) = 0)
    (hi : g.idle + k + 1 = timeOut) :
    waitPress g = some { g with
      button := 0, mode := off, sw := g.sw.drop (k + 1),
      idle := timeOut, trace := g.trace ++ pollEvents (k + 1) } := by
  have ht : timeOut = 2400 := rfl
  unfold waitPress
  apply whileLoop_mono _ _ (n := 1 + k) _ (by omega)
  rw [waitPress_polls k g 1 hb hm (fun i hi => hz i (by omega)) (by omega)]
  rw [whileLoop_step _ _ _ _ (by simp [hm])]
  simp only [Option.some_bind]
  rw [whileLoop_stop _ _ _ _ (by
    simp only [waitPressBody_eq]
    have e1 : (g.idle + k + 1) % 65536 = timeOut := by omega
    simp [e1, off, simon])]
  simp only [waitPressBody_eq]
  have e1 : (g.idle + k + 1) % 65536 = timeOut := by omega
  have h0 := hz k (by omega)
  simp only [List.getD_eq_getElem?_getD] at h0
  simp [e1, pollEvents_succ_right, List.headD_eq_head?_getD, List.head?_drop, h0]

theorem releaseBody_eq (g : Game) :
    idleTick (delay_ms 50 g) = { g with
      idle := (g.idle + 1) % 65536
      mode := if (g.idle + 1) % 65536 = timeOut then off else g.mode
      trace := g.trace ++ [Event.delay_ms 50] } := by
  simp only [idleTick_eq, delay_ms_eq]

/-- While the next `k` reads see a button down and the time-out is not
reached, the release loop just polls. -/
theorem waitRelease_polls (k : Nat) : ∀ (g : Game) (n : Nat),
    g.mode = simon →
    (∀ i, i < k → get_button (g.sw.getD i released) ≠ 0) → g.idle + k < timeOut →
    whileLoop releaseCond (fun s => some (idleTick (delay_ms 50 s))) (n + k) g
      = whileLoop releaseCond (fun s => some (idleTick (delay_ms 50 s))) n
        { g with sw := g.sw.drop k, idle := g.idle + k, trace := g.trace ++ pollEvents k } := by
  induction k with
  | zero =>
    intro g n _ _ _
    cases g
    simp [pollEvents]
  | succ k ih =>
    intro g n hm hz hi
    have ht : timeOut = 2400 := rfl
    have h0 := hz 0 (by omega)
    have hs : g.sw.headD released = g.sw.getD 0 released := by
      cases g.sw <;> rfl
    rw [← Nat.add_assoc, whileLoop_step _ _ _ _ (by
      rw [releaseCond_eq, hs]
      simpa [hm] using h0)]
    simp only [Option.some_bind]
    have e1 : (g.idle + 1) % 65536 = g.idle + 1 := by omega
    have e2 : ¬ (g.idle + 1 = timeOut) := by omega
    have hg1 : idleTick (delay_ms 50 (releaseCond g).2) = { g with
        sw := g.sw.tail, idle := g.idle + 1, trace := g.trace ++ [Event.delay_ms 50] } := by
      rw [releaseBody_eq, releaseCond_eq]
      simp only [e1, if_neg e2]
    rw [hg1]
    rw [ih _ n (by simpa using hm) ?_ (by simp only; omega)]
    · congr 1
      simp only [pollEvents_succ, List.append_assoc, List.singleton_append, Nat.add_assoc,
        Nat.add_comm 1 k, List.drop_tail]
    · intro i hik
      have := hz (i + 1) (by omega)
      cases h : g.sw with
      | nil => simp [h] at h0; exact absurd get_button_released h0
      | cons a l => simpa [h] using this

/-- The release loop when the button is held for `k` polls and then read as
released, before the time-out. -/
theorem waitRelease_released (k : Nat) (g : Game) (hm : g.mode = simon)
    (hz : ∀ i, i < k → get_button (g.sw.getD i released) ≠ 0)
    (hd : get_button (g.sw.getD k released) = 0) (hi : g.idle + k < timeOut) :
    waitRelease g = some { g with
      sw := g.sw.drop (k + 1), idle := g.idle + k, trace := g.trace ++ pollEvents k } := by
  have ht : timeOut = 2400 := rfl
  unfold waitRelease
  apply whileLoop_mono _ _ (n := 0 + k) _ (by omega)
  rw [waitRelease_polls k g 0 hm hz hi]
  rw [whileLoop_stop _ _ _ _ (by
    rw [releaseCond_eq]
    simp only [List.headD_eq_head?_getD, List.head?_drop]
    simp only [List.getD_eq_getElem?_getD] at hd
    simp [hd])]
  rw [releaseCond_eq]
  simp

/-- The release loop when the game is no longer running: the condition reads
the buttons once and the loop is left. -/
theorem waitRelease_stopped (g : Game) (hm : g.mode ≠ simon) :
    waitRelease g = some { g with sw := g.sw.tail } := by
  unfold waitRelease
  rw [whileLoop_stop _ _ _ _ (by rw [releaseCond_eq]; simp [hm])]
  rw [releaseCond_eq]

/-! ### One guess of the player -/

theorem touchPattern_eq (g : Game) (i : Nat) :
    touchPattern g i = { g with
      oob := g.oob ++ (if (patternGet? g.pattern i).isSome then [] else [i]) } := by
  unfold touchPattern
  cases h : patternGet? g.pattern i <;> simp

theorem guessEvents_zero : guessEvents 0 = [Event.LED 0, Event.LED 0] := rfl

/-- The guess step when no button is read for `timeOut` polls. -/
theorem guessStep_timeout (v : Variant) (g : Game) (hm : g.mode = simon)
    (hz : ∀ i, i ≤ timeOut → get_button (g.sw.getD i released) = 0) :
    guessStep v g = some { g with
      button := 0, mode := off, idle := 0, step := (g.step + 1) % 256,
      sw := g.sw.drop (timeOut + 2), leds := g.leds.light 0,
      trace := g.trace ++ pollEvents timeOut ++ [Event.LED 0, Event.LED 0],
      oob := (touchPattern g g.step).oob } := by
  have ht : timeOut = 2399 + 1 := rfl
  have h0 := hz 0 (by omega)
  have hs : g.sw.headD released = g.sw.getD 0 released := by
    cases g.sw <;> rfl
  unfold guessStep
  simp only [readButton_eq, hs, h0]
  rw [waitPress_timeout 2399 _ (by rfl) (by exact hm) ?_ (by simp only [ht])]
  · simp only [Option.some_bind, LED_eq, sound_eq, judge, readPattern, touchPattern_eq,
      soundEvents]
    rw [if_neg (by simp [off, simon])]
    simp only [Option.some_bind]
    rw [waitRelease_stopped _ (by simp [off, simon])]
    simp [light_light_zero, ← ht, Nat.add_comm 1 timeOut, Nat.add_assoc]
  · intro i hi
    have := hz (i + 1) (by omega)
    simp only
    cases h : g.sw with
    | nil => simp [get_button_released]
    | cons a l => simpa [h] using this

theorem count_pollEvents (e : Event) (n : Nat) (h : e ≠ Event.delay_ms 50) :
    List.count e (pollEvents n) = 0 := by
  unfold pollEvents
  rw [List.count_replicate]
  simp [Ne.symm h]

theorem roundLoop_stopped (v : Variant) (g : Game) (h : g.mode ≠ simon) :
    roundLoop v g = some g := by
  unfold roundLoop
  rw [whileLoop_stop _ _ _ _ (by simp [h])]

theorem verifyLoop_stopped (v : Variant) (g : Game) (h : g.step = g.maxStep ∨ g.mode ≠ simon) :
    verifyLoop v g = some g := by
  unfold verifyLoop
  rw [whileLoop_stop _ _ _ _ (by rcases h with h | h <;> simp [h])]

theorem verifyLoop_step (v : Variant) (g : Game) (n : Nat) (hs : g.step ≠ g.maxStep)
    (hm : g.mode = simon) :
    whileLoop (fun s => (decide (s.step ≠ s.maxStep) && decide (s.mode = simon), s)) (guessStep v)
        (n + 1) g
      = (guessStep v g).bind
          (whileLoop (fun s => (decide (s.step ≠ s.maxStep) && decide (s.mode = simon), s))
            (guessStep v) n) := by
  rw [whileLoop_step _ _ _ _ (by simp [hs, hm])]

/-- C3: a verification step entered with `mode == simon`, whatever `idle`
was, in which `get_button` returns 0 on the initial read and on each of the
next `timeOut = 2400` polls: after exactly 2400 polls of 50 ms the mode is
off, `game_lose` has not been called, no button code was read, and the
verification loop and the round loop are left. -/
theorem idle_timeout (v : Variant) (g : Game) (hm : g.mode = simon) (hs : g.step ≠ g.maxStep)
    (hz : ∀ i, i ≤ timeOut → get_button (g.sw.getD i released) = 0) :
    ∃ g', verifyLoop v g = some g' ∧ roundLoop v g' = some g' ∧
      g'.mode = off ∧ g'.button = 0 ∧
      g'.trace = g.trace ++ pollEvents timeOut ++ [Event.LED 0, Event.LED 0] ∧
      (pollEvents timeOut).length = 2400 ∧
      List.count Event.call_lose g'.trace = List.count Event.call_lose g.trace ∧
      g'.sw = g.sw.drop (timeOut + 2) ∧ g'.pattern = g.pattern ∧ g'.maxStep = g.maxStep := by
  refine ⟨{ g with
      button := 0, mode := off, idle := 0, step := (g.step + 1) % 256,
      sw := g.sw.drop (timeOut + 2), leds := g.leds.light 0,
      trace := g.trace ++ pollEvents timeOut ++ [Event.LED 0, Event.LED 0],
      oob := (touchPattern g g.step).oob }, ?_, roundLoop_stopped v _ (by simp [off, simon]),
    rfl, rfl, rfl, ?_, ?_, rfl, rfl, rfl⟩
  · unfold verifyLoop
    rw [verifyLoop_step v g 255 hs hm, guessStep_timeout v g hm hz]
    simp only [Option.some_bind]
    rw [whileLoop_stop _ _ _ _ (by simp [off, simon])]
  · simp only [pollEvents, List.length_replicate]
    rfl
  · simp only [List.count_append]
    rw [count_pollEvents _ _ (by simp)]
    simp

/-- C3 on a game at `maxStep = 3` whose buttons are never touched. -/
theorem idle_timeout_witness :
    ∃ g', verifyLoop Variant.game (sampleGame 3) = some g' ∧ g'.mode = off ∧
      List.count Event.call_lose g'.trace = 0 ∧
      List.count (Event.delay_ms 50) g'.trace = 2400 := by
  obtain ⟨g', h1, _, h3, _, h5, _, h7, _⟩ :=
    idle_timeout Variant.game (sampleGame 3) rfl (by decide) (fun i _ => by
      cases i <;> rfl)
  refine ⟨g', h1, h3, by rw [h7]; rfl, ?_⟩
  rw [h5]
  simp only [sampleGame, List.nil_append, List.count_append, pollEvents, List.count_replicate]
  decide

/-! ### Reading a press -/

theorem getD_append_lt {α : Type} (l₁ l₂ : List α) (d : α) (i : Nat) (h : i < l₁.length) :
    (l₁ ++ l₂).getD i d = l₁.getD i d := by
  simp [List.getD_eq_getElem?_getD, List.getElem?_append_left h]

theorem getD_append_length {α : Type} (l₁ l₂ : List α) (d x : α) :
    (l₁ ++ x :: l₂).getD l₁.length d = x := by
  induction l₁ with
  | nil => rfl
  | cons a l ih => simpa using ih

theorem drop_append_succ {α : Type} (l₁ l₂ : List α) (x : α) :
    (l₁ ++ x :: l₂).drop (l₁.length + 1) = l₂ := by
  rw [← List.drop_drop]
  simp

theorem getD_mem {α : Type} (l : List α) (d : α) (i : Nat) (h : i < l.length) :
    l.getD i d ∈ l := by
  simp [List.getD_eq_getElem?_getD, List.getElem?_eq_getElem h]

/-- The initial read and the press loop on a press seen after `z` reads. -/
theorem pressPhase (g : Game) (z : Nat) (d : Switches) (tl : List Switches)
    (hm : g.mode = simon) (hsw : g.sw = List.replicate z released ++ d :: tl)
    (hz : z < timeOut) (hd : get_button d ≠ 0) :
    waitPress { g with idle := 0, sw := g.sw.tail, button := get_button (g.sw.headD released) }
      = some { g with idle := z, button := get_button d, sw := tl,
                      trace := g.trace ++ pollEvents z } := by
  cases z with
  | zero =>
    simp only [List.replicate_zero, List.nil_append] at hsw
    rw [waitPress_done _ (Or.inl (by simp [hsw, hd]))]
    simp [hsw, pollEvents]
  | succ k =>
    have hsw' : g.sw = released :: (List.replicate k released ++ d :: tl) := by
      rw [hsw, List.replicate_succ]
      rfl
    have hlen : (List.replicate k released).length = k := List.length_replicate _ _
    rw [waitPress_press k _ (by simp [hsw', get_button_released]) (by exact hm) ?_ ?_
      (by simp only; omega)]
    · simp only [hsw', List.tail_cons, List.headD_cons, get_button_released]
      congr 1
      have e1 := getD_append_length (List.replicate k released) tl released d
      have e2 := drop_append_succ (List.replicate k released) tl d
      rw [hlen] at e1 e2
      rw [e1, e2]
      simp
    · intro i hi
      simp only [hsw', List.tail_cons]
      rw [getD_append_lt _ _ _ _ (by rw [hlen]; exact hi)]
      have := getD_mem (List.replicate k released) released i (by rw [hlen]; exact hi)
      rw [List.eq_of_mem_replicate this]
      rfl
    · simp only [hsw', List.tail_cons]
      have e1 := getD_append_length (List.replicate k released) tl released d
      rw [hlen] at e1
      rw [e1]
      exact hd

/-- The release loop on a button held for the reads `h` and then released. -/
theorem releasePhase (g : Game) (h : List Switches) (rest : List Switches)
    (hm : g.mode = simon) (hsw : g.sw = h ++ released :: rest)
    (hi : g.idle = 0) (hlen : h.length < timeOut) (hh : ∀ s ∈ h, get_button s ≠ 0) :
    waitRelease g = some { g with sw := rest, idle := h.length,
                                  trace := g.trace ++ pollEvents h.length } := by
  rw [waitRelease_released h.length g hm ?_ ?_ (by omega)]
  · rw [hsw, drop_append_succ, hi, Nat.zero_add]
  · intro i hi
    rw [hsw, getD_append_lt _ _ _ _ hi]
    exact hh _ (getD_mem _ _ _ hi)
  · rw [hsw, getD_append_length]
    rfl

theorem samples_append (p : Press) (rest : List Switches) :
    p.samples ++ rest
      = List.replicate p.wait released ++ p.down :: (p.hold ++ released :: rest) := by
  simp [Press.samples]

/-- The guess step on a press in time that matches the pattern. -/
theorem guessStep_match (v : Variant) (g : Game) (p : Press) (rest : List Switches)
    (hm : g.mode = simon) (hsw : g.sw = p.samples ++ rest) (ht : p.inTime)
    (hpat : patternGet? g.pattern g.step = some p.code) :
    guessStep v g = some (afterMatch p rest g) := by
  obtain ⟨hz, hd, hlen, hh⟩ := ht
  rw [samples_append] at hsw
  unfold guessStep
  simp only [readButton_eq]
  rw [pressPhase g p.wait p.down _ hm hsw hz hd]
  simp only [Option.some_bind, LED_eq, sound_eq, judge, readPattern, touchPattern_eq,
    loadPattern, hpat, Option.isSome_some, if_true, List.append_nil]
  rw [if_neg (by simp [Press.code])]
  simp only [Option.some_bind]
  rw [releasePhase _ p.hold rest (by exact hm) rfl rfl hlen hh]
  simp [afterMatch, Press.events, guessEvents, Press.code, light_light_zero]

/-- The guess step of `UBMP4-Simon-Game.c` on a press in time that differs
from the pattern. -/
theorem guessStep_miss (g : Game) (p : Press) (rest : List Switches) (x : Nat)
    (hm : g.mode = simon) (hsw : g.sw = p.samples ++ rest) (ht : p.inTime)
    (hmax : g.maxStep < 256)
    (hpat : patternGet? g.pattern g.step = some x) (hx : p.code ≠ x) :
    guessStep Variant.game g = some (afterMiss p rest g) := by
  obtain ⟨hz, hd, hlen, hh⟩ := ht
  rw [samples_append] at hsw
  unfold guessStep
  simp only [readButton_eq]
  rw [pressPhase g p.wait p.down _ hm hsw hz hd]
  simp only [Option.some_bind, LED_eq, sound_eq, judge, readPattern, touchPattern_eq,
    loadPattern, hpat, Option.isSome_some, if_true, List.append_nil]
  rw [if_pos ⟨by simpa [Press.code] using hx, hm⟩]
  rw [delay_ms_eq, game_lose_game _ (by exact hmax)]
  simp only [Option.map_some', Option.some_bind]
  rw [waitRelease_stopped _ (by simp [off, simon])]
  simp only [afterMiss, missEvents, Press.code, guessEvents, light_light_zero, ite_self,
    List.append_assoc, List.singleton_append, List.cons_append, List.nil_append]

/-! ### The verification loop on a sequence of presses -/

theorem samplesOf_cons (p : Press) (ps : List Press) :
    samplesOf (p :: ps) = p.samples ++ samplesOf ps := by
  simp [samplesOf]

theorem eventsOf_cons (p : Press) (ps : List Press) :
    eventsOf (p :: ps) = p.events ++ eventsOf ps := by
  simp [eventsOf]

theorem samplesOf_append (ps qs : List Press) :
    samplesOf (ps ++ qs) = samplesOf ps ++ samplesOf qs := by
  simp [samplesOf]

theorem eventsOf_append (ps qs : List Press) :
    eventsOf (ps ++ qs) = eventsOf ps ++ eventsOf qs := by
  simp [eventsOf]

theorem afterMatches_frame : ∀ (ps : List Press) (rest : List Switches) (g : Game),
    (afterMatches ps rest g).mode = g.mode ∧
    (afterMatches ps rest g).pattern = g.pattern ∧
    (afterMatches ps rest g).maxStep = g.maxStep ∧
    (afterMatches ps rest g).rnd = g.rnd ∧
    (afterMatches ps rest g).oob = g.oob ∧
    (afterMatches ps rest g).stray = g.stray ∧
    (afterMatches ps rest g).trace = g.trace ++ eventsOf ps := by
  intro ps
  induction ps with
  | nil => intro rest g; simp [afterMatches, eventsOf]
  | cons p ps ih =>
    intro rest g
    obtain ⟨h1, h2, h3, h4, h5, h6, h7⟩ := ih rest (afterMatch p (samplesOf ps ++ rest) g)
    simp only [afterMatches]
    refine ⟨h1, h2, h3, h4, h5, h6, ?_⟩
    rw [h7, eventsOf_cons]
    simp [afterMatch]

theorem afterMatches_step : ∀ (ps : List Press) (rest : List Switches) (g : Game),
    g.step + ps.length < 256 → (afterMatches ps rest g).step = g.step + ps.length := by
  intro ps
  induction ps with
  | nil => intro rest g _; rfl
  | cons p ps ih =>
    intro rest g h
    simp only [List.length_cons] at h
    have e : (afterMatch p (samplesOf ps ++ rest) g).step = g.step + 1 := by
      simp only [afterMatch]
      omega
    simp only [afterMatches]
    rw [ih _ _ (by rw [e]; omega), e, List.length_cons]
    omega

theorem afterMatches_sw : ∀ (ps : List Press) (rest : List Switches) (g : Game),
    g.sw = samplesOf ps ++ rest → (afterMatches ps rest g).sw = rest := by
  intro ps
  induction ps with
  | nil => intro rest g h; simpa [samplesOf, afterMatches] using h
  | cons p ps ih =>
    intro rest g _
    simp only [afterMatches]
    exact ih _ _ rfl

/-- The verification loop judges a run of matching presses one by one. -/
theorem verifyLoop_matches (v : Variant) : ∀ (ps : List Press) (rest : List Switches)
    (g : Game) (n : Nat),
    g.mode = simon → g.sw = samplesOf ps ++ rest → (∀ p ∈ ps, p.inTime) →
    g.step + ps.length ≤ g.maxStep → g.maxStep < 256 → Matches g.pattern g.step ps →
    whileLoop (fun s => (decide (s.step ≠ s.maxStep) && decide (s.mode = simon), s)) (guessStep v)
        (n + ps.length) g
      = whileLoop (fun s => (decide (s.step ≠ s.maxStep) && decide (s.mode = simon), s))
        (guessStep v) n (afterMatches ps rest g) := by
  intro ps
  induction ps with
  | nil => intro rest g n _ _ _ _ _ _; rfl
  | cons p ps ih =>
    intro rest g n hm hsw ht hstep hmax hmatch
    simp only [List.length_cons] at hstep
    rw [List.length_cons, ← Nat.add_assoc, verifyLoop_step v g _ (by omega) hm]
    rw [samplesOf_cons, List.append_assoc] at hsw
    rw [guessStep_match v g p _ hm hsw (ht p (List.mem_cons_self _ _)) hmatch.1]
    simp only [Option.some_bind, afterMatches]
    have e : (afterMatch p (samplesOf ps ++ rest) g).step = g.step + 1 := by
      simp only [afterMatch]
      omega
    apply ih
    · exact hm
    · rfl
    · exact fun q hq => ht q (List.mem_cons_of_mem _ hq)
    · rw [e]
      simp only [afterMatch]
      omega
    · exact hmax
    · rw [e]
      exact hmatch.2

theorem matches_iff (pat : List Nat) : ∀ (ps : List Press) (i : Nat),
    Matches pat i ps ↔
      ∀ j, j < ps.length → patternGet? pat (i + j) = (ps.map Press.code)[j]? := by
  intro ps
  induction ps with
  | nil => intro i; simp [Matches]
  | cons p ps ih =>
    intro i
    simp only [Matches, ih, List.length_cons, List.map_cons]
    constructor
    · rintro ⟨h0, h⟩ j hj
      cases j with
      | zero => simpa using h0
      | succ j =>
        have := h j (by omega)
        simpa [Nat.add_assoc, Nat.add_comm 1 j] using this
    · intro h
      refine ⟨by simpa using h 0 (by omega), fun j hj => ?_⟩
      have := h (j + 1) (by omega)
      simpa [Nat.add_assoc, Nat.add_comm 1 j] using this

theorem matches_take (pat : List Nat) (ps : List Press) (i k : Nat)
    (h : Matches pat i ps) : Matches pat i (ps.take k) := by
  rw [matches_iff] at h ⊢
  intro j hj
  simp only [List.length_take] at hj
  rw [h j (by omega)]
  simp only [List.map_take]
  rw [List.getElem?_take_of_lt (by omega)]

/-- The verification loop when every press matches: it ends after the last
press with the game still running. -/
theorem verify_all_match (v : Variant) (g : Game) (ps : List Press) (rest : List Switches)
    (hm : g.mode = simon) (hsw : g.sw = samplesOf ps ++ rest) (ht : ∀ p ∈ ps, p.inTime)
    (hps : ps.length = g.maxStep) (hmax : g.maxStep < 256) (hmatch : Matches g.pattern 0 ps) :
    verify v g = some (afterMatches ps rest { g with step := 0 }) := by
  unfold verify verifyLoop
  have e : 256 = (256 - ps.length) + ps.length := by omega
  rw [e, verifyLoop_matches v ps rest _ _ (by exact hm) (by exact hsw) ht
    (by simp only; omega) (by exact hmax) (by exact hmatch)]
  rw [whileLoop_stop _ _ _ _ (by
    simp only [Bool.and_eq_false_imp, decide_eq_true_eq, decide_eq_false_iff_not]
    intro h
    exact absurd (by
      rw [afterMatches_step _ _ _ (by simp only; omega), (afterMatches_frame _ _ _).2.2.1]
      simp only
      omega) h)]

/-- The verification loop of `UBMP4-Simon-Game.c` when the presses `pre`
match and the next press `q` is wrong: `game_lose` runs while `q` is judged
and the loop is left with the game off. -/
theorem verify_first_miss (g : Game) (pre post : List Press) (q : Press) (x : Nat)
    (rest : List Switches)
    (hm : g.mode = simon) (hsw : g.sw = samplesOf (pre ++ q :: post) ++ rest)
    (ht : ∀ p ∈ pre ++ q :: post, p.inTime)
    (hk : pre.length < g.maxStep) (hmax : g.maxStep < 256)
    (hmatch : Matches g.pattern 0 pre)
    (hpat : patternGet? g.pattern pre.length = some x) (hx : q.code ≠ x) :
    verify Variant.game g = some (afterMiss q (samplesOf post ++ rest)
      (afterMatches pre (samplesOf (q :: post) ++ rest) { g with step := 0 })) := by
  unfold verify verifyLoop
  have e : 256 = (255 - pre.length + 1) + pre.length := by omega
  rw [samplesOf_append, List.append_assoc] at hsw
  rw [e, verifyLoop_matches Variant.game pre _ _ _ (by exact hm) (by exact hsw)
    (fun p hp => ht p (List.mem_append_left _ hp)) (by simp only; omega) (by exact hmax)
    (by exact hmatch)]
  obtain ⟨f1, f2, f3, -, -, -, -⟩ :=
    afterMatches_frame pre (samplesOf (q :: post) ++ rest) { g with step := 0 }
  have f4 := afterMatches_step pre (samplesOf (q :: post) ++ rest) { g with step := 0 }
    (by simp only; omega)
  have f5 := afterMatches_sw pre (samplesOf (q :: post) ++ rest) { g with step := 0 } hsw
  simp only [Nat.zero_add] at f1 f2 f3 f4
  generalize afterMatches pre (samplesOf (q :: post) ++ rest) { g with step := 0 } = G
    at f1 f2 f3 f4 f5 ⊢
  rw [samplesOf_cons, List.append_assoc] at f5
  rw [verifyLoop_step _ _ _ (by rw [f4, f3]; omega) (by rw [f1]; exact hm)]
  rw [guessStep_miss _ q _ x (by rw [f1]; exact hm) f5
    (ht q (List.mem_append_right _ (List.mem_cons_self _ _))) (by rw [f3]; exact hmax)
    (by rw [f2, f4]; exact hpat) hx]
  simp only [Option.some_bind]
  rw [whileLoop_stop _ _ _ _ (by simp [afterMiss, off, simon])]

/-! ### Counting hook calls in the trace -/

theorem count_quiet (e : Event) (l : List Event) (he : e.isCall = true) (hl : Quiet l) :
    List.count e l = 0 := by
  rw [List.count_eq_zero]
  intro hmem
  have := hl e hmem
  rw [he] at this
  cases this

theorem quiet_append {l₁ l₂ : List Event} (h₁ : Quiet l₁) (h₂ : Quiet l₂) :
    Quiet (l₁ ++ l₂) := by
  intro e he
  rcases List.mem_append.1 he with h | h
  · exact h₁ e h
  · exact h₂ e h

theorem quiet_pollEvents (n : Nat) : Quiet (pollEvents n) := by
  intro e he
  rw [List.eq_of_mem_replicate he]
  rfl

theorem quiet_soundEvents (num : Nat) : Quiet (soundEvents num) := by
  intro e he
  unfold soundEvents at he
  split_ifs at he <;> simp at he <;> subst he <;> rfl

theorem quiet_guessEvents (b : Nat) : Quiet (guessEvents b) := by
  intro e he
  simp only [guessEvents, List.mem_cons, List.mem_append, List.mem_singleton,
    List.not_mem_nil, or_false] at he
  rcases he with rfl | h | rfl
  · rfl
  · exact quiet_soundEvents b e h
  · rfl

theorem quiet_pressEvents (p : Press) : Quiet p.events :=
  quiet_append (quiet_append (quiet_pollEvents _) (quiet_guessEvents _)) (quiet_pollEvents _)

theorem quiet_eventsOf (ps : List Press) : Quiet (eventsOf ps) := by
  induction ps with
  | nil => intro e he; simp [eventsOf] at he
  | cons p ps ih =>
    rw [eventsOf_cons]
    exact quiet_append (quiet_pressEvents p) ih

theorem quiet_scoreEvents (num n : Nat) : Quiet (scoreEvents num n) := by
  induction n with
  | zero => intro e he; simp [scoreEvents] at he
  | succ n ih =>
    rw [scoreEvents_succ]
    refine quiet_append ?_ ih
    intro e he
    simp only [List.mem_cons, List.mem_singleton, List.not_mem_nil, or_false] at he
    rcases he with rfl | rfl | rfl | rfl <;> rfl

theorem count_lose_loseEvents (s : Nat) : List.count Event.call_lose (loseEvents s) = 1 := by
  simp only [loseEvents, List.count_append,
    count_quiet Event.call_lose _ rfl (quiet_scoreEvents _ _)]
  rfl

theorem count_win_loseEvents (s : Nat) : List.count Event.call_win (loseEvents s) = 0 := by
  simp only [loseEvents, List.count_append,
    count_quiet Event.call_win _ rfl (quiet_scoreEvents _ _)]
  rfl

theorem count_lose_missEvents (q : Press) (m : Nat) :
    List.count Event.call_lose (missEvents q m) = 1 := by
  unfold missEvents
  rw [List.count_append, List.count_cons, count_lose_loseEvents,
    count_quiet Event.call_lose _ rfl
      (quiet_append (quiet_pollEvents _) (quiet_guessEvents _))]
  rfl

/-! ### The verification of one round -/

theorem patternGet?_eq (pat : List Nat) (i : Nat) (hi : i < patternLength) :
    patternGet? pat i = pat[i]? := by
  simp [patternGet?, hi]

theorem split_at {α : Type} : ∀ (l : List α) (k : Nat) (x : α), l[k]? = some x →
    l = l.take k ++ x :: l.drop (k + 1) := by
  intro l
  induction l with
  | nil => intro k x h; simp at h
  | cons a l ih =>
    intro k x h
    cases k with
    | zero => simp at h; simp [h]
    | succ k =>
      simp only [List.getElem?_cons_succ] at h
      simp only [List.take_succ_cons, List.drop_succ_cons, List.cons_append]
      rw [← ih k x h]

/-- C1: the verification loop of `UBMP4-Simon-Game.c` at `maxStep = m`,
`1 ≤ m ≤ 42`, on `m` presses that each arrive and are released before the
idle time-out. It ends with `mode == simon`, `step == m` and no call of
`game_lose` if and only if every press equals the pattern step of its index.
Otherwise, with `k` the least index whose press differs, `game_lose` is
called exactly once, while press `k` is judged; the mode becomes off, `step`
stops at `k + 1` and the samples of the later presses are not read. -/
theorem verify_round (g : Game) (ps : List Press) (rest : List Switches)
    (h1 : 1 ≤ g.maxStep) (h42 : g.maxStep ≤ patternLength)
    (hlen : g.pattern.length = patternLength) (hm : g.mode = simon)
    (hps : ps.length = g.maxStep) (ht : ∀ p ∈ ps, p.inTime)
    (hsw : g.sw = samplesOf ps ++ rest) :
    ∃ g', verify Variant.game g = some g' ∧
      ((g'.mode = simon ∧ g'.step = g.maxStep ∧
          List.count Event.call_lose g'.trace = List.count Event.call_lose g.trace)
        ↔ ∀ i, i < g.maxStep → (ps.map Press.code)[i]? = g.pattern[i]?) ∧
      (∀ k q, ps[k]? = some q →
          (∀ i, i < k → (ps.map Press.code)[i]? = g.pattern[i]?) →
          some q.code ≠ g.pattern[k]? →
          g'.mode = off ∧ g'.step = k + 1 ∧
          List.count Event.call_lose g'.trace = List.count Event.call_lose g.trace + 1 ∧
          g'.trace = g.trace ++ eventsOf (ps.take k) ++ missEvents q g.maxStep ∧
          g'.sw = (q.hold ++ released :: (samplesOf (ps.drop (k + 1)) ++ rest)).tail) := by
  have h42' : g.maxStep ≤ 42 := h42
  have hpl : patternLength = 42 := rfl
  by_cases hall : ∀ i, i < g.maxStep → (ps.map Press.code)[i]? = g.pattern[i]?
  · have hmatch : Matches g.pattern 0 ps := (matches_iff _ _ _).2 (fun j hj => by
      rw [Nat.zero_add, patternGet?_eq _ _ (by omega)]
      exact (hall j (by omega)).symm)
    refine ⟨_, verify_all_match Variant.game g ps rest hm hsw ht hps (by omega) hmatch, ?_, ?_⟩
    · obtain ⟨f1, -, -, -, -, -, f7⟩ := afterMatches_frame ps rest { g with step := 0 }
      have f4 := afterMatches_step ps rest { g with step := 0 } (by simp only; omega)
      refine ⟨fun _ => hall, fun _ => ⟨by rw [f1]; exact hm, by rw [f4]; simp only; omega, ?_⟩⟩
      rw [f7]
      simp only [List.count_append, count_quiet Event.call_lose _ rfl (quiet_eventsOf ps),
        Nat.add_zero]
    · intro k q hq _ hne
      exfalso
      have hk : k < ps.length := by
        by_contra hcon
        rw [List.getElem?_eq_none (by omega)] at hq
        cases hq
      have := hall k (by omega)
      rw [List.getElem?_map, hq] at this
      exact hne this
  · have hex : ∃ i, i < g.maxStep ∧ (ps.map Press.code)[i]? ≠ g.pattern[i]? := by
      by_contra hcon
      apply hall
      intro i hi
      by_contra hne
      exact hcon ⟨i, hi, hne⟩
    classical
    have hk := Nat.find_spec hex
    have hmin : ∀ i, i < Nat.find hex → (ps.map Press.code)[i]? = g.pattern[i]? := by
      intro i hi
      by_contra hne
      exact Nat.find_min hex hi ⟨by omega, hne⟩
    generalize Nat.find hex = k at hk hmin
    obtain ⟨hkm, hkne⟩ := hk
    obtain ⟨q, hq⟩ : ∃ q, ps[k]? = some q := by
      rw [List.getElem?_eq_getElem (by omega)]
      exact ⟨_, rfl⟩
    obtain ⟨x, hx⟩ : ∃ x, g.pattern[k]? = some x := by
      rw [List.getElem?_eq_getElem (by omega)]
      exact ⟨_, rfl⟩
    have hdec := split_at ps k q hq
    have hprelen : (ps.take k).length = k := by
      rw [List.length_take]
      omega
    have hqx : q.code ≠ x := by
      intro h
      apply hkne
      rw [List.getElem?_map, hq, hx, ← h]
      rfl
    have hmatch : Matches g.pattern 0 (ps.take k) := (matches_iff _ _ _).2 (fun j hj => by
      rw [hprelen] at hj
      rw [Nat.zero_add, patternGet?_eq _ _ (by omega), ← hmin j hj, List.map_take,
        List.getElem?_take_of_lt hj])
    have hrun := verify_first_miss g (ps.take k) (ps.drop (k + 1)) q x rest hm
      (by rw [← hdec]; exact hsw) (by rw [← hdec]; exact ht) (by omega) (by omega) hmatch
      (by rw [hprelen, patternGet?_eq _ _ (by omega)]; exact hx) hqx
    refine ⟨_, hrun, ?_, ?_⟩
    · constructor
      · rintro ⟨hmode, -, -⟩
        simp [afterMiss, off, simon] at hmode
      · intro h
        exact absurd (h k hkm) hkne
    · intro k' q' hq' hpre' hne'
      have hk' : k' < ps.length := by
        by_contra hcon
        rw [List.getElem?_eq_none (by omega)] at hq'
        cases hq'
      have e : k' = k := by
        rcases Nat.lt_trichotomy k' k with h | h | h
        · exfalso
          have := hmin k' h
          rw [List.getElem?_map, hq'] at this
          exact hne' this
        · exact h
        · exact absurd (hpre' k h) hkne
      subst e
      rw [hq] at hq'
      cases hq'
      obtain ⟨-, -, f3, -, -, -, f7⟩ :=
        afterMatches_frame (ps.take k') (samplesOf (q :: ps.drop (k' + 1)) ++ rest)
          { g with step := 0 }
      have f4 := afterMatches_step (ps.take k') (samplesOf (q :: ps.drop (k' + 1)) ++ rest)
        { g with step := 0 } (by simp only; omega)
      simp only [Nat.zero_add, hprelen] at f3 f4 f7
      refine ⟨rfl, ?_, ?_, ?_, rfl⟩
      · simp only [afterMiss, f4]
        omega
      · simp only [afterMiss, f7, f3, List.count_append, count_lose_missEvents,
          count_quiet Event.call_lose _ rfl (quiet_eventsOf _), Nat.add_zero]
      · simp only [afterMiss, f7, f3]

/-- C1 on the loss scenario of the specification: pattern `[1, 2, 3]`,
presses `[1, 2, 4]`. The third press (index 2) is judged wrong: `game_lose`
runs once and shows the score 2, the game is off. -/
theorem verify_round_witness :
    ∃ g', verify Variant.game lossScenario = some g' ∧ g'.mode = off ∧ g'.step = 2 + 1 ∧
      List.count Event.call_lose g'.trace = 1 ∧
      g'.trace = eventsOf [tap 1, tap 2] ++ missEvents (tap 4) 3 := by
  obtain ⟨g', hrun, -, hmiss⟩ := verify_round lossScenario [tap 1, tap 2, tap 4] []
    (by decide) (by decide) (by decide) rfl rfl (by decide) (by decide)
  obtain ⟨a, b, c, d, -⟩ := hmiss 2 (tap 4) rfl (by decide) (by decide)
  exact ⟨g', hrun, a, b, by rw [c]; rfl, by rw [d]; rfl⟩

/-! ### Playback -/

theorem playbackBody_eq (g : Game) :
    playbackBody g = { g with
      leds := g.leds.light 0, step := (g.step + 1) % 256,
      trace := g.trace ++ playbackEvents [loadPattern g g.step],
      oob := g.oob ++ strayReads g.pattern g.step 1 } := by
  simp only [playbackBody, readPattern, touchPattern_eq, LED_eq, sound_eq, delay_ms_eq,
    loadPattern, playbackEvents, strayReads, light_light_zero, List.append_assoc,
    List.singleton_append, List.cons_append, List.nil_append, List.append_nil]
  congr 1
  split_ifs <;> simp

theorem playbackEvents_append (p q : List Nat) :
    playbackEvents (p ++ q) = playbackEvents p ++ playbackEvents q := by
  induction p with
  | nil => rfl
  | cons a p ih => simp [playbackEvents, ih]

theorem cells_frame (g g' : Game) (hp : g'.pattern = g.pattern) (hs : g'.stray = g.stray) :
    ∀ (n s : Nat), cells g' s n = cells g s n := by
  intro n
  induction n with
  | zero => intro s; rfl
  | succ n ih =>
    intro s
    simp only [cells, ih, loadPattern, hp, hs]

/-- The playback loop plays the steps from `step` up to `maxStep`. -/
theorem playbackLoop_run : ∀ (n : Nat) (g : Game) (fuel : Nat),
    g.step + n = g.maxStep → g.maxStep < 256 → n ≤ fuel →
    whileLoop (fun s => (decide (s.step ≠ s.maxStep), s)) (fun s => some (playbackBody s)) fuel g
      = some { g with
          leds := if n = 0 then g.leds else g.leds.light 0, step := g.maxStep,
          trace := g.trace ++ playbackEvents (cells g g.step n),
          oob := g.oob ++ strayReads g.pattern g.step n } := by
  intro n
  induction n with
  | zero =>
    intro g fuel h _ _
    rw [whileLoop_stop _ _ _ _ (by simpa using h)]
    simp only [Nat.add_zero] at h
    cases g
    simp_all [cells, playbackEvents, strayReads]
  | succ n ih =>
    intro g fuel h hmax hf
    obtain ⟨fuel, rfl⟩ : ∃ f, fuel = f + 1 := ⟨fuel - 1, by omega⟩
    rw [whileLoop_step _ _ _ _ (by simp; omega)]
    simp only [Option.some_bind]
    have e : (g.step + 1) % 256 = g.step + 1 := by omega
    have hb := playbackBody_eq g
    rw [e] at hb
    rw [ih (playbackBody g) fuel (by rw [hb]; simp only; omega) (by rw [hb]; exact hmax)
      (by omega)]
    rw [cells_frame g (playbackBody g) (by rw [hb]) (by rw [hb])]
    rw [hb]
    simp only [cells, strayReads, playbackEvents, light_light_zero, List.append_assoc,
      List.append_nil, List.cons_append, List.nil_append, ite_self]
    simp [playbackEvents]

/-- The playback of a round: all steps from 0 up to `maxStep`. -/
theorem playback_eq (g : Game) (hmax : g.maxStep < 256) :
    playback g = some { g with
      leds := if g.maxStep = 0 then g.leds else g.leds.light 0, step := g.maxStep,
      trace := g.trace ++ playbackEvents (cells g 0 g.maxStep),
      oob := g.oob ++ strayReads g.pattern 0 g.maxStep } := by
  unfold playback playbackLoop
  rw [playbackLoop_run g.maxStep _ 256 (by show 0 + g.maxStep = g.maxStep; omega)
    (by exact hmax) (by omega)]
  rw [cells_frame g { g with step := 0 } rfl rfl]

theorem cells_inside (g : Game) (hlen : g.pattern.length = patternLength) :
    ∀ (n s : Nat), s + n ≤ patternLength → cells g s n = (g.pattern.drop s).take n := by
  intro n
  induction n with
  | zero => intro s _; simp [cells]
  | succ n ih =>
    intro s h
    have hs : s < g.pattern.length := by omega
    have hs' : s < patternLength := by omega
    rw [cells, ih (s + 1) (by omega), List.drop_eq_getElem_cons hs, List.take_succ_cons]
    congr 1
    simp [loadPattern, patternGet?, List.getElem?_eq_getElem hs, hs']

theorem strayReads_inside (pat : List Nat) (hlen : pat.length = patternLength) :
    ∀ (n s : Nat), s + n ≤ patternLength → strayReads pat s n = [] := by
  intro n
  induction n with
  | zero => intro s _; rfl
  | succ n ih =>
    intro s h
    have hs : s < pat.length := by omega
    have hs' : s < patternLength := by omega
    rw [strayReads, ih (s + 1) (by omega)]
    simp [patternGet?, List.getElem?_eq_getElem hs, hs']

/-! ### The start of a round -/

theorem callRand_eq (g : Game) :
    callRand g = (g.rnd.headD 0,
      { g with rnd := g.rnd.tail, trace := g.trace ++ [Event.rand (g.rnd.headD 0)] }) := by
  unfold callRand
  cases h : g.rnd with
  | nil => simp [emit]; cases g; simp_all
  | cons r rest => simp [emit]

theorem game_win_eq (v : Variant) (g : Game) :
    game_win v g = { g with leds := winLeds v g.leds, trace := g.trace ++ winEvents v } := by
  cases v
  · simp [game_win, winLeds, winEvents, LED_eq, note_E6, delay_ms_eq, emit, light_light_zero]
  · simp [game_win, winLeds, winEvents, emit]

/-- The start of a round that is not the winning one: a symbol is drawn and
stored at index `maxStep`, and `maxStep` grows by one. -/
theorem roundHead_grow (v : Variant) (g : Game) (h : g.maxStep < patternLength) :
    roundHead v g = { g with
      pattern := g.pattern.set g.maxStep (symbolOf (g.rnd.headD 0)),
      maxStep := g.maxStep + 1, rnd := g.rnd.tail,
      trace := g.trace ++ [Event.delay_ms 1000, Event.rand (g.rnd.headD 0)] } := by
  have h' : g.maxStep < 42 := h
  have e : (g.maxStep + 1) % 256 = g.maxStep + 1 := by omega
  simp only [roundHead, callRand_eq, delay_ms_eq, storePattern, patternSet?, if_pos h, e]
  rw [if_neg (by simp only [patternLength]; omega)]
  simp

/-- The start of the round entered with `maxStep == patternLength`: the store
goes to `pattern[42]`, outside the array, `maxStep` becomes 43, `game_win` is
called and the mode is set to off. -/
theorem roundHead_win (v : Variant) (g : Game) (h : g.maxStep = patternLength) :
    roundHead v g = { g with
      mode := off, maxStep := patternLength + 1, rnd := g.rnd.tail,
      leds := winLeds v g.leds,
      trace := g.trace ++ [Event.delay_ms 1000, Event.rand (g.rnd.headD 0)] ++ winEvents v,
      oob := g.oob ++ [patternLength], stray := symbolOf (g.rnd.headD 0) } := by
  simp only [roundHead, callRand_eq, delay_ms_eq, storePattern, patternSet?, h,
    if_neg (Nat.lt_irrefl _)]
  rw [if_pos (by decide)]
  simp [game_win_eq]
  decide

/-! ### Whole rounds -/

theorem cells_append (g : Game) : ∀ (n m s : Nat),
    cells g s (n + m) = cells g s n ++ cells g (s + n) m := by
  intro n
  induction n with
  | zero => intro m s; simp [cells]
  | succ n ih =>
    intro m s
    have e : n + 1 + m = (n + m) + 1 := by omega
    rw [e, cells, cells, ih, List.cons_append]
    congr 3
    omega

theorem strayReads_append (pat : List Nat) : ∀ (n m s : Nat),
    strayReads pat s (n + m) = strayReads pat s n ++ strayReads pat (s + n) m := by
  intro n
  induction n with
  | zero => intro m s; simp [strayReads]
  | succ n ih =>
    intro m s
    have e : n + 1 + m = (n + m) + 1 := by omega
    rw [e, strayReads, strayReads, ih, List.append_assoc]
    congr 3
    omega

/-- The round entered with `maxStep == patternLength`, in closed form: after
`game_win` the playback loop still plays all 43 steps, the last one read from
outside the array; the verification loop does not run. -/
theorem round_won (v : Variant) (g : Game) (hmax : g.maxStep = patternLength)
    (hlen : g.pattern.length = patternLength) :
    round v g = some { g with
      mode := off, maxStep := patternLength + 1, step := 0, rnd := g.rnd.tail,
      leds := (winLeds v g.leds).light 0,
      trace := g.trace ++ [Event.delay_ms 1000, Event.rand (g.rnd.headD 0)] ++ winEvents v
        ++ playbackEvents (g.pattern ++ [symbolOf (g.rnd.headD 0)]),
      oob := g.oob ++ [patternLength, patternLength, patternLength],
      stray := symbolOf (g.rnd.headD 0) } := by
  have hpl : patternLength = 42 := rfl
  unfold round
  rw [roundHead_win v g hmax, playback_eq _ (by simp only [hpl]; omega)]
  simp only [Option.some_bind, verify]
  rw [verifyLoop_stopped _ _ (Or.inr (by simp [off, simon]))]
  have e1 : ∀ G : Game, G.pattern = g.pattern → G.stray = symbolOf (g.rnd.headD 0) →
      cells G 0 (patternLength + 1) = g.pattern ++ [symbolOf (g.rnd.headD 0)] := by
    intro G hp hs
    rw [cells_append, cells_inside G (by rw [hp]; exact hlen) _ _ (by omega), hp,
      List.drop_zero, List.take_of_length_le (by omega)]
    simp [cells, loadPattern, patternGet?, hs]
  have e2 : strayReads g.pattern 0 (patternLength + 1) = [patternLength, patternLength] := by
    rw [strayReads_append, strayReads_inside _ hlen _ _ (by omega)]
    simp [strayReads, patternGet?]
  rw [e1 _ (by rfl) (by rfl), e2]
  simp [hpl]

/-- A round that is not the winning one, played by a player whose presses
`ps` match the grown pattern: the new step is stored, the pattern is played
back and all presses are judged as matching. -/
theorem round_matched (v : Variant) (g : Game) (ps : List Press) (rest : List Switches)
    (hm : g.mode = simon) (hmax : g.maxStep < patternLength)
    (hlen : g.pattern.length = patternLength)
    (hsw : g.sw = samplesOf ps ++ rest) (ht : ∀ p ∈ ps, p.inTime)
    (hps : ps.length = g.maxStep + 1)
    (hmatch : Matches (g.pattern.set g.maxStep (symbolOf (g.rnd.headD 0))) 0 ps) :
    round v g = some (afterMatches ps rest { g with
      pattern := g.pattern.set g.maxStep (symbolOf (g.rnd.headD 0)),
      maxStep := g.maxStep + 1, step := 0, rnd := g.rnd.tail, leds := g.leds.light 0,
      trace := g.trace ++ [Event.delay_ms 1000, Event.rand (g.rnd.headD 0)]
        ++ playbackEvents ((g.pattern.set g.maxStep (symbolOf (g.rnd.headD 0))).take
            (g.maxStep + 1)) }) := by
  have hpl : patternLength = 42 := rfl
  unfold round
  rw [roundHead_grow v g hmax, playback_eq _ (by simp only; omega)]
  simp only [Option.some_bind]
  rw [verify_all_match v _ ps rest (by exact hm) (by exact hsw) ht (by simp only; omega)
    (by simp only; omega) (by exact hmatch)]
  have hlen' : (g.pattern.set g.maxStep (symbolOf (g.rnd.headD 0))).length = patternLength := by
    rw [List.length_set]
    exact hlen
  have e1 : ∀ G : Game, G.pattern = g.pattern.set g.maxStep (symbolOf (g.rnd.headD 0)) →
      cells G 0 (g.maxStep + 1)
        = (g.pattern.set g.maxStep (symbolOf (g.rnd.headD 0))).take (g.maxStep + 1) := by
    intro G hp
    rw [cells_inside G (by rw [hp]; exact hlen') _ _ (by omega), hp, List.drop_zero]
  rw [e1 _ (by rfl), strayReads_inside _ hlen' _ _ (by omega)]
  simp

/-! ### A whole game played without a mistake -/

theorem quiet_playbackEvents (p : List Nat) : Quiet (playbackEvents p) := by
  induction p with
  | nil => intro e he; simp [playbackEvents] at he
  | cons a p ih =>
    rw [playbackEvents]
    refine quiet_append ?_ ih
    intro e he
    simp only [List.mem_cons, List.mem_append, List.mem_singleton, List.not_mem_nil,
      or_false] at he
    rcases he with rfl | h | rfl | rfl
    · rfl
    · exact quiet_soundEvents a e h
    · rfl
    · rfl

theorem count_win_winEvents (v : Variant) : List.count Event.call_win (winEvents v) = 1 := by
  cases v <;> rfl

theorem playSamples_cons (ps : List Press) (rounds : List (List Press)) :
    playSamples (ps :: rounds) = samplesOf ps ++ playSamples rounds := by
  simp [playSamples]

theorem playRounds_add (v : Variant) : ∀ (a b : Nat) (g : Game),
    playRounds v (a + b) g = (playRounds v a g).bind (playRounds v b) := by
  intro a
  induction a with
  | zero => intro b g; simp [playRounds]
  | succ a ih =>
    intro b g
    have e : a + 1 + b = (a + b) + 1 := by omega
    rw [e, playRounds, playRounds]
    cases round v g with
    | none => rfl
    | some g' => simp [ih]

/-- One more round of a perfect game. -/
theorem perfect_step (v : Variant) (g0 g : Game) (rounds : List (List Press))
    (rest : List Switches) (n : Nat) (hplay : PerfectPlay g0.rnd rounds)
    (hn : n < patternLength) (hr : n < rounds.length)
    (hdone : RoundsDone g0 rounds rest n g) :
    ∃ g', round v g = some g' ∧ RoundsDone g0 rounds rest (n + 1) g' := by
  obtain ⟨hm, hmax, hlen, hpat, hrnd, hsw, hwin, hlose, hoob⟩ := hdone
  have hpl : patternLength = 42 := rfl
  obtain ⟨hps, ht, hcodes⟩ := hplay n hr
  have hget : rounds.getD n [] = rounds[n] := by
    simp [List.getD_eq_getElem?_getD, List.getElem?_eq_getElem hr]
  rw [hget] at hps ht hcodes
  have hdrop : rounds.drop n = rounds[n] :: rounds.drop (n + 1) := List.drop_eq_getElem_cons hr
  rw [hdrop, playSamples_cons, List.append_assoc] at hsw
  have hr0 : g.rnd.headD 0 = g0.rnd.getD n 0 := by
    rw [hrnd, List.headD_eq_head?_getD, List.head?_drop, List.getD_eq_getElem?_getD]
  have hsym : symbolOf (g.rnd.headD 0) = drawn g0.rnd n := by
    rw [hr0]
    rfl
  have hmatch : Matches (g.pattern.set g.maxStep (symbolOf (g.rnd.headD 0))) 0 rounds[n] := by
    rw [matches_iff]
    intro j hj
    rw [hps] at hj
    rw [Nat.zero_add, patternGet?_eq _ _ (by omega), hcodes j hj, hmax, hsym]
    by_cases hjn : j = n
    · subst hjn
      rw [List.getElem?_set_self (by omega)]
    · rw [List.getElem?_set_ne (by omega)]
      exact hpat j (by omega)
  have hrun := round_matched v g rounds[n] _ hm (by omega) hlen hsw ht (by omega) hmatch
  refine ⟨_, hrun, ?_⟩
  obtain ⟨f1, f2, f3, f4, f5, -, f7⟩ := afterMatches_frame rounds[n]
    (playSamples (rounds.drop (n + 1)) ++ rest)
    { g with
      pattern := g.pattern.set g.maxStep (symbolOf (g.rnd.headD 0)),
      maxStep := g.maxStep + 1, step := 0, rnd := g.rnd.tail, leds := g.leds.light 0,
      trace := g.trace ++ [Event.delay_ms 1000, Event.rand (g.rnd.headD 0)]
        ++ playbackEvents ((g.pattern.set g.maxStep (symbolOf (g.rnd.headD 0))).take
            (g.maxStep + 1)) }
  have f6 := afterMatches_sw rounds[n] (playSamples (rounds.drop (n + 1)) ++ rest)
    { g with
      pattern := g.pattern.set g.maxStep (symbolOf (g.rnd.headD 0)),
      maxStep := g.maxStep + 1, step := 0, rnd := g.rnd.tail, leds := g.leds.light 0,
      trace := g.trace ++ [Event.delay_ms 1000, Event.rand (g.rnd.headD 0)]
        ++ playbackEvents ((g.pattern.set g.maxStep (symbolOf (g.rnd.headD 0))).take
            (g.maxStep + 1)) } hsw
  refine ⟨by rw [f1]; exact hm, by rw [f3]; simp only; omega,
    by rw [f2]; simp only [List.length_set]; exact hlen, ?_, ?_, f6, ?_, ?_, by rw [f5]; exact hoob⟩
  · intro i hi
    rw [f2]
    simp only
    by_cases hin : i = n
    · subst hin
      rw [hmax, List.getElem?_set_self (by omega), hsym]
    · rw [hmax, List.getElem?_set_ne (by omega)]
      exact hpat i (by omega)
  · rw [f4]
    simp only
    rw [hrnd, List.tail_drop]
  · rw [f7]
    simp only [List.count_append, count_quiet Event.call_win _ rfl (quiet_eventsOf _),
      count_quiet Event.call_win _ rfl (quiet_playbackEvents _), Nat.add_zero, hwin]
    rfl
  · rw [f7]
    simp only [List.count_append, count_quiet Event.call_lose _ rfl (quiet_eventsOf _),
      count_quiet Event.call_lose _ rfl (quiet_playbackEvents _), Nat.add_zero, hlose]
    rfl

/-- Any number of rounds of a perfect game, up to round 42: the round loop
makes that many iterations and game_win is not entered. -/
theorem perfect_rounds (v : Variant) (g0 : Game) (rounds : List (List Press))
    (rest : List Switches) (hplay : PerfectPlay g0.rnd rounds) :
    ∀ (j n : Nat) (g : Game), n + j ≤ patternLength → n + j ≤ rounds.length →
      RoundsDone g0 rounds rest n g →
      ∃ g', playRounds v j g = some g' ∧ RoundsDone g0 rounds rest (n + j) g' ∧
        ∀ k, whileLoop (fun s => (decide (s.mode = simon), s)) (round v) (k + j) g
          = whileLoop (fun s => (decide (s.mode = simon), s)) (round v) k g' := by
  intro j
  induction j with
  | zero =>
    intro n g _ _ hdone
    exact ⟨g, rfl, hdone, fun _ => rfl⟩
  | succ j ih =>
    intro n g h1 h2 hdone
    obtain ⟨g1, hround, hdone1⟩ :=
      perfect_step v g0 g rounds rest n hplay (by omega) (by omega) hdone
    obtain ⟨g', hrest, hdone', hloop⟩ := ih (n + 1) g1 (by omega) (by omega) hdone1
    refine ⟨g', ?_, ?_, ?_⟩
    · rw [playRounds, hround]
      exact hrest
    · have e : n + (j + 1) = n + 1 + j := by omega
      rw [e]
      exact hdone'
    · intro k
      rw [← Nat.add_assoc, whileLoop_step _ _ _ _ (by simp [hdone.1]), hround]
      exact hloop k

/-- A perfect game from its start to the end of the round loop: 42 rounds
are played and verified, then the round entered with `maxStep == 42` stores
outside the array, calls `game_win`, plays 43 steps back and leaves the loop
with the game off. -/
theorem perfect_game_run (v : Variant) (g : Game) (rounds : List (List Press))
    (rest : List Switches)
    (hm : g.mode = simon) (h0 : g.maxStep = 0) (hlen : g.pattern.length = patternLength)
    (hr : rounds.length = patternLength) (hplay : PerfectPlay g.rnd rounds)
    (hsw : g.sw = playSamples rounds ++ rest) :
    ∃ g42, playRounds v patternLength g = some g42 ∧ RoundsDone g rounds rest patternLength g42 ∧
      roundLoop v g = round v g42 ∧
      round v g42 = some { g42 with
        mode := off, maxStep := patternLength + 1, step := 0, rnd := g42.rnd.tail,
        leds := (winLeds v g42.leds).light 0,
        trace := g42.trace ++ [Event.delay_ms 1000, Event.rand (g42.rnd.headD 0)] ++ winEvents v
          ++ playbackEvents (g42.pattern ++ [symbolOf (g42.rnd.headD 0)]),
        oob := g42.oob ++ [patternLength, patternLength, patternLength],
        stray := symbolOf (g42.rnd.headD 0) } := by
  have hpl : patternLength = 42 := rfl
  have hdone0 : RoundsDone g rounds rest 0 g :=
    ⟨hm, h0, hlen, fun i hi => absurd hi (Nat.not_lt_zero i), rfl, hsw, rfl, rfl, rfl⟩
  obtain ⟨g42, hrun, hdone, hloop⟩ :=
    perfect_rounds v g rounds rest hplay patternLength 0 g (by omega) (by omega) hdone0
  rw [Nat.zero_add] at hdone
  have hwon := round_won v g42 hdone.2.1 hdone.2.2.1
  refine ⟨g42, hrun, hdone, ?_, hwon⟩
  unfold roundLoop
  have e : 256 = (213 + 1) + patternLength := by rw [hpl]
  rw [e, hloop, whileLoop_step _ _ _ _ (by simp [hdone.1]), hwon]
  simp only [Option.some_bind]
  rw [whileLoop_stop _ _ _ _ (by simp [off, simon])]

theorem count_pause_soundEvents (num : Nat) :
    List.count (Event.delay_ms 500) (soundEvents num) = 0 := by
  unfold soundEvents
  split_ifs <;> rfl

theorem count_pause_playbackEvents (p : List Nat) :
    List.count (Event.delay_ms 500) (playbackEvents p) = p.length := by
  induction p with
  | nil => rfl
  | cons a p ih =>
    rw [playbackEvents, List.count_append, ih, List.count_cons, List.count_append,
      count_pause_soundEvents]
    simp
    omega

/-- C5, as the code has it: in a game played without a mistake from its
start, the 43rd iteration of the round loop is entered with
`maxStep == 42 == patternLength` and `mode == simon`; its append
`pattern[maxStep] = ...` is outside the 42-cell array (the checked store
returns `none`), and the playback that follows reads `pattern[42]` twice.
The three accesses are recorded in `oob`. -/
theorem pattern_overrun (g : Game) (rounds : List (List Press)) (rest : List Switches)
    (hm : g.mode = simon) (h0 : g.maxStep = 0) (hlen : g.pattern.length = patternLength)
    (hr : rounds.length = patternLength) (hplay : PerfectPlay g.rnd rounds)
    (hsw : g.sw = playSamples rounds ++ rest) :
    ∃ g42 g', playRounds Variant.game patternLength g = some g42 ∧
      g42.mode = simon ∧ g42.maxStep = patternLength ∧ g42.oob = g.oob ∧
      patternSet? g42.pattern g42.maxStep (symbolOf (g42.rnd.headD 0)) = none ∧
      patternGet? g42.pattern patternLength = none ∧
      roundLoop Variant.game g = some g' ∧
      g'.oob = g.oob ++ [patternLength, patternLength, patternLength] := by
  obtain ⟨g42, hrun, hdone, hloop, hwon⟩ :=
    perfect_game_run Variant.game g rounds rest hm h0 hlen hr hplay hsw
  refine ⟨g42, _, hrun, hdone.1, hdone.2.1, hdone.2.2.2.2.2.2.2.2, ?_, ?_, hloop.trans hwon, ?_⟩
  · rw [hdone.2.1]
    simp [patternSet?]
  · simp [patternGet?]
  · rw [hdone.2.2.2.2.2.2.2.2]

set_option maxRecDepth 100000 in
/-- C5 on the game whose `rand()` always returns 0 and whose player taps
button 1 the right number of times in each round: index 42 is accessed three
times. -/
theorem pattern_overrun_witness :
    ∃ g', roundLoop Variant.game perfectGame = some g' ∧ g'.oob = [42, 42, 42] := by
  obtain ⟨-, g', -, -, -, -, -, -, h1, h2⟩ := pattern_overrun perfectGame perfectTaps [] rfl rfl
    (by decide) (by decide) (by decide) (by simp [perfectGame])
  exact ⟨g', h1, by rw [h2]; rfl⟩

/-- C7, as the code has it: in the round entered with `maxStep == 42`, the
one in which `game_win` is called, the mode is set to off and the playback
loop then still runs: after the events of `game_win` the trace holds the
playback of 43 steps, the 42 pattern cells and the byte stored outside the
array. Only the verification loop is skipped: no button is read. -/
theorem winning_round_plays_back (v : Variant) (g : Game) (hmax : g.maxStep = patternLength)
    (hlen : g.pattern.length = patternLength) :
    ∃ g', round v g = some g' ∧ g'.mode = off ∧ g'.sw = g.sw ∧
      g'.trace = g.trace ++ [Event.delay_ms 1000, Event.rand (g.rnd.headD 0)] ++ winEvents v
        ++ playbackEvents (g.pattern ++ [symbolOf (g.rnd.headD 0)]) ∧
      List.count (Event.delay_ms 500)
        (playbackEvents (g.pattern ++ [symbolOf (g.rnd.headD 0)])) = patternLength + 1 := by
  refine ⟨_, round_won v g hmax hlen, rfl, rfl, rfl, ?_⟩
  rw [count_pause_playbackEvents, List.length_append, hlen]
  rfl

/-- C7 on a game at `maxStep = 42` whose pattern cells all hold 1: after
`game_win` the 43 steps are played back (`rand()` returns 0, so the 43rd
symbol is 1 as well). -/
theorem winning_round_plays_back_witness :
    ∃ g', round Variant.game (sampleGame 42) = some g' ∧ g'.mode = off ∧
      g'.trace = [Event.delay_ms 1000, Event.rand 0] ++ winEvents Variant.game
        ++ playbackEvents (List.replicate 43 1) := by
  obtain ⟨g', h1, h2, -, h4, -⟩ :=
    winning_round_plays_back Variant.game (sampleGame 42) rfl (by decide)
  exact ⟨g', h1, h2, by rw [h4]; rfl⟩

/-! ### The round on arbitrary input: termination and what is left alone -/

/-- Total correctness rule: an invariant with a decreasing measure gives a
result that satisfies the exit condition. -/
theorem whileLoop_spec {σ : Type} (cond : σ → Bool × σ) (body : σ → Option σ)
    (I : σ → Prop) (J : σ → Prop) (μ : σ → Nat)
    (hbody : ∀ s, I s → (cond s).1 = true →
      ∃ s', body (cond s).2 = some s' ∧ I s' ∧ μ s' < μ s)
    (hexit : ∀ s, I s → (cond s).1 = false → J (cond s).2)
    (n : Nat) (s : σ) (hI : I s) (hμ : μ s ≤ n) :
    ∃ t, whileLoop cond body n s = some t ∧ J t := by
  obtain ⟨t, ht⟩ := whileLoop_total cond body I μ hbody n s hI hμ
  refine ⟨t, ht, whileLoop_inv cond body I J ?_ hexit n s t hI ht⟩
  intro a b hIa hc hb
  obtain ⟨b', hb', hIb, -⟩ := hbody a hIa hc
  rw [hb] at hb'
  cases hb'
  exact hIb

theorem kept_refl (g : Game) : Kept g g :=
  ⟨rfl, rfl, rfl, rfl, Or.inl rfl, fun _ _ => rfl⟩

theorem mode_step {a b c : Nat} (h₁ : b = a ∨ b = off) (h₂ : c = b ∨ c = off) :
    c = a ∨ c = off := by
  rcases h₂ with h | h
  · rw [h]
    exact h₁
  · exact Or.inr h

theorem simon_of_mode {a b : Nat} (h : b = a ∨ b = off) (hb : b = simon) : a = simon := by
  rcases h with h | h
  · rw [← h]
    exact hb
  · rw [h] at hb
    cases hb

theorem kept_trans {a b c : Game} (h₁ : Kept a b) (h₂ : Kept b c) : Kept a c := by
  obtain ⟨p1, m1, s1, r1, o1, c1⟩ := h₁
  obtain ⟨p2, m2, s2, r2, o2, c2⟩ := h₂
  exact ⟨p2.trans p1, m2.trans m1, s2.trans s1, r2.trans r1, mode_step o1 o2,
    fun e he => (c2 e he).trans (c1 e he)⟩

theorem count_append_quiet (e : Event) (t l : List Event) (he : e.isCall = true)
    (hl : Quiet l) : List.count e (t ++ l) = List.count e t := by
  rw [List.count_append, count_quiet e l he hl, Nat.add_zero]

theorem quiet_singleton_delay (ms : Nat) : Quiet [Event.delay_ms ms] := by
  intro e he
  rw [List.mem_singleton.1 he]
  rfl

/-- The press loop ends, and keeps what waiting keeps. -/
theorem waitPress_kept (g : Game) (hi : g.mode = simon → g.idle < timeOut) :
    ∃ g', waitPress g = some g' ∧ Kept g g' := by
  have ht : timeOut = 2400 := rfl
  unfold waitPress
  apply whileLoop_spec _ _ (fun s => Kept g s ∧ (s.mode = simon → s.idle < timeOut))
    (fun s => Kept g s) (fun s => timeOut - s.idle)
  · intro s ⟨hk, hidle⟩ hc
    simp only [Bool.and_eq_true, decide_eq_true_eq] at hc
    have hlt := hidle hc.2
    refine ⟨_, rfl, ⟨kept_trans hk ?_, ?_⟩, ?_⟩
    · rw [waitPressBody_eq]
      refine ⟨rfl, rfl, rfl, rfl, ?_, fun e he => ?_⟩
      · simp only
        split_ifs
        · exact Or.inr rfl
        · exact Or.inl rfl
      · exact count_append_quiet e _ _ he (quiet_singleton_delay 50)
    · rw [waitPressBody_eq]
      simp only
      have e1 : (s.idle + 1) % 65536 = s.idle + 1 := by omega
      rw [e1]
      split_ifs with h
      · intro hoff
        simp [off, simon] at hoff
      · intro _
        omega
    · rw [waitPressBody_eq]
      simp only
      omega
  · intro s hI _
    exact hI.1
  · exact ⟨kept_refl g, hi⟩
  · omega

/-- The release loop ends, and keeps what waiting keeps. -/
theorem waitRelease_kept (g : Game) (hi : g.mode = simon → g.idle < timeOut) :
    ∃ g', waitRelease g = some g' ∧ Kept g g' := by
  have ht : timeOut = 2400 := rfl
  unfold waitRelease
  apply whileLoop_spec _ _ (fun s => Kept g s ∧ (s.mode = simon → s.idle < timeOut))
    (fun s => Kept g s) (fun s => timeOut - s.idle)
  · intro s ⟨hk, hidle⟩ hc
    rw [releaseCond_eq] at hc ⊢
    simp only [Bool.and_eq_true, decide_eq_true_eq] at hc
    have hlt := hidle hc.2
    refine ⟨_, rfl, ⟨kept_trans hk ?_, ?_⟩, ?_⟩
    · rw [releaseBody_eq]
      refine ⟨rfl, rfl, rfl, rfl, ?_, fun e he => ?_⟩
      · simp only
        split_ifs
        · exact Or.inr rfl
        · exact Or.inl rfl
      · exact count_append_quiet e _ _ he (quiet_singleton_delay 50)
    · rw [releaseBody_eq]
      simp only
      have e1 : (s.idle + 1) % 65536 = s.idle + 1 := by omega
      rw [e1]
      split_ifs with h
      · intro hoff
        simp [off, simon] at hoff
      · intro _
        omega
    · rw [releaseBody_eq]
      simp only
      omega
  · intro s hI _
    rw [releaseCond_eq]
    exact kept_trans hI.1 ⟨rfl, rfl, rfl, rfl, Or.inl rfl, fun _ _ => rfl⟩
  · exact ⟨kept_refl g, hi⟩
  · omega

/-- The hook `game_lose` returns in both variants; it leaves the pattern,
`step` and the random numbers alone and does not enter `game_win`. -/
theorem game_lose_spec (v : Variant) (g : Game) (h : g.maxStep < 256) :
    ∃ g', game_lose v g = some g' ∧ g'.pattern = g.pattern ∧ g'.rnd = g.rnd ∧
      g'.step = g.step ∧ g'.maxStep < 256 ∧
      List.count Event.call_win g'.trace = List.count Event.call_win g.trace := by
  cases v with
  | game =>
    refine ⟨_, game_lose_game g h, rfl, rfl, rfl, by simp, ?_⟩
    simp only [List.count_append, count_win_loseEvents, Nat.add_zero]
  | starterGame =>
    refine ⟨_, rfl, rfl, rfl, rfl, h, ?_⟩
    simp [emit, List.count_append]

theorem touchPattern_frame (g : Game) (i : Nat) :
    (touchPattern g i).pattern = g.pattern ∧ (touchPattern g i).rnd = g.rnd ∧
    (touchPattern g i).step = g.step ∧ (touchPattern g i).maxStep = g.maxStep ∧
    (touchPattern g i).mode = g.mode ∧ (touchPattern g i).trace = g.trace ∧
    (touchPattern g i).button = g.button := by
  rw [touchPattern_eq]
  exact ⟨rfl, rfl, rfl, rfl, rfl, rfl, rfl⟩

/-- The comparison step returns; it leaves the pattern, `step` and the
random numbers alone and does not enter `game_win`; when it does not end the
game it leaves `maxStep` alone as well. -/
theorem judge_spec (v : Variant) (g : Game) (h : g.maxStep < 256) :
    ∃ g', judge v g = some g' ∧ g'.pattern = g.pattern ∧ g'.rnd = g.rnd ∧
      g'.step = g.step ∧ g'.maxStep < 256 ∧
      List.count Event.call_win g'.trace = List.count Event.call_win g.trace ∧
      (g'.mode = g.mode ∨ g'.mode = off) ∧
      (g'.mode = simon → g'.maxStep = g.maxStep) := by
  obtain ⟨t1, t2, t3, t4, t5, t6, -⟩ := touchPattern_frame g g.step
  unfold judge
  simp only [readPattern]
  generalize touchPattern g g.step = G at t1 t2 t3 t4 t5 t6 ⊢
  split_ifs with hc
  · obtain ⟨g1, h1, hp, hr, hs, hm, hw⟩ := game_lose_spec v (delay_ms 500 G)
      (by rw [delay_ms_eq]; simp only; omega)
    rw [h1]
    refine ⟨_, rfl, hp.trans t1, hr.trans t2, hs.trans t3, hm, ?_, Or.inr rfl, ?_⟩
    · simp only [hw, delay_ms_eq, t6]
      exact count_append_quiet _ _ _ rfl (quiet_singleton_delay 500)
    · intro hoff
      simp [off, simon] at hoff
  · exact ⟨_, rfl, t1, t2, t3, by omega, by rw [t6], Or.inl t5, fun _ => t4⟩

/-- One guess of the player, whatever is read from the buttons: the step
returns and keeps what a guess keeps. -/
theorem guessStep_kept (v : Variant) (g : Game) (h : g.maxStep < 256) :
    ∃ g', guessStep v g = some g' ∧ GuessKept g g' := by
  have ht : timeOut = 2400 := rfl
  unfold guessStep
  simp only [readButton_eq]
  obtain ⟨g4, h4, p4, m4, s4, r4, o4, c4⟩ := waitPress_kept
    { g with idle := 0, sw := g.sw.tail, button := get_button (g.sw.headD released) }
    (fun _ => by simp only; omega)
  simp only at p4 m4 s4 r4 o4 c4
  rw [h4]
  simp only [Option.some_bind, LED_eq, sound_eq]
  obtain ⟨g6, h6, p6, r6, s6, m6, c6, o6, k6⟩ := judge_spec v
    { g4 with leds := (g4.leds.light g4.button).light 0,
              trace := g4.trace ++ [Event.LED g4.button] ++ soundEvents g4.button
                ++ [Event.LED 0] }
    (by simp only; omega)
  simp only at p6 r6 s6 c6 o6 k6
  rw [h6]
  simp only [Option.some_bind]
  obtain ⟨g8, h8, p8, m8, s8, r8, o8, c8⟩ := waitRelease_kept
    { g6 with step := (g6.step + 1) % 256, idle := 0 } (fun _ => by simp only; omega)
  simp only at p8 m8 s8 r8 o8 c8
  refine ⟨g8, h8, by rw [p8, p6, p4], by rw [r8, r6, r4], by rw [m8]; exact m6, ?_,
    mode_step (mode_step o4 o6) o8, ?_⟩
  · rw [c8 Event.call_win rfl, c6, ← c4 Event.call_win rfl]
    have hq : Quiet ([Event.LED g4.button] ++ soundEvents g4.button ++ [Event.LED 0]) := by
      have := quiet_guessEvents g4.button
      simpa [guessEvents] using this
    rw [List.append_assoc, List.append_assoc, ← List.append_assoc [Event.LED g4.button]]
    exact count_append_quiet _ _ _ rfl hq
  · intro hm
    have h6m := k6 (simon_of_mode o8 hm)
    exact ⟨by rw [m8, h6m, m4], by rw [s8, s6, s4]⟩

/-- Invariant rule for the states at the head of a loop. -/
theorem loopState_inv {σ : Type} (cond : σ → Bool × σ) (body : σ → Option σ) (I : σ → Prop)
    (hbody : ∀ s s', I s → (cond s).1 = true → body (cond s).2 = some s' → I s') :
    ∀ (k : Nat) (s t : σ), I s → loopState cond body k s = some t → I t := by
  intro k
  induction k with
  | zero =>
    intro s t hI h
    simp only [loopState, Option.some.injEq] at h
    rw [← h]
    exact hI
  | succ k ih =>
    intro s t hI h
    rw [loopState] at h
    split_ifs at h with hc
    cases hb : body (cond s).2 with
    | none => simp [hb] at h
    | some u =>
      simp only [hb, Option.some_bind] at h
      exact ih u t (hbody s u hI hc hb) h

/-- What holds at the head of the verification loop, relative to the state
`g` in which the loop was entered, is kept by one guess. -/
theorem verify_invariant (v : Variant) (g s s' : Game)
    (hI : s.pattern = g.pattern ∧ s.rnd = g.rnd ∧ s.maxStep < 256 ∧
      List.count Event.call_win s.trace = List.count Event.call_win g.trace ∧
      (s.mode = g.mode ∨ s.mode = off) ∧
      (s.mode = simon → s.maxStep = g.maxStep ∧ s.step ≤ s.maxStep))
    (hc : (decide (s.step ≠ s.maxStep) && decide (s.mode = simon)) = true)
    (hb : guessStep v s = some s') :
    s'.pattern = g.pattern ∧ s'.rnd = g.rnd ∧ s'.maxStep < 256 ∧
      List.count Event.call_win s'.trace = List.count Event.call_win g.trace ∧
      (s'.mode = g.mode ∨ s'.mode = off) ∧
      (s'.mode = simon → s'.maxStep = g.maxStep ∧ s'.step ≤ s'.maxStep) := by
  obtain ⟨hp, hr, hm, hw, hmode, ho⟩ := hI
  simp only [Bool.and_eq_true, decide_eq_true_eq] at hc
  obtain ⟨s'', hb', p, r, m, w, md, o⟩ := guessStep_kept v s hm
  rw [hb] at hb'
  cases hb'
  refine ⟨p.trans hp, r.trans hr, m, w.trans hw, mode_step hmode md, fun hs' => ?_⟩
  obtain ⟨o2, o3⟩ := o hs'
  obtain ⟨q2, q3⟩ := ho hc.2
  refine ⟨o2.trans q2, ?_⟩
  rw [o3, o2]
  have : s.step ≠ s.maxStep := hc.1
  omega

/-- The verification loop, whatever is read from the buttons: it ends, and
it leaves the pattern and the random numbers alone and does not enter
`game_win`; the mode stays as it is or becomes off, and while the game goes
on `maxStep` stays as it is. -/
theorem verifyLoop_spec (v : Variant) (g : Game) (hmax : g.maxStep < 256)
    (hstep : g.step ≤ g.maxStep) :
    ∃ g', verifyLoop v g = some g' ∧ g'.pattern = g.pattern ∧ g'.rnd = g.rnd ∧
      List.count Event.call_win g'.trace = List.count Event.call_win g.trace ∧
      (g'.mode = g.mode ∨ g'.mode = off) ∧
      (g'.mode = simon → g'.maxStep = g.maxStep) := by
  unfold verifyLoop
  have key := whileLoop_spec
    (fun s => (decide (s.step ≠ s.maxStep) && decide (s.mode = simon), s)) (guessStep v)
    (fun s => s.pattern = g.pattern ∧ s.rnd = g.rnd ∧ s.maxStep < 256 ∧
      List.count Event.call_win s.trace = List.count Event.call_win g.trace ∧
      (s.mode = g.mode ∨ s.mode = off) ∧
      (s.mode = simon → s.maxStep = g.maxStep ∧ s.step ≤ s.maxStep))
    (fun s => s.pattern = g.pattern ∧ s.rnd = g.rnd ∧ s.maxStep < 256 ∧
      List.count Event.call_win s.trace = List.count Event.call_win g.trace ∧
      (s.mode = g.mode ∨ s.mode = off) ∧
      (s.mode = simon → s.maxStep = g.maxStep ∧ s.step ≤ s.maxStep))
    (fun s => if s.mode = simon then s.maxStep - s.step else 0)
    ?_ (fun s hI _ => hI) 256 g ⟨rfl, rfl, hmax, rfl, Or.inl rfl, fun _ => ⟨rfl, hstep⟩⟩
    (by simp only; split_ifs <;> omega)
  · obtain ⟨t, ht, p, r, -, w, md, o⟩ := key
    exact ⟨t, ht, p, r, w, md, fun hm => (o hm).1⟩
  · intro s hI hc
    obtain ⟨s', hb, -, -, -, -, -, o'⟩ := guessStep_kept v s hI.2.2.1
    have hI' := verify_invariant v g s s' hI hc hb
    refine ⟨s', hb, hI', ?_⟩
    simp only [Bool.and_eq_true, decide_eq_true_eq] at hc
    have hs := hI.2.2.2.2.2 hc.2
    simp only [hc.2, if_true]
    have hne : s.step ≠ s.maxStep := hc.1
    split_ifs with hm'
    · obtain ⟨o2, o3⟩ := o' hm'
      rw [o2, o3]
      omega
    · omega

/-- The start of a round in general: `maxStep` is incremented; the win
branch is taken exactly when the incremented `maxStep` is
`patternLength + 1`. -/
theorem roundHead_facts (v : Variant) (g : Game) :
    (roundHead v g).maxStep = (g.maxStep + 1) % 256 ∧
    (roundHead v g).rnd = g.rnd.tail ∧
    ((roundHead v g).maxStep = patternLength + 1 →
      (roundHead v g).mode = off ∧
      (roundHead v g).trace
        = g.trace ++ [Event.delay_ms 1000, Event.rand (g.rnd.headD 0)] ++ winEvents v) ∧
    ((roundHead v g).maxStep ≠ patternLength + 1 →
      (roundHead v g).mode = g.mode ∧
      (roundHead v g).trace = g.trace ++ [Event.delay_ms 1000, Event.rand (g.rnd.headD 0)]) := by
  simp only [roundHead, callRand_eq, delay_ms_eq, storePattern, patternSet?]
  by_cases hin : g.maxStep < patternLength
  · simp only [if_pos hin]
    by_cases hw : (g.maxStep + 1) % 256 = patternLength + 1
    · simp [hw, game_win_eq]
    · simp [hw]
  · simp only [if_neg hin]
    by_cases hw : (g.maxStep + 1) % 256 = patternLength + 1
    · simp [hw, game_win_eq]
    · simp [hw]

/-- A whole round, whatever is read from the buttons: the round returns;
after its start nothing writes to the pattern, draws a random number or
enters `game_win`. -/
theorem round_spec (v : Variant) (g : Game) :
    ∃ g', round v g = some g' ∧ g'.pattern = (roundHead v g).pattern ∧
      g'.rnd = (roundHead v g).rnd ∧
      List.count Event.call_win g'.trace = List.count Event.call_win (roundHead v g).trace ∧
      (g'.mode = (roundHead v g).mode ∨ g'.mode = off) ∧
      (g'.mode = simon → g'.maxStep = (roundHead v g).maxStep) := by
  have hmax : (roundHead v g).maxStep < 256 := by
    rw [(roundHead_facts v g).1]
    exact Nat.mod_lt _ (by norm_num)
  unfold round
  rw [playback_eq _ hmax]
  simp only [Option.some_bind, verify]
  obtain ⟨g', h, p, r, w, md, o⟩ := verifyLoop_spec v
    { roundHead v g with
      leds := if (roundHead v g).maxStep = 0 then (roundHead v g).leds
        else (roundHead v g).leds.light 0,
      step := 0,
      trace := (roundHead v g).trace
        ++ playbackEvents (cells (roundHead v g) 0 (roundHead v g).maxStep),
      oob := (roundHead v g).oob
        ++ strayReads (roundHead v g).pattern 0 (roundHead v g).maxStep }
    (by exact hmax) (by simp)
  refine ⟨g', h, p, r, ?_, md, o⟩
  rw [w]
  exact count_append_quiet _ _ _ rfl (quiet_playbackEvents _)

/-! ### The win threshold and the growth of the pattern -/

set_option maxRecDepth 100000 in
/-- C6 as stated fails: in the round whose increment makes `maxStep`
equal to `patternLength = 42`, played here by a player who matches all 42
steps, `game_win` is not called and the mode stays `simon`. -/
theorem win_threshold_counterexample :
    round42Game.mode = simon ∧ round42Game.maxStep + 1 = patternLength ∧
    ∃ g', round Variant.game round42Game = some g' ∧ g'.maxStep = patternLength ∧
      g'.mode = simon ∧ List.count Event.call_win g'.trace = 0 := by
  refine ⟨rfl, rfl, ?_⟩
  have hrun := round_matched Variant.game round42Game (List.replicate 42 (tap 1)) [] rfl
    (by decide) (by decide) (by simp [round42Game]) (by decide) (by decide)
    ((matches_iff _ _ _).2 (by decide))
  refine ⟨_, hrun, ?_, ?_, ?_⟩
  · rw [(afterMatches_frame _ _ _).2.2.1]
    rfl
  · rw [(afterMatches_frame _ _ _).1]
    rfl
  · rw [(afterMatches_frame _ _ _).2.2.2.2.2.2]
    simp only [List.count_append, count_quiet Event.call_win _ rfl (quiet_eventsOf _),
      count_quiet Event.call_win _ rfl (quiet_playbackEvents _)]
    rfl

/-- C6, amended: every round returns, and `game_win` is called in it, once,
with the mode set to off, exactly when the increment makes `maxStep` equal to
`patternLength + 1 = 43`; in every other round `game_win` is not called. -/
theorem win_threshold (v : Variant) (g : Game) :
    ∃ g', round v g = some g' ∧
      ((g.maxStep + 1) % 256 = patternLength + 1 →
        List.count Event.call_win g'.trace = List.count Event.call_win g.trace + 1 ∧
        g'.mode = off) ∧
      ((g.maxStep + 1) % 256 ≠ patternLength + 1 →
        List.count Event.call_win g'.trace = List.count Event.call_win g.trace) := by
  obtain ⟨g', h, -, -, w, md, -⟩ := round_spec v g
  obtain ⟨f1, -, f3, f4⟩ := roundHead_facts v g
  rw [f1] at f3 f4
  refine ⟨g', h, fun hw => ?_, fun hw => ?_⟩
  · obtain ⟨hmode, htrace⟩ := f3 hw
    refine ⟨?_, ?_⟩
    · rw [w, htrace, List.count_append, count_win_winEvents, List.count_append]
      rfl
    · rcases md with hmd | hmd
      · rw [hmd, hmode]
      · exact hmd
  · rw [w, (f4 hw).2, List.count_append]
    rfl

theorem take_succ_set {α : Type} (x : α) : ∀ (l : List α) (m : Nat), m < l.length →
    (l.set m x).take (m + 1) = l.take m ++ [x] := by
  intro l
  induction l with
  | nil => intro m h; simp at h
  | cons a l ih =>
    intro m h
    cases m with
    | zero => simp
    | succ m =>
      simp only [List.length_cons] at h
      simp only [List.set_cons_succ, List.take_succ_cons, List.cons_append]
      rw [ih m (by omega)]

/-- C8: a round entered with `maxStep = m < 42`. The append step makes
`maxStep = m + 1`, puts the drawn symbol into `pattern[m]` and changes no
other cell. Playback returns, writes no cell, and plays the first `m` cells
followed by the new symbol. At the head of the verification loop, after any
number of guesses, the cells are the same and, as long as the game goes on,
`maxStep` is `m + 1`. The whole round returns with the cells as the append
step left them. -/
theorem pattern_growth (v : Variant) (g : Game) (m : Nat) (hm : g.maxStep = m)
    (h42 : m < patternLength) (hlen : g.pattern.length = patternLength) :
    (roundHead v g).maxStep = m + 1 ∧
    (roundHead v g).pattern[m]? = some (symbolOf (g.rnd.headD 0)) ∧
    (∀ i, i ≠ m → (roundHead v g).pattern[i]? = g.pattern[i]?) ∧
    (∃ p, playback (roundHead v g) = some p ∧ p.pattern = (roundHead v g).pattern ∧
      p.maxStep = m + 1 ∧
      p.trace = (roundHead v g).trace
        ++ playbackEvents (g.pattern.take m ++ [symbolOf (g.rnd.headD 0)]) ∧
      ∀ k t, loopState
          (fun s => (decide (s.step ≠ s.maxStep) && decide (s.mode = simon), s)) (guessStep v) k
          { p with step := 0 } = some t →
        t.pattern = (roundHead v g).pattern ∧ (t.mode = simon → t.maxStep = m + 1)) ∧
    ∃ g', round v g = some g' ∧ g'.pattern = (roundHead v g).pattern := by
  have hpl : patternLength = 42 := rfl
  have hhead := roundHead_grow v g (by rw [hm]; exact h42)
  have hlen' : (g.pattern.set m (symbolOf (g.rnd.headD 0))).length = patternLength := by
    rw [List.length_set]
    exact hlen
  have hmax : (roundHead v g).maxStep = m + 1 := by rw [hhead, hm]
  have hpat : (roundHead v g).pattern = g.pattern.set m (symbolOf (g.rnd.headD 0)) := by
    rw [hhead, hm]
  refine ⟨hmax, ?_, ?_, ?_, ?_⟩
  · rw [hpat, List.getElem?_set_self (by omega)]
  · intro i hi
    rw [hpat, List.getElem?_set_ne (Ne.symm hi)]
  · refine ⟨_, playback_eq _ (by rw [hmax]; omega), rfl, hmax, ?_, ?_⟩
    · simp only
      rw [hmax, cells_inside _ (by rw [hpat]; exact hlen') _ _ (by omega), hpat,
        List.drop_zero, take_succ_set _ _ _ (by omega)]
    · intro k t ht
      have hinv := fun h0 => loopState_inv
        (fun s => (decide (s.step ≠ s.maxStep) && decide (s.mode = simon), s)) (guessStep v)
        (fun s => s.pattern = (roundHead v g).pattern ∧ s.rnd = (roundHead v g).rnd ∧
          s.maxStep < 256 ∧
          List.count Event.call_win s.trace = List.count Event.call_win
            ((roundHead v g).trace ++ playbackEvents
              (cells (roundHead v g) 0 (roundHead v g).maxStep)) ∧
          (s.mode = (roundHead v g).mode ∨ s.mode = off) ∧
          (s.mode = simon → s.maxStep = (roundHead v g).maxStep ∧ s.step ≤ s.maxStep))
        (fun a b hI hc hb => verify_invariant v
          { roundHead v g with
            leds := if (roundHead v g).maxStep = 0 then (roundHead v g).leds
              else (roundHead v g).leds.light 0,
            step := 0,
            trace := (roundHead v g).trace
              ++ playbackEvents (cells (roundHead v g) 0 (roundHead v g).maxStep),
            oob := (roundHead v g).oob
              ++ strayReads (roundHead v g).pattern 0 (roundHead v g).maxStep }
          a b hI hc hb) k _ t h0 ht
      have hinv := hinv
        ⟨rfl, rfl, by simp only; omega, rfl, Or.inl rfl, fun _ => ⟨rfl, Nat.zero_le _⟩⟩
      exact ⟨hinv.1, fun hs => by rw [(hinv.2.2.2.2.2 hs).1, hmax]⟩
  · obtain ⟨g', h, p, -⟩ := round_spec v g
    exact ⟨g', h, p⟩

/-- C8 on a round entered with `maxStep = 5`, all cells holding 1, `rand()`
returning 0 and no button touched. -/
theorem pattern_growth_witness :
    (roundHead Variant.game (sampleGame 5)).maxStep = 5 + 1 ∧
    (roundHead Variant.game (sampleGame 5)).pattern[5]? = some (symbolOf 0) ∧
    ∃ g', round Variant.game (sampleGame 5) = some g' ∧
      g'.pattern = (roundHead Variant.game (sampleGame 5)).pattern := by
  obtain ⟨h1, h2, -, -, h5⟩ := pattern_growth Variant.game (sampleGame 5) 5 rfl (by decide)
    (by decide)
  exact ⟨h1, h2, h5⟩

/-! ### The LED function and the seed mix -/

/-- C19: for every state of the LEDs, `LED(0)` turns the four game LEDs
off; `LED(n)` for `n` in 1..4 turns LED `n + 1` on and leaves the other
latches as they are; `LED(n)` for `n > 4` does what `LED(0)` does; no call
changes the power LED, LED1. -/
theorem LED_frame (g : Game) (n : Nat) :
    (LED 0 g).leds
      = { g.leds with LED2 := false, LED3 := false, LED4 := false, LED5 := false } ∧
    (LED 1 g).leds = { g.leds with LED2 := true } ∧
    (LED 2 g).leds = { g.leds with LED3 := true } ∧
    (LED 3 g).leds = { g.leds with LED4 := true } ∧
    (LED 4 g).leds = { g.leds with LED5 := true } ∧
    (4 < n → (LED n g).leds = (LED 0 g).leds) ∧
    ((LED n g).leds).LED1 = g.leds.LED1 := by
  refine ⟨rfl, rfl, rfl, rfl, rfl, ?_, ?_⟩
  · intro h
    simp only [LED_eq, Leds.light]
    rw [if_neg (by omega), if_neg (by omega), if_neg (by omega), if_neg (by omega)]
    rfl
  · simp only [LED_eq, Leds.light]
    split_ifs <;> rfl

theorem mixSeed_eq (s t : Nat) (ht : t < 256) : mixSeed s t = (s % 256) * 256 + t := by
  have h := Nat.mul_add_lt_is_or (i := 8) (b := t) (by norm_num; exact ht) s
  unfold mixSeed
  have e : Nat.shiftLeft s 8 = 2 ^ 8 * s := by
    show s <<< 8 = 2 ^ 8 * s
    rw [Nat.shiftLeft_eq, Nat.mul_comm]
  have e2 : Nat.lor (Nat.shiftLeft s 8) t = 2 ^ 8 * s + t := by
    rw [e]
    exact h.symm
  rw [e2]
  omega

/-! ### A button that stays down -/

/-- The release loop when a button is read as down until the idle counter
reaches `timeOut`: it ends with the game off, after one more read of the
buttons by the loop condition. -/
theorem waitRelease_timeout (k : Nat) (g : Game) (hm : g.mode = simon)
    (hz : ∀ i, i < k + 1 → get_button (g.sw.getD i released) ≠ 0)
    (hi : g.idle + k + 1 = timeOut) :
    waitRelease g = some { g with
      mode := off, sw := g.sw.drop (k + 2), idle := timeOut,
      trace := g.trace ++ pollEvents (k + 1) } := by
  have ht : timeOut = 2400 := rfl
  unfold waitRelease
  apply whileLoop_mono _ _ (n := 1 + k) _ (by omega)
  rw [waitRelease_polls k g 1 hm (fun i hi => hz i (by omega)) (by omega)]
  have hk := hz k (by omega)
  simp only [List.getD_eq_getElem?_getD] at hk
  rw [whileLoop_step _ _ _ _ (by
    rw [releaseCond_eq]
    simp only [List.headD_eq_head?_getD, List.head?_drop]
    simp [hk, hm])]
  simp only [Option.some_bind]
  have e1 : (g.idle + k + 1) % 65536 = timeOut := by omega
  have hb : idleTick (delay_ms 50 (releaseCond { g with
      sw := g.sw.drop k, idle := g.idle + k, trace := g.trace ++ pollEvents k }).2)
      = { g with mode := off, sw := g.sw.drop (k + 1), idle := timeOut,
                 trace := g.trace ++ pollEvents (k + 1) } := by
    rw [releaseBody_eq, releaseCond_eq]
    simp [e1, pollEvents_succ_right]
  rw [hb, whileLoop_stop _ _ _ _ (by rw [releaseCond_eq]; simp [off, simon])]
  rw [releaseCond_eq]
  simp

/-- The guess step on a press in time that matches the pattern and is then
held down for `timeOut` polls. -/
theorem guessStep_stuck (v : Variant) (g : Game) (z : Nat) (d : Switches)
    (tl : List Switches) (hm : g.mode = simon)
    (hsw : g.sw = List.replicate z released ++ d :: tl) (hz : z < timeOut)
    (hd : get_button d ≠ 0)
    (hpat : patternGet? g.pattern g.step = some (get_button d))
    (hheld : ∀ i, i < timeOut → get_button (tl.getD i released) ≠ 0) :
    guessStep v g = some { g with
      mode := off, idle := timeOut, button := get_button d, step := (g.step + 1) % 256,
      sw := tl.drop (timeOut + 1), leds := g.leds.light 0,
      trace := g.trace ++ pollEvents z ++ guessEvents (get_button d) ++ pollEvents timeOut } := by
  have ht : timeOut = 2399 + 1 := rfl
  unfold guessStep
  simp only [readButton_eq]
  rw [pressPhase g z d tl hm hsw hz hd]
  simp only [Option.some_bind, LED_eq, sound_eq, judge, readPattern, touchPattern_eq,
    loadPattern, hpat, Option.isSome_some, if_true, List.append_nil]
  rw [if_neg (by simp)]
  simp only [Option.some_bind]
  rw [waitRelease_timeout 2399 _ (by exact hm) (by exact fun i hi => hheld i (by omega))
    (by simp only [ht])]
  simp only [guessEvents, light_light_zero, List.append_assoc, List.append_nil,
    List.cons_append, List.singleton_append, List.nil_append]
  rfl

/-- C11: a press has been read in time and judged as matching, so that the
mode is still `simon` and `idle` is 0 again, and `get_button` then returns a
non-zero code on 2400 consecutive polls of the release loop: after exactly
2400 polls the mode is off, `game_lose` has not been called, no further step
is judged and the verification loop and the round loop are left. -/
theorem stuck_button_timeout (v : Variant) (g : Game) (z : Nat) (d : Switches)
    (tl : List Switches) (hm : g.mode = simon) (hs : g.step ≠ g.maxStep)
    (hsw : g.sw = List.replicate z released ++ d :: tl) (hz : z < timeOut)
    (hd : get_button d ≠ 0)
    (hpat : patternGet? g.pattern g.step = some (get_button d))
    (hheld : ∀ i, i < timeOut → get_button (tl.getD i released) ≠ 0) :
    ∃ g', verifyLoop v g = some g' ∧ roundLoop v g' = some g' ∧ g'.mode = off ∧
      g'.step = (g.step + 1) % 256 ∧
      g'.trace = g.trace ++ pollEvents z ++ guessEvents (get_button d) ++ pollEvents timeOut ∧
      (pollEvents timeOut).length = 2400 ∧
      List.count Event.call_lose g'.trace = List.count Event.call_lose g.trace ∧
      g'.sw = tl.drop (timeOut + 1) := by
  refine ⟨{ g with
      mode := off, idle := timeOut, button := get_button d, step := (g.step + 1) % 256,
      sw := tl.drop (timeOut + 1), leds := g.leds.light 0,
      trace := g.trace ++ pollEvents z ++ guessEvents (get_button d) ++ pollEvents timeOut },
    ?_, roundLoop_stopped v _ (by simp [off, simon]), rfl, rfl, rfl, ?_, ?_, rfl⟩
  · unfold verifyLoop
    rw [verifyLoop_step v g 255 hs hm, guessStep_stuck v g z d tl hm hsw hz hd hpat hheld]
    simp only [Option.some_bind]
    rw [whileLoop_stop _ _ _ _ (by simp [off, simon])]
  · simp only [pollEvents, List.length_replicate]
    rfl
  · simp only [List.append_assoc]
    exact count_append_quiet _ _ _ rfl
      (quiet_append (quiet_pollEvents _)
        (quiet_append (quiet_guessEvents _) (quiet_pollEvents _)))

/-- C11 on a game whose player presses the matching button 1 and holds it. -/
theorem stuck_button_timeout_witness :
    ∃ g', verifyLoop Variant.game stuckGame = some g' ∧ roundLoop Variant.game g' = some g' ∧
      g'.mode = off ∧ g'.step = 1 ∧
      List.count (Event.delay_ms 50) g'.trace = 2400 ∧
      List.count Event.call_lose g'.trace = 0 ∧ g'.sw = [] := by
  obtain ⟨g', h1, h2, h3, h4, h5, _, h7, h8⟩ :=
    stuck_button_timeout Variant.game stuckGame 0 (key 1) (List.replicate 2401 (key 1))
      rfl (by decide) rfl (by decide) (by decide) rfl (fun i hi => by
        have hi' : i < 2401 := Nat.lt_succ_of_lt hi
        simp only [List.getD_eq_getElem?_getD, List.getElem?_replicate, if_pos hi',
          Option.getD_some]
        decide)
  refine ⟨g', h1, h2, h3, h4, ?_, by rw [h7]; rfl, ?_⟩
  · rw [h5]
    simp only [stuckGame, sampleGame, List.nil_append, List.count_append, pollEvents,
      List.count_replicate]
    decide
  · rw [h8]
    exact List.drop_eq_nil_of_le (by simp only [List.length_replicate]; decide)

/-! ### The order of the playback -/

theorem testBit_clearBit (x i k : Nat) :
    (clearBit x i).testBit k = (x.testBit k && !decide (i = k)) := by
  unfold clearBit
  show (x ^^^ (x &&& 2 ^ i)).testBit k = _
  rw [Nat.testBit_xor, Nat.testBit_and, Nat.testBit_two_pow]
  cases x.testBit k <;> by_cases h : i = k <;> simp [h]

theorem testBit_setBit (x i k : Nat) :
    (setBit x i).testBit k = (decide (k < 8) && (x.testBit k || decide (i = k))) := by
  unfold setBit
  show ((x ||| 2 ^ i) % 2 ^ 8).testBit k = _
  rw [Nat.testBit_mod_two_pow, Nat.testBit_or, Nat.testBit_two_pow]

/-- The handler finds `IOCIF` clear when the sleep is ended by an interrupt
other than a change on the button pins: it writes the configuration anew. -/
theorem wake_other (T : Target) (r : Intr) :
    wake T (raise T WakeUp.other (napRegs T r))
      = { IOCAF := 0, IOCBF := 0, IOCAN := 0b00001000, IOCBN := 0b11110000,
          INTCON := 0b00001000 } := by
  unfold wake raise napRegs
  have h : (clearBit (setBit (clearBit r.INTCON T.bitIOCIF) T.bitGIE) T.bitGIE).testBit
      T.bitIOCIF = false := by
    rw [testBit_clearBit, testBit_setBit, testBit_clearBit]
    by_cases hg : T.bitGIE = T.bitIOCIF <;> simp [hg]
  simp [Intr.IOCIF, h]

theorem game_start_eq (v : Variant) (g : Game) :
    game_start v g = { g with
      leds := startLeds v g.leds, trace := g.trace ++ startEvents v } := by
  cases v <;>
    simp [game_start, startLeds, startEvents, emit, LED_eq, note_E5, note_A5, note_CS6, note_E6,
      light_light_zero]

theorem releasePins_down (s : Switches) (rest : List Switches) (h : anyPressed s = true) :
    releasePins (s :: rest) = Event.pins s :: releasePins rest := by
  simp [releasePins, List.takeWhile_cons, List.dropWhile_cons, h]

theorem releasePins_up (s : Switches) (rest : List Switches) (h : anyPressed s = false) :
    releasePins (s :: rest) = [Event.pins s] := by
  simp [releasePins, List.takeWhile_cons, List.dropWhile_cons, h]

/-- The wait for the release of all buttons reads the pins up to the first
sample with no button down. -/
theorem waitAllReleased_run : ∀ (sw : List Switches) (g : Game) (fuel : Nat),
    g.sw = sw → sw.length ≤ fuel →
    whileLoop releasedCond (fun s => some s) fuel g = some { g with
      sw := (sw.dropWhile anyPressed).tail, trace := g.trace ++ releasePins sw } := by
  intro sw
  induction sw with
  | nil =>
    intro g fuel hsw _
    have hc : releasedCond g = (false, emit (Event.pins released) g) := by
      simp only [releasedCond, hsw]
      rfl
    rw [whileLoop_stop _ _ _ _ (by rw [hc]), hc]
    simp [emit, releasePins, hsw]
  | cons s rest ih =>
    intro g fuel hsw hf
    have hc : releasedCond g = (anyPressed s, emit (Event.pins s) { g with sw := rest }) := by
      simp only [releasedCond, hsw]
    by_cases hs : anyPressed s = true
    · obtain ⟨fuel, rfl⟩ : ∃ f, fuel = f + 1 := ⟨fuel - 1, by
        simp only [List.length_cons] at hf
        omega⟩
      rw [whileLoop_step _ _ _ _ (by rw [hc]; exact hs), hc]
      simp only [Option.some_bind]
      rw [ih (emit (Event.pins s) { g with sw := rest }) fuel rfl (by
        simp only [List.length_cons] at hf
        omega)]
      simp [emit, releasePins_down s rest hs, List.dropWhile_cons, hs]
    · simp only [Bool.not_eq_true] at hs
      rw [whileLoop_stop _ _ _ _ (by rw [hc]; exact hs), hc]
      simp [emit, releasePins_up s rest hs, List.dropWhile_cons, hs]

theorem waitAllReleased_eq (g : Game) :
    waitAllReleased g = some { g with
      sw := (g.sw.dropWhile anyPressed).tail, trace := g.trace ++ releasePins g.sw } :=
  waitAllReleased_run g.sw g g.sw.length rfl (le_refl _)

/-- The Off loop body in closed form: it returns whenever an interrupt ends
the sleep. -/
theorem offBody_eq (T : Target) (v : Variant) (m : Machine) (c : WakeUp) (rest : List WakeUp)
    (hw : m.wakeups = c :: rest) :
    offBody T v m = some
      { game := started T v m.game, intr := wake T (raise T c (napRegs T m.intr)),
        wakeups := rest } := by
  simp only [offBody, nap, hw, Option.some_bind, offWake, game_start_eq, waitAllReleased_eq,
    Option.map_some', LED_eq, emit, srand, started, napRegs, nextSeed, clearPortC]
  simp [List.append_assoc]

theorem offBody_none (T : Target) (v : Variant) (m : Machine) (hw : m.wakeups = []) :
    offBody T v m = none := by
  simp [offBody, nap, hw]

theorem offLoop_eq (T : Target) (v : Variant) (m : Machine) (c : WakeUp) (rest : List WakeUp)
    (hoff : m.game.mode = off) (hw : m.wakeups = c :: rest) :
    offLoop T v m = some
      { game := started T v m.game, intr := wake T (raise T c (napRegs T m.intr)),
        wakeups := rest } := by
  unfold offLoop
  rw [whileLoop_step _ _ _ _ (by simpa using hoff), offBody_eq T v m c rest hw]
  simp only [Option.some_bind]
  rw [whileLoop_stop _ _ _ _ (by simp [started, off, simon])]

theorem nextSeed_eq (g : Game) :
    nextSeed g = (g.newSeed % 256) * 256 + g.tmr.headD 0 % 256 :=
  mixSeed_eq _ _ (Nat.mod_lt _ (by norm_num))

/-- C13: at each game start, with `s` the previous value of `newSeed` and `t`
the 8-bit `TMR0` sample stored in `randomSeed`, the value passed to `srand`
is `((s << 8) | t) mod 2^16`: its low byte is `t` and its high byte is the low
byte of `s`; from `newSeed == 0` the seed equals `t` and so is one of 256
values. -/
theorem seed_mixing (T : Target) (v : Variant) (m : Machine) (c : WakeUp)
    (rest : List WakeUp) (hw : m.wakeups = c :: rest) :
    ∃ m', offBody T v m = some m' ∧
      m'.game.randomSeed = m.game.tmr.headD 0 % 256 ∧
      m'.game.newSeed
        = (m.game.newSeed <<< 8 ||| m'.game.randomSeed) % 2 ^ 16 ∧
      m'.game.trace.getLast? = some (Event.srand m'.game.newSeed) ∧
      m'.game.rnd = T.reseed m'.game.newSeed m.game.rnd ∧
      m'.game.newSeed % 256 = m'.game.randomSeed ∧
      m'.game.newSeed / 256 = m.game.newSeed % 256 ∧
      (m.game.newSeed = 0 → m'.game.newSeed = m'.game.randomSeed ∧ m'.game.newSeed < 256) := by
  have h := nextSeed_eq m.game
  have ht : m.game.tmr.headD 0 % 256 < 256 := Nat.mod_lt _ (by norm_num)
  refine ⟨_, offBody_eq T v m c rest hw, rfl, rfl, ?_, rfl, ?_, ?_, fun h0 => ?_⟩
  · show (m.game.trace ++ [Event.LED 0, Event.sleep] ++ startEvents v ++ releasePins m.game.sw
      ++ [Event.srand (nextSeed m.game)]).getLast? = _
    rw [List.getLast?_concat]
    rfl
  · show nextSeed m.game % 256 = m.game.tmr.headD 0 % 256
    omega
  · show nextSeed m.game / 256 = m.game.newSeed % 256
    omega
  · show nextSeed m.game = m.game.tmr.headD 0 % 256 ∧ nextSeed m.game < 256
    omega

/-- C13 on the second game of a session: the old seed 7 and the timer
sample 9 give the seed `7 * 256 + 9`. -/
theorem seed_mixing_witness :
    ∃ m', offBody ubmp4 Variant.game wonMachine = some m' ∧
      m'.game.randomSeed = 9 ∧ m'.game.newSeed = 1801 ∧
      m'.game.trace.getLast? = some (Event.srand 1801) := by
  obtain ⟨m', h1, h2, h3, h4, -⟩ :=
    seed_mixing ubmp4 Variant.game wonMachine (WakeUp.buttonChange 0 32) [] rfl
  have e2 : m'.game.randomSeed = 9 := h2
  have e3 : m'.game.newSeed = 1801 := by
    rw [h3, e2]
    rfl
  exact ⟨m', h1, e2, e3, by rw [h4, e3]⟩

/-- C18 as stated fails: woken with button 1 still down, the Off loop calls
`game_start`, which plays its lights and notes to the end, before the first
read of the pins in the wait for the release, and that read sees button 1
down. -/
theorem off_transition_order_counterexample :
    ∃ m', offLoop ubmp4 Variant.game
        (powerOn [key 1, key 1, released] [] [7] [WakeUp.buttonChange 0 16]) = some m' ∧
      m'.game.trace = [Event.LED 0, Event.sleep, Event.call_start, Event.LED 1,
        Event.note 758 200, Event.LED 4, Event.note 568 200, Event.LED 2, Event.note 451 200,
        Event.LED 3, Event.note 379 200, Event.LED 0, Event.pins (key 1), Event.pins (key 1),
        Event.pins released, Event.srand 7] ∧
      List.indexOf Event.call_start m'.game.trace
        < List.indexOf (Event.pins (key 1)) m'.game.trace ∧
      anyPressed (key 1) = true :=
  ⟨_, offLoop_eq ubmp4 Variant.game _ (WakeUp.buttonChange 0 16) [] rfl rfl, by decide,
    by decide, by decide⟩

/-- C18, amended: on every wake from `nap()` the Off loop body returns,
having done, in this order, (1) the call of the start hook `game_start`,
(2) the wait until a read of the pins shows all four buttons released,
(3) the sample of the timer and the reseeding with the mixed seed, (4) and
(5) `maxStep = 0` and `mode = simon`; so on exit from the Off loop
`maxStep == 0` and `mode == simon` whatever `maxStep` was before. -/
theorem off_transition_order (T : Target) (v : Variant) (m : Machine) (c : WakeUp)
    (rest : List WakeUp) (hw : m.wakeups = c :: rest) :
    ∃ m', offBody T v m = some m' ∧
      m'.game.trace = m.game.trace ++ [Event.LED 0, Event.sleep] ++ startEvents v
        ++ releasePins m.game.sw
        ++ [Event.srand (mixSeed m.game.newSeed (m.game.tmr.headD 0 % 256))] ∧
      (startEvents v).head? = some Event.call_start ∧
      releasePins m.game.sw = (m.game.sw.takeWhile anyPressed).map Event.pins
        ++ [Event.pins ((m.game.sw.dropWhile anyPressed).headD released)] ∧
      (∀ s ∈ m.game.sw.takeWhile anyPressed, anyPressed s = true) ∧
      anyPressed ((m.game.sw.dropWhile anyPressed).headD released) = false ∧
      m'.game.maxStep = 0 ∧ m'.game.mode = simon ∧
      (m.game.mode = off → offLoop T v m = some m') := by
  refine ⟨_, offBody_eq T v m c rest hw, rfl, by cases v <;> rfl, rfl, ?_, ?_, rfl, rfl,
    fun hoff => offLoop_eq T v m c rest hoff hw⟩
  · intro s hs
    exact (List.mem_takeWhile_imp hs)
  · cases h : m.game.sw.dropWhile anyPressed with
    | nil => rfl
    | cons s tl =>
      have := List.head_dropWhile_not anyPressed m.game.sw (by rw [h]; simp)
      simp only [h, List.head_cons] at this
      simpa using this

/-- C18, amended, on a machine that has `maxStep == 43` after a win and is
woken by button 2. -/
theorem off_transition_order_witness :
    ∃ m', offLoop ubmp4 Variant.game wonMachine = some m' ∧
      m'.game.trace = [Event.LED 0, Event.sleep] ++ startEvents Variant.game
        ++ [Event.pins (key 2), Event.pins released, Event.srand 1801] ∧
      wonMachine.game.maxStep = 43 ∧ m'.game.maxStep = 0 ∧ m'.game.mode = simon := by
  obtain ⟨m', -, h2, -, -, -, -, h7, h8, h9⟩ :=
    off_transition_order ubmp4 Variant.game wonMachine (WakeUp.buttonChange 0 32) [] rfl
  exact ⟨m', h9 rfl, by rw [h2]; decide, rfl, h7, h8⟩

/-- C16 as stated fails: a machine asleep in the Off loop is woken by an
interrupt that is not a button change, with no button down; the handler
writes the interrupt configuration anew, but the Off loop goes on: it calls
`game_start`, reseeds the generator and leaves with the mode `simon`, without
a second sleep. -/
theorem spurious_interrupt_counterexample :
    ∃ m', offLoop ubmp4 Variant.game (powerOn [released] [] [7] [WakeUp.other]) = some m' ∧
      m'.intr = ⟨0, 0, 0b00001000, 0b11110000, 0b00001000⟩ ∧
      m'.game.mode = simon ∧
      List.count Event.call_start m'.game.trace = 1 ∧
      List.count (Event.srand 7) m'.game.trace = 1 ∧
      List.count Event.sleep m'.game.trace = 1 :=
  ⟨_, offLoop_eq ubmp4 Variant.game _ WakeUp.other [] rfl rfl, by decide, by decide, by decide,
    by decide, by decide⟩

/-- C16, amended: when the processor is woken from `nap()` by an interrupt
that is not a button-change interrupt, the handler `wake()` writes the button
interrupt configuration (`IOCAN`, `IOCBN`, `INTCON`) anew, and the game wakes
as it does on a button change: `nap()` returns, `game_start` is called, the
generator is reseeded and the Off loop is left with the mode `simon`, with no
further sleep. -/
theorem spurious_interrupt (T : Target) (v : Variant) (m : Machine) (rest : List WakeUp)
    (hoff : m.game.mode = off) (hw : m.wakeups = WakeUp.other :: rest) :
    ∃ m', offLoop T v m = some m' ∧
      m'.intr.IOCAN = 0b00001000 ∧ m'.intr.IOCBN = 0b11110000 ∧
      m'.intr.INTCON = 0b00001000 ∧
      m'.game.mode = simon ∧ m'.wakeups = rest ∧
      m'.game.trace = m.game.trace ++ [Event.LED 0, Event.sleep] ++ startEvents v
        ++ releasePins m.game.sw
        ++ [Event.srand (mixSeed m.game.newSeed (m.game.tmr.headD 0 % 256))] ∧
      List.count Event.call_start (startEvents v) = 1 ∧
      List.count Event.sleep (startEvents v ++ releasePins m.game.sw) = 0 := by
  refine ⟨_, offLoop_eq T v m WakeUp.other rest hoff hw, ?_, ?_, ?_, rfl, rfl, rfl,
    by cases v <;> rfl, ?_⟩
  · rw [wake_other]
  · rw [wake_other]
  · rw [wake_other]
  · rw [List.count_append]
    have h1 : List.count Event.sleep (startEvents v) = 0 := by cases v <;> rfl
    have h2 : List.count Event.sleep (releasePins m.game.sw) = 0 := by
      rw [List.count_eq_zero]
      intro h
      simp [releasePins] at h
    rw [h1, h2]

/-- C16, amended, on a machine woken at power-on by an interrupt other than
a button change. -/
theorem spurious_interrupt_witness :
    ∃ m', offLoop ubmp4 Variant.starterGame (powerOn [released] [] [7] [WakeUp.other])
        = some m' ∧
      m'.intr.IOCAN = 0b00001000 ∧ m'.intr.IOCBN = 0b11110000 ∧
      m'.intr.INTCON = 0b00001000 ∧ m'.game.mode = simon ∧
      m'.game.trace = [Event.LED 0, Event.sleep, Event.call_start, Event.pins released,
        Event.srand 7] := by
  obtain ⟨m', h1, h2, h3, h4, h5, -, h7, -⟩ :=
    spurious_interrupt ubmp4 Variant.starterGame (powerOn [released] [] [7] [WakeUp.other]) []
      rfl rfl
  exact ⟨m', h1, h2, h3, h4, h5, by rw [h7]; decide⟩

/-! ### The value of `maxStep` after a loss -/

/-- The losing branch of the comparison in `UBMP4-Simon-Game.c`. -/
theorem judge_miss_game (g : Game) (hm : g.mode = simon) (hb : g.button ≠ loadPattern g g.step)
    (hmax : g.maxStep < 256) :
    judge Variant.game g = some { g with
      mode := off, maxStep := 0,
      leds := if (g.maxStep + 255) % 256 = 0 then g.leds else g.leds.light 0,
      trace := g.trace ++ [Event.delay_ms 500] ++ loseEvents ((g.maxStep + 255) % 256),
      oob := g.oob ++ if (patternGet? g.pattern g.step).isSome then [] else [g.step] } := by
  have hb' : g.button ≠ loadPattern g g.step := hb
  simp only [judge, readPattern, touchPattern_eq, delay_ms_eq]
  rw [if_pos ⟨hb, hm⟩, game_lose_game _ (by exact hmax)]
  rfl

/-- The losing branch of the comparison in `UBMP4-Simon-Starter-Game.c`. -/
theorem judge_miss_starter (g : Game) (hm : g.mode = simon)
    (hb : g.button ≠ loadPattern g g.step) :
    judge Variant.starterGame g = some { g with
      mode := off,
      trace := g.trace ++ [Event.delay_ms 500] ++ [Event.call_lose],
      oob := g.oob ++ if (patternGet? g.pattern g.step).isSome then [] else [g.step] } := by
  simp only [judge, readPattern, touchPattern_eq, delay_ms_eq]
  rw [if_pos ⟨hb, hm⟩]
  rfl

/-- C15 as stated fails: `game_lose` of `UBMP4-Simon-Game.c`, entered at
`maxStep == 3`, returns with `maxStep == 0`, not 2: the score loops have
counted it down; the empty `game_lose` of the starter variant leaves it at 3. -/
theorem maxStep_after_loss_counterexample :
    (sampleGame 3).maxStep = 3 ∧
    ∃ a b, game_lose Variant.game (sampleGame 3) = some a ∧ a.maxStep = 0 ∧
      a.maxStep ≠ 3 - 1 ∧
      game_lose Variant.starterGame (sampleGame 3) = some b ∧ b.maxStep = 3 ∧
      b.maxStep ≠ 3 - 1 :=
  ⟨rfl, _, _, game_lose_game (sampleGame 3) (by decide), rfl, by decide, rfl, rfl, by decide⟩

/-- C15, amended: for every `maxStep = m ≥ 1` at the moment of the mismatch,
`game_lose` of `UBMP4-Simon-Game.c` shows the score `m - 1` and returns with
`maxStep == 0`, since it decrements `maxStep` and then counts it down to 0
in its score loops, while the empty `game_lose` of the starter variant
leaves `maxStep == m`; in both variants the mode is then off and the value
stays as it is through the rest of the guess step and the exits of the
verification loop and of the round loop, up to the next game start. -/
theorem maxStep_after_loss (g : Game) (m : Nat) (hm : g.maxStep = m) (h1 : 1 ≤ m)
    (h2 : m < 256) (hmode : g.mode = simon) (hmiss : g.button ≠ loadPattern g g.step) :
    ∃ a b a' b', judge Variant.game g = some a ∧ judge Variant.starterGame g = some b ∧
      a.trace = g.trace ++ [Event.delay_ms 500] ++ loseEvents (m - 1) ∧
      a.maxStep = 0 ∧ a.mode = off ∧ b.maxStep = m ∧ b.mode = off ∧
      waitRelease { a with step := (a.step + 1) % 256, idle := 0 } = some a' ∧
      verifyLoop Variant.game a' = some a' ∧ roundLoop Variant.game a' = some a' ∧
      a'.maxStep = 0 ∧ a'.mode = off ∧
      waitRelease { b with step := (b.step + 1) % 256, idle := 0 } = some b' ∧
      verifyLoop Variant.starterGame b' = some b' ∧
      roundLoop Variant.starterGame b' = some b' ∧
      b'.maxStep = m ∧ b'.mode = off := by
  have e : (g.maxStep + 255) % 256 = m - 1 := by omega
  have ha := judge_miss_game g hmode hmiss (by omega)
  have hb := judge_miss_starter g hmode hmiss
  rw [e] at ha
  refine ⟨_, _, _, _, ha, hb, rfl, rfl, rfl, hm, rfl,
    waitRelease_stopped _ (by simp [off, simon]),
    verifyLoop_stopped _ _ (Or.inr (by simp [off, simon])),
    roundLoop_stopped _ _ (by simp [off, simon]), rfl, rfl,
    waitRelease_stopped _ (by simp [off, simon]),
    verifyLoop_stopped _ _ (Or.inr (by simp [off, simon])),
    roundLoop_stopped _ _ (by simp [off, simon]), hm, rfl⟩

/-- C15, amended, at the mismatch of the loss scenario: the third press is
button 4 where the pattern holds 3, at `maxStep == 3`. -/
theorem maxStep_after_loss_witness :
    ∃ a b, judge Variant.game { lossScenario with step := 2, button := 4 } = some a ∧
      judge Variant.starterGame { lossScenario with step := 2, button := 4 } = some b ∧
      a.trace = [Event.delay_ms 500] ++ loseEvents 2 ∧
      a.maxStep = 0 ∧ a.mode = off ∧ b.maxStep = 3 ∧ b.mode = off := by
  obtain ⟨a, b, -, -, h1, h2, h3, h4, h5, h6, h7, -⟩ :=
    maxStep_after_loss { lossScenario with step := 2, button := 4 } 3 rfl (by decide)
      (by decide) rfl (by decide)
  exact ⟨a, b, h1, h2, h3, h4, h5, h6, h7⟩

/-! ### Where `rand` and `srand` are called -/

theorem adds_refl (P : Event → Prop) (g : Game) : Adds P g g :=
  ⟨[], by simp, by simp⟩

theorem adds_trans {P : Event → Prop} {a b c : Game} (h₁ : Adds P a b) (h₂ : Adds P b c) :
    Adds P a c := by
  obtain ⟨l₁, e₁, p₁⟩ := h₁
  obtain ⟨l₂, e₂, p₂⟩ := h₂
  refine ⟨l₁ ++ l₂, by rw [e₂, e₁, List.append_assoc], fun e he => ?_⟩
  rcases List.mem_append.1 he with h | h
  · exact p₁ e h
  · exact p₂ e h

theorem adds_of_trace {P : Event → Prop} (g g' : Game) (l : List Event)
    (h : g'.trace = g.trace ++ l) (hl : ∀ e ∈ l, P e) : Adds P g g' :=
  ⟨l, h, hl⟩

theorem adds_mono {P Q : Event → Prop} {g g' : Game} (hPQ : ∀ e, P e → Q e)
    (h : Adds P g g') : Adds Q g g' := by
  obtain ⟨l, e, p⟩ := h
  exact ⟨l, e, fun x hx => hPQ x (p x hx)⟩

theorem plain_soundEvents (num : Nat) : ∀ e ∈ soundEvents num, e.plain := by
  intro e he
  unfold soundEvents at he
  split_ifs at he <;> simp at he <;> subst he <;> exact ⟨rfl, rfl⟩

theorem plain_playbackEvents (x : Nat) : ∀ e ∈ playbackEvents [x], e.plain := by
  intro e he
  simp only [playbackEvents, List.append_nil, List.mem_cons, List.mem_append,
    List.mem_singleton] at he
  rcases he with h | h | h | h | h
  · subst h; exact ⟨rfl, rfl⟩
  · exact plain_soundEvents x e h
  · subst h; exact ⟨rfl, rfl⟩
  · subst h; exact ⟨rfl, rfl⟩
  · simp at h

theorem plain_winEvents (v : Variant) : ∀ e ∈ winEvents v, e.plain := by
  intro e he
  cases v <;> simp [winEvents] at he
  · rcases he with h | h | h | h | h | h | h | h | h <;> subst h <;> exact ⟨rfl, rfl⟩
  · subst he; exact ⟨rfl, rfl⟩

/-- The wait for a press only adds delays. -/
theorem waitPress_adds (g g' : Game) (h : waitPress g = some g') : Adds Event.plain g g' := by
  unfold waitPress at h
  refine whileLoop_inv _ _ (fun s => Adds Event.plain g s) (fun s => Adds Event.plain g s)
    ?_ (fun s hI _ => hI) _ g g' (adds_refl _ g) h
  intro s s' hI _ hb
  simp only [Option.some.injEq] at hb
  subst hb
  refine adds_trans hI (adds_of_trace _ _ [Event.delay_ms 50] (by rw [waitPressBody_eq]) ?_)
  intro e he
  simp at he
  subst he
  exact ⟨rfl, rfl⟩

/-- The wait for the release only adds delays. -/
theorem waitRelease_adds (g g' : Game) (h : waitRelease g = some g') :
    Adds Event.plain g g' := by
  unfold waitRelease at h
  refine whileLoop_inv _ _ (fun s => Adds Event.plain g s) (fun s => Adds Event.plain g s)
    ?_ ?_ _ g g' (adds_refl _ g) h
  · intro s s' hI _ hb
    simp only [Option.some.injEq] at hb
    subst hb
    refine adds_trans hI (adds_of_trace _ _ [Event.delay_ms 50] ?_ ?_)
    · rw [releaseBody_eq, releaseCond_eq]
    · intro e he
      simp at he
      subst he
      exact ⟨rfl, rfl⟩
  · intro s hI _
    rw [releaseCond_eq]
    exact adds_trans hI (adds_of_trace _ _ [] (by simp) (by simp))

theorem scoreFlash_adds (num dec : Nat) (g : Game) : Adds Event.plain g (scoreFlash num dec g) := by
  refine adds_of_trace _ _
    [Event.LED num, Event.delay_ms 500, Event.LED 0, Event.delay_ms 500] ?_ ?_
  · simp [scoreFlash, LED_eq, delay_ms_eq]
  · intro e he
    simp at he
    rcases he with h | h | h | h <;> subst h <;> exact ⟨rfl, rfl⟩

theorem scoreLoop_adds (c : Game → Bool) (num dec : Nat) (fuel : Nat) (g g' : Game)
    (h : whileLoop (fun s => (c s, s)) (fun s => some (scoreFlash num dec s)) fuel g = some g') :
    Adds Event.plain g g' := by
  refine whileLoop_inv _ _ (fun s => Adds Event.plain g s) (fun s => Adds Event.plain g s)
    ?_ (fun s hI _ => hI) _ g g' (adds_refl _ g) h
  intro s s' hI _ hb
  simp only [Option.some.injEq] at hb
  subst hb
  exact adds_trans hI (scoreFlash_adds num dec s)

/-- The hook `game_lose` calls neither `rand` nor `srand`. -/
theorem game_lose_adds (v : Variant) (g g' : Game) (h : game_lose v g = some g') :
    Adds Event.plain g g' := by
  cases v with
  | starterGame =>
    simp only [game_lose, Option.some.injEq] at h
    subst h
    exact adds_of_trace _ _ [Event.call_lose] rfl (by
      intro e he
      simp at he
      subst he
      exact ⟨rfl, rfl⟩)
  | game =>
    simp only [game_lose] at h
    cases h1 : whileLoop (fun s => (decide (10 ≤ s.maxStep), s))
        (fun s => some (scoreFlash 1 10 s)) 256
        { emit (Event.delay_ms 500) (note_lower 400 (delay_ms 500 (note_low 500
          (emit Event.call_lose g)))) with
          maxStep := ((delay_ms 500 (note_lower 400 (delay_ms 500 (note_low 500
            (emit Event.call_lose g))))).maxStep + 256 - 1) % 256 } with
    | none =>
      simp only [delay_ms] at h h1
      rw [h1] at h
      simp at h
    | some g1 =>
      simp only [delay_ms] at h h1
      rw [h1] at h
      simp only [Option.some_bind] at h
      cases h2 : whileLoop (fun s => (decide (5 ≤ s.maxStep), s))
          (fun s => some (scoreFlash 2 5 s)) 256 g1 with
      | none => rw [h2] at h; simp at h
      | some g2 =>
        rw [h2] at h
        simp only [Option.some_bind] at h
        have a1 := scoreLoop_adds _ 1 10 256 _ _ h1
        have a2 := scoreLoop_adds _ 2 5 256 _ _ h2
        have a3 := scoreLoop_adds _ 3 1 256 _ _ h
        refine adds_trans (adds_trans (adds_trans ?_ a1) a2) a3
        refine adds_of_trace _ _ loseSound ?_ ?_
        · simp [emit, note_low, note_lower, loseSound]
        · intro e he
          simp [loseSound] at he
          rcases he with h | h | h | h | h <;> subst h <;> exact ⟨rfl, rfl⟩

theorem plain_delay (ms : Nat) : ∀ e ∈ [Event.delay_ms ms], e.plain := by
  intro e he
  simp at he
  subst he
  exact ⟨rfl, rfl⟩

theorem plain_LED (num : Nat) : ∀ e ∈ [Event.LED num], e.plain := by
  intro e he
  simp at he
  subst he
  exact ⟨rfl, rfl⟩

/-- The comparison of the guess, with its losing branch, calls neither
`rand` nor `srand`. -/
theorem judge_adds (v : Variant) (g g' : Game) (h : judge v g = some g') :
    Adds Event.plain g g' := by
  simp only [judge, readPattern] at h
  have ht : (touchPattern g g.step).trace = g.trace := by rw [touchPattern_eq]
  generalize touchPattern g g.step = G at h ht
  have a0 : Adds Event.plain g G := adds_of_trace _ _ [] (by simp [ht]) (by simp)
  split_ifs at h with hc
  · cases h1 : game_lose v (delay_ms 500 G) with
    | none => rw [h1] at h; simp at h
    | some g1 =>
      rw [h1] at h
      simp only [Option.map_some', Option.some.injEq] at h
      subst h
      have a1 := game_lose_adds v _ _ h1
      refine adds_trans (adds_trans (adds_trans a0 ?_) a1)
        (adds_of_trace _ _ [] (by simp) (by simp))
      exact adds_of_trace _ _ [Event.delay_ms 500] rfl (plain_delay 500)
  · simp only [Option.some.injEq] at h
    subst h
    exact a0

/-- One guess of the player calls neither `rand` nor `srand`. -/
theorem guessStep_adds (v : Variant) (g g' : Game) (h : guessStep v g = some g') :
    Adds Event.plain g g' := by
  simp only [guessStep, readButton_eq] at h
  cases h1 : waitPress { g with
      idle := 0, sw := g.sw.tail, button := get_button (g.sw.headD released) } with
  | none => rw [h1] at h; simp at h
  | some g1 =>
    rw [h1] at h
    simp only [Option.some_bind] at h
    cases h2 : judge v (LED 0 (sound (LED g1.button g1).button (LED g1.button g1))) with
    | none => rw [h2] at h; simp at h
    | some g2 =>
      rw [h2] at h
      simp only [Option.some_bind] at h
      have a1 := waitPress_adds _ _ h1
      have a2 := judge_adds v _ _ h2
      have a3 := waitRelease_adds _ _ h
      have b1 : Adds Event.plain g { g with
          idle := 0, sw := g.sw.tail, button := get_button (g.sw.headD released) } :=
        adds_of_trace _ _ [] (by simp) (by simp)
      have b2 : Adds Event.plain g1 (LED 0 (sound g1.button (LED g1.button g1))) := by
        refine adds_of_trace _ _ (guessEvents g1.button) ?_ ?_
        · simp [LED_eq, sound_eq, guessEvents]
        · intro e he
          simp only [guessEvents, List.mem_cons, List.mem_append, List.mem_singleton] at he
          rcases he with h | h | h
          · subst h; exact ⟨rfl, rfl⟩
          · exact plain_soundEvents _ e h
          · simp at h
            subst h; exact ⟨rfl, rfl⟩
      have b3 : Adds Event.plain g2 { g2 with step := (g2.step + 1) % 256, idle := 0 } :=
        adds_of_trace _ _ [] (by simp) (by simp)
      exact adds_trans (adds_trans (adds_trans (adds_trans (adds_trans b1 a1) b2) a2) b3) a3

/-- The verification loop calls neither `rand` nor `srand`. -/
theorem verifyLoop_adds (v : Variant) (g g' : Game) (h : verifyLoop v g = some g') :
    Adds Event.plain g g' := by
  unfold verifyLoop at h
  refine whileLoop_inv _ _ (fun s => Adds Event.plain g s) (fun s => Adds Event.plain g s)
    ?_ (fun s hI _ => hI) _ g g' (adds_refl _ g) h
  intro s s' hI _ hb
  exact adds_trans hI (guessStep_adds v s s' hb)

/-- The playback loop calls neither `rand` nor `srand`. -/
theorem playback_adds (g g' : Game) (h : playback g = some g') : Adds Event.plain g g' := by
  unfold playback playbackLoop at h
  have a0 : Adds Event.plain g { g with step := 0 } :=
    adds_of_trace _ _ [] (by simp) (by simp)
  refine adds_trans a0 (whileLoop_inv _ _ (fun s => Adds Event.plain { g with step := 0 } s)
    (fun s => Adds Event.plain { g with step := 0 } s)
    ?_ (fun s hI _ => hI) _ _ g' (adds_refl _ _) h)
  intro s s' hI _ hb
  simp only [Option.some.injEq] at hb
  subst hb
  refine adds_trans hI (adds_of_trace _ _ (playbackEvents [loadPattern s s.step]) ?_
    (plain_playbackEvents _))
  rw [playbackBody_eq]

/-- In a round `rand` is called once, after the delay at its start, and
`srand` is not called. -/
theorem round_draw (v : Variant) (g g' : Game) (h : round v g = some g') :
    ∃ l, g'.trace = g.trace ++ [Event.delay_ms 1000, Event.rand (g.rnd.headD 0)] ++ l ∧
      ∀ e ∈ l, e.plain := by
  unfold round at h
  cases h1 : playback (roundHead v g) with
  | none => rw [h1] at h; simp at h
  | some g1 =>
    rw [h1] at h
    simp only [Option.some_bind, verify] at h
    have a1 := playback_adds _ _ h1
    have a2 := verifyLoop_adds v _ _ h
    have a0 : Adds Event.plain g1 { g1 with step := 0 } :=
      adds_of_trace _ _ [] (by simp) (by simp)
    obtain ⟨l, e, p⟩ := adds_trans (adds_trans a1 a0) a2
    obtain ⟨-, -, f3, f4⟩ := roundHead_facts v g
    by_cases hw : (roundHead v g).maxStep = patternLength + 1
    · refine ⟨winEvents v ++ l, by rw [e, (f3 hw).2, List.append_assoc], fun x hx => ?_⟩
      rcases List.mem_append.1 hx with hx | hx
      · exact plain_winEvents v x hx
      · exact p x hx
    · exact ⟨l, by rw [e, (f4 hw).2], p⟩

/-! ### The round loop and the main loop on arbitrary input -/

theorem noSrand_of_plain (e : Event) (h : e.plain) : e.isSrand = false := h.2

/-- The round loop, whatever is read from the buttons: it ends with the game
off, and what it adds to the trace starts with the delay and the `rand` call
of the first round and holds no `srand` call. -/
theorem roundLoop_spec (v : Variant) (g : Game) (hmode : g.mode = simon)
    (hmax : g.maxStep < 256) :
    ∃ g' l, roundLoop v g = some g' ∧ g'.mode = off ∧
      g'.trace = g.trace ++ [Event.delay_ms 1000, Event.rand (g.rnd.headD 0)] ++ l ∧
      ∀ e ∈ l, e.isSrand = false := by
  unfold roundLoop
  have key := whileLoop_spec (fun s => (decide (s.mode = simon), s)) (round v)
    (fun s => (s.mode = simon → s.maxStep < 256) ∧ (s.mode = simon ∨ s.mode = off) ∧
      (s = g ∨ ∃ l, s.trace = g.trace ++ [Event.delay_ms 1000, Event.rand (g.rnd.headD 0)] ++ l ∧
        ∀ e ∈ l, e.isSrand = false))
    (fun s => s.mode = off ∧
      ∃ l, s.trace = g.trace ++ [Event.delay_ms 1000, Event.rand (g.rnd.headD 0)] ++ l ∧
        ∀ e ∈ l, e.isSrand = false)
    (fun s => if s.mode = simon then (42 + 256 - s.maxStep) % 256 + 1 else 0)
    ?_ ?_ 256 g ⟨fun _ => hmax, Or.inl hmode, Or.inl rfl⟩
    (by simp only [hmode, if_true]; omega)
  · obtain ⟨t, ht, hoff, l, hl, hns⟩ := key
    exact ⟨t, l, ht, hoff, hl, hns⟩
  · intro s hI hc
    obtain ⟨hm, -, htr⟩ := hI
    have hs : s.mode = simon := by simpa using hc
    have hm' := hm hs
    obtain ⟨s', h, -, -, -, md, o⟩ := round_spec v s
    obtain ⟨f1, -, f3, f4⟩ := roundHead_facts v s
    obtain ⟨l', hl', hp'⟩ := round_draw v s s' h
    have hlt : (s.maxStep + 1) % 256 < 256 := Nat.mod_lt _ (by norm_num)
    have hmd : s'.mode = simon ∨ s'.mode = off := by
      rcases md with h1 | h1
      · by_cases hw : (roundHead v s).maxStep = patternLength + 1
        · exact Or.inr (by rw [h1, (f3 hw).1])
        · exact Or.inl (by rw [h1, (f4 hw).1, hs])
      · exact Or.inr h1
    have hnw : s'.mode = simon → (s.maxStep + 1) % 256 ≠ 43 := by
      intro h1 hw
      have hw' : (roundHead v s).maxStep = patternLength + 1 := by rw [f1]; exact hw
      rcases md with h2 | h2
      · rw [h2, (f3 hw').1] at h1
        simp [off, simon] at h1
      · rw [h2] at h1
        simp [off, simon] at h1
    refine ⟨s', h, ⟨fun h1 => by rw [o h1, f1]; exact hlt, hmd, Or.inr ?_⟩, ?_⟩
    · rcases htr with rfl | ⟨l, hl, hns⟩
      · exact ⟨l', hl', fun e he => (hp' e he).2⟩
      · refine ⟨l ++ [Event.delay_ms 1000, Event.rand (s.rnd.headD 0)] ++ l', ?_, ?_⟩
        · rw [hl', hl]
          simp only [List.append_assoc]
        · intro e he
          simp only [List.append_assoc, List.mem_append, List.mem_cons, List.mem_singleton,
            List.not_mem_nil, or_false] at he
          rcases he with h1 | (h1 | h1) | h1
          · exact hns e h1
          · subst h1; rfl
          · subst h1; rfl
          · exact (hp' e h1).2
    · simp only [hs, if_true]
      split_ifs with h1
      · have := hnw h1
        rw [o h1, f1]
        omega
      · omega
  · intro s hI hc
    obtain ⟨-, hmd, htr⟩ := hI
    have hs : s.mode ≠ simon := by simpa using hc
    have hoff : s.mode = off := by
      rcases hmd with h | h
      · exact absurd h hs
      · exact h
    refine ⟨hoff, ?_⟩
    rcases htr with rfl | h
    · exact absurd hmode hs
    · exact h

theorem plain_startEvents (v : Variant) : ∀ e ∈ startEvents v, e.plain := by
  intro e he
  cases v <;> simp [startEvents] at he
  · rcases he with h | h | h | h | h | h | h | h | h | h <;> subst h <;> exact ⟨rfl, rfl⟩
  · subst he; exact ⟨rfl, rfl⟩

theorem plain_releasePins (sw : List Switches) : ∀ e ∈ releasePins sw, e.plain := by
  intro e he
  simp only [releasePins, List.mem_append, List.mem_map, List.mem_singleton] at he
  rcases he with ⟨s, -, rfl⟩ | rfl <;> exact ⟨rfl, rfl⟩

/-- One turn of the main loop from the Off mode: it returns whenever an
interrupt ends the sleep, and it ends with the game off again. -/
theorem mainIter_spec (T : Target) (v : Variant) (m : Machine) (c : WakeUp)
    (rest : List WakeUp) (hoff : m.game.mode = off) (hw : m.wakeups = c :: rest) :
    ∃ m' post, mainIter T v m = some m' ∧ m'.game.mode = off ∧ m'.wakeups = rest ∧
      m'.game.trace = (started T v m.game).trace
        ++ [Event.delay_ms 1000, Event.rand ((started T v m.game).rnd.headD 0)] ++ post ∧
      ∀ e ∈ post, e.isSrand = false := by
  obtain ⟨g', l, h, hmode, htr, hns⟩ := roundLoop_spec v (started T v m.game) rfl
    (by show 0 < 256; norm_num)
  refine ⟨{ game := g', intr := wake T (raise T c (napRegs T m.intr)), wakeups := rest }, l,
    ?_, hmode, rfl, htr, hns⟩
  unfold mainIter
  rw [offLoop_eq T v m c rest hoff hw]
  simp only [Option.some_bind, h, Option.map_some']

/-- One turn of the main loop adds one `srand` call to the trace. -/
theorem mainIter_srand (T : Target) (v : Variant) (m : Machine) (c : WakeUp)
    (rest : List WakeUp) (hoff : m.game.mode = off) (hw : m.wakeups = c :: rest) :
    ∃ m', mainIter T v m = some m' ∧ m'.game.mode = off ∧ m'.wakeups = rest ∧
      List.countP Event.isSrand m'.game.trace
        = List.countP Event.isSrand m.game.trace + 1 := by
  obtain ⟨m', post, h, hmode, hwk, htr, hns⟩ := mainIter_spec T v m c rest hoff hw
  refine ⟨m', h, hmode, hwk, ?_⟩
  have h1 : List.countP Event.isSrand (startEvents v) = 0 :=
    List.countP_eq_zero.2 (fun e he => by simp [(plain_startEvents v e he).2])
  have h2 : List.countP Event.isSrand (releasePins m.game.sw) = 0 :=
    List.countP_eq_zero.2 (fun e he => by simp [(plain_releasePins _ e he).2])
  have h3 : List.countP Event.isSrand post = 0 :=
    List.countP_eq_zero.2 (fun e he => by simp [hns e he])
  rw [htr]
  simp only [started, List.countP_append, h1, h2, h3]
  simp [List.countP_cons, Event.isSrand]

/-- Any number of turns of the main loop, one interrupt ending each sleep:
`srand` is called once in each turn. -/
theorem mainIters_srand (T : Target) (v : Variant) : ∀ (n : Nat) (m : Machine),
    m.game.mode = off → n ≤ m.wakeups.length →
    ∃ m', mainIters T v n m = some m' ∧ m'.game.mode = off ∧
      m'.wakeups = m.wakeups.drop n ∧
      List.countP Event.isSrand m'.game.trace
        = List.countP Event.isSrand m.game.trace + n := by
  intro n
  induction n with
  | zero =>
    intro m hoff _
    exact ⟨m, rfl, hoff, rfl, rfl⟩
  | succ n ih =>
    intro m hoff hn
    cases hw : m.wakeups with
    | nil => rw [hw] at hn; simp at hn
    | cons c rest =>
      obtain ⟨m1, h1, hoff1, hwk1, hc1⟩ := mainIter_srand T v m c rest hoff hw
      rw [hw] at hn
      obtain ⟨m', h', hoff', hwk', hc'⟩ := ih m1 hoff1 (by
        rw [hwk1]
        simp only [List.length_cons] at hn
        omega)
      refine ⟨m', ?_, hoff', ?_, ?_⟩
      · simp only [mainIters, h1, Option.some_bind, h']
      · rw [hwk', hwk1]
        rfl
      · rw [hc', hc1]
        omega

/-- C12: in every turn of the main loop that starts in the Off mode and in
which an interrupt ends the sleep, between the return of `nap()` and the
entry into the round loop `srand` is called exactly once, after the start
hook and the wait for the release, which call neither `rand` nor `srand`;
that call precedes the first `rand()` call of the game, made at the start of
the first round; `srand` is not called again up to the end of the round
loop, where the mode is off again; so that `n` turns call `srand` `n`
times. -/
theorem reseed_once (T : Target) (v : Variant) (m : Machine) (c : WakeUp)
    (rest : List WakeUp) (hoff : m.game.mode = off) (hw : m.wakeups = c :: rest) :
    ∃ m' pre post seed r, mainIter T v m = some m' ∧
      m'.game.trace = m.game.trace ++ [Event.LED 0, Event.sleep] ++ pre ++ [Event.srand seed]
        ++ [Event.delay_ms 1000, Event.rand r] ++ post ∧
      (∀ e ∈ pre, e.isRand = false ∧ e.isSrand = false) ∧
      (∀ e ∈ post, e.isSrand = false) ∧
      m'.game.mode = off ∧
      ∀ n, n ≤ m.wakeups.length → ∃ m'', mainIters T v n m = some m'' ∧
        m''.game.mode = off ∧
        List.countP Event.isSrand m''.game.trace
          = List.countP Event.isSrand m.game.trace + n := by
  obtain ⟨m', post, h, hmode, -, htr, hns⟩ := mainIter_spec T v m c rest hoff hw
  refine ⟨m', startEvents v ++ releasePins m.game.sw, post, nextSeed m.game,
    (started T v m.game).rnd.headD 0, h, ?_, ?_, hns, hmode, fun n hn => ?_⟩
  · rw [htr]
    simp only [started, List.append_assoc]
  · intro e he
    rcases List.mem_append.1 he with h1 | h1
    · exact plain_startEvents v e h1
    · exact plain_releasePins _ e h1
  · obtain ⟨m'', h1, h2, -, h4⟩ := mainIters_srand T v n m hoff hn
    exact ⟨m'', h1, h2, h4⟩

/-- C12 at power-on, for a player who starts two games and matches the
first step of each before letting the time run out. -/
theorem reseed_once_witness :
    ∃ m', mainIters ubmp4 Variant.game 2
        (powerOn [released, key 1, released] [0, 0, 0, 0] [7, 9]
          [WakeUp.buttonChange 0 16, WakeUp.buttonChange 0 16]) = some m' ∧
      m'.game.mode = off ∧ List.countP Event.isSrand m'.game.trace = 2 := by
  obtain ⟨-, -, -, -, -, -, -, -, -, -, h⟩ :=
    reseed_once ubmp4 Variant.game
      (powerOn [released, key 1, released] [0, 0, 0, 0] [7, 9]
        [WakeUp.buttonChange 0 16, WakeUp.buttonChange 0 16])
      (WakeUp.buttonChange 0 16) [WakeUp.buttonChange 0 16] rfl rfl
  obtain ⟨m', h1, h2, h3⟩ := h 2 (by decide)
  exact ⟨m', h1, h2, by rw [h3]; rfl⟩

/-! ### The pattern is fixed by the seed -/

theorem headD_drop (R : List Nat) (j : Nat) : (R.drop j).headD 0 = R.getD j 0 := by
  simp [List.headD_eq_head?_getD, List.head?_drop, List.getD_eq_getElem?_getD]

/-- One round takes the state from `j` drawn symbols to `j + 1`. -/
theorem drawn_round (v : Variant) (R : List Nat) (j : Nat) (g g' : Game)
    (hQ : Drawn R j g) (hm : g.mode = simon) (h : round v g = some g') :
    Drawn R (j + 1) g' := by
  obtain ⟨hr, hlen, hms, hcells⟩ := hQ
  obtain ⟨hmax, hj⟩ := hms hm
  have hj' : j ≤ 42 := hj
  obtain ⟨g'', h', p, r, -, md, o⟩ := round_spec v g
  rw [h] at h'
  cases h'
  by_cases hlt : j < 42
  · have hg := roundHead_grow v g (by rw [hmax]; exact hlt)
    rw [hg] at p r md o
    simp only at p r md o
    refine ⟨?_, ?_, fun hs => ?_, fun i hi hi42 => ?_⟩
    · rw [r, hr, List.tail_drop]
    · rw [p, List.length_set, hlen]
    · rw [o hs, hmax]
      exact ⟨rfl, by show j + 1 ≤ 42; omega⟩
    · rw [p, hmax, List.getElem?_set]
      by_cases hij : j = i
      · subst hij
        rw [if_pos rfl, if_pos (by rw [hlen]; exact hi42), hr, headD_drop]
        rfl
      · rw [if_neg hij]
        exact hcells i (by omega) hi42
  · have hj42 : j = 42 := by omega
    have hg := roundHead_win v g (by rw [hmax, hj42]; rfl)
    rw [hg] at p r md o
    simp only at p r md o
    have hoff : g'.mode = off := by
      rcases md with h1 | h1 <;> exact h1
    refine ⟨?_, ?_, fun hs => ?_, fun i hi hi42 => ?_⟩
    · rw [r, hr, List.tail_drop]
    · rw [p, hlen]
    · rw [hoff] at hs
      simp [off, simon] at hs
    · rw [p]
      have hi42' : i < 42 := hi42
      exact hcells i (by omega) hi42

/-- A round adds one `rand` call to the trace. -/
theorem round_rand (v : Variant) (g g' : Game) (h : round v g = some g') :
    List.countP Event.isRand g'.trace = List.countP Event.isRand g.trace + 1 := by
  obtain ⟨l, hl, hp⟩ := round_draw v g g' h
  have h0 : List.countP Event.isRand l = 0 :=
    List.countP_eq_zero.2 (fun e he => by simp [(hp e he).1])
  rw [hl]
  simp [List.countP_append, List.countP_cons, Event.isRand, h0]

/-- The state at the head of the round loop after `k` rounds. -/
theorem drawn_rounds (v : Variant) (R : List Nat) : ∀ (k j : Nat) (g s : Game),
    Drawn R j g → loopState (fun s => (decide (s.mode = simon), s)) (round v) k g = some s →
    Drawn R (j + k) s ∧
      List.countP Event.isRand s.trace = List.countP Event.isRand g.trace + k := by
  intro k
  induction k with
  | zero =>
    intro j g s hQ h
    simp only [loopState, Option.some.injEq] at h
    subst h
    exact ⟨hQ, rfl⟩
  | succ k ih =>
    intro j g s hQ h
    rw [loopState] at h
    split_ifs at h with hc
    have hm : g.mode = simon := by simpa using hc
    cases hb : round v g with
    | none => simp [hb] at h
    | some g1 =>
      simp only [hb, Option.some_bind] at h
      obtain ⟨q, c⟩ := ih (j + 1) g1 s (drawn_round v R j g g1 hQ hm hb) h
      refine ⟨?_, ?_⟩
      · rw [show j + (k + 1) = j + 1 + k by omega]
        exact q
      · rw [c, round_rand v g g1 hb]
        omega

theorem drawn_started (T : Target) (v : Variant) (g : Game)
    (hlen : g.pattern.length = patternLength) :
    Drawn (started T v g).rnd 0 (started T v g) :=
  ⟨rfl, hlen, fun _ => ⟨rfl, Nat.zero_le _⟩, fun i hi _ => absurd hi (Nat.not_lt_zero i)⟩

theorem offBody_game (T : Target) (v : Variant) (m a : Machine) (h : offBody T v m = some a) :
    a.game = started T v m.game := by
  cases hw : m.wakeups with
  | nil => rw [offBody_none T v m hw] at h; simp at h
  | cons c rest =>
    rw [offBody_eq T v m c rest hw] at h
    simp only [Option.some.injEq] at h
    rw [← h]

/-- C14: with a `rand()` whose results to come are fixed by the argument of
`srand`, any two games started with the same seed `newSeed`, in either
variant and whatever is read from the buttons, hold the same symbol in
`pattern[i]` after every round `i + 1` that both games reach, the symbol
drawn from the `i`-th result; `k` rounds call `rand()` `k` times, and every
round calls it once, at its start, and nowhere else. -/
theorem pattern_determinism (T : Target) (hT : ∀ seed r₁ r₂, T.reseed seed r₁ = T.reseed seed r₂)
    (v₁ v₂ : Variant) (m₁ m₂ a b : Machine)
    (hl₁ : m₁.game.pattern.length = patternLength)
    (hl₂ : m₂.game.pattern.length = patternLength)
    (h₁ : offBody T v₁ m₁ = some a) (h₂ : offBody T v₂ m₂ = some b)
    (hseed : a.game.newSeed = b.game.newSeed)
    (k : Nat) (s₁ s₂ : Game)
    (hk₁ : loopState (fun s => (decide (s.mode = simon), s)) (round v₁) k a.game = some s₁)
    (hk₂ : loopState (fun s => (decide (s.mode = simon), s)) (round v₂) k b.game = some s₂) :
    a.game.rnd = b.game.rnd ∧
    (∀ i, i < k → i < patternLength →
      s₁.pattern[i]? = some (drawn a.game.rnd i) ∧ s₂.pattern[i]? = s₁.pattern[i]?) ∧
    List.countP Event.isRand s₁.trace = List.countP Event.isRand a.game.trace + k ∧
    List.countP Event.isRand s₂.trace = List.countP Event.isRand b.game.trace + k ∧
    ∀ g g', round v₁ g = some g' →
      ∃ l, g'.trace = g.trace ++ [Event.delay_ms 1000, Event.rand (g.rnd.headD 0)] ++ l ∧
        ∀ e ∈ l, e.isRand = false := by
  have ea := offBody_game T v₁ m₁ a h₁
  have eb := offBody_game T v₂ m₂ b h₂
  have hs : nextSeed m₁.game = nextSeed m₂.game := by
    rw [ea, eb] at hseed
    exact hseed
  have hr : a.game.rnd = b.game.rnd := by
    rw [ea, eb]
    show T.reseed (nextSeed m₁.game) _ = T.reseed (nextSeed m₂.game) _
    rw [hs]
    exact hT _ _ _
  have qa : Drawn a.game.rnd 0 a.game := by
    rw [ea]
    exact drawn_started T v₁ m₁.game hl₁
  have qb : Drawn b.game.rnd 0 b.game := by
    rw [eb]
    exact drawn_started T v₂ m₂.game hl₂
  obtain ⟨⟨-, -, -, c₁⟩, n₁⟩ := drawn_rounds v₁ a.game.rnd k 0 a.game s₁ qa hk₁
  obtain ⟨⟨-, -, -, c₂⟩, n₂⟩ := drawn_rounds v₂ b.game.rnd k 0 b.game s₂ qb hk₂
  refine ⟨hr, fun i hi hi42 => ?_, n₁, n₂, fun g g' h => ?_⟩
  · have x₁ := c₁ i (by omega) hi42
    have x₂ := c₂ i (by omega) hi42
    rw [← hr] at x₂
    exact ⟨x₁, by rw [x₁, x₂]⟩
  · obtain ⟨l, hl, hp⟩ := round_draw v₁ g g' h
    exact ⟨l, hl, fun e he => (hp e he).1⟩

set_option maxRecDepth 100000 in
/-- C14 on two games started with the seed 7, of the two variants, with
different presses at different times, one player matching the second round
and the other losing it: after two rounds both hold the symbols 1 and 3 in
`pattern[0]` and `pattern[1]`. -/
theorem pattern_determinism_witness :
    ∃ s₁ s₂,
      loopState (fun s => (decide (s.mode = simon), s)) (round Variant.game) 2
        (started seeded Variant.game quickPlayer.game) = some s₁ ∧
      loopState (fun s => (decide (s.mode = simon), s)) (round Variant.starterGame) 2
        (started seeded Variant.starterGame slowPlayer.game) = some s₂ ∧
      s₁.mode = simon ∧ s₂.mode = off ∧
      s₁.pattern[0]? = some 1 ∧ s₂.pattern[0]? = some 1 ∧
      s₁.pattern[1]? = some 3 ∧ s₂.pattern[1]? = some 3 := by
  obtain ⟨s₁, hs₁⟩ := Option.isSome_iff_exists.1
    (show (loopState (fun s => (decide (s.mode = simon), s)) (round Variant.game) 2
      (started seeded Variant.game quickPlayer.game)).isSome = true by decide)
  obtain ⟨s₂, hs₂⟩ := Option.isSome_iff_exists.1
    (show (loopState (fun s => (decide (s.mode = simon), s)) (round Variant.starterGame) 2
      (started seeded Variant.starterGame slowPlayer.game)).isSome = true by decide)
  have hm₁ : (loopState (fun s => (decide (s.mode = simon), s)) (round Variant.game) 2
      (started seeded Variant.game quickPlayer.game)).map Game.mode = some simon := by decide
  have hm₂ : (loopState (fun s => (decide (s.mode = simon), s)) (round Variant.starterGame) 2
      (started seeded Variant.starterGame slowPlayer.game)).map Game.mode = some off := by
    decide
  obtain ⟨-, h, -⟩ := pattern_determinism seeded (fun _ _ _ => rfl) Variant.game
    Variant.starterGame quickPlayer slowPlayer _ _ rfl rfl
    (offBody_eq seeded Variant.game quickPlayer (WakeUp.buttonChange 0 16) [] rfl)
    (offBody_eq seeded Variant.starterGame slowPlayer (WakeUp.buttonChange 0 128) [] rfl)
    rfl 2 s₁ s₂ hs₁ hs₂
  obtain ⟨a0, b0⟩ := h 0 (by decide) (by decide)
  obtain ⟨a1, b1⟩ := h 1 (by decide) (by decide)
  refine ⟨s₁, s₂, hs₁, hs₂, ?_, ?_, ?_, ?_, ?_, ?_⟩
  · rw [hs₁] at hm₁
    exact Option.some.inj hm₁
  · rw [hs₂] at hm₂
    exact Option.some.inj hm₂
  · rw [a0]; decide
  · rw [b0, a0]; decide
  · rw [a1]; decide
  · rw [b1, a1]; decide

/-! ### The two variants side by side -/

theorem both_bind {α β γ δ : Type} {R : α → β → Prop} {S : γ → δ → Prop}
    {x : Option α} {y : Option β} {f : α → Option γ} {g : β → Option δ}
    (h : Both R x y) (hf : ∀ a b, R a b → Both S (f a) (g b)) :
    Both S (x.bind f) (y.bind g) := by
  cases x <;> cases y <;> simp only [Both] at h
  · trivial
  · exact hf _ _ h

theorem both_map {α β γ δ : Type} {R : α → β → Prop} {S : γ → δ → Prop}
    {x : Option α} {y : Option β} {f : α → γ} {g : β → δ}
    (h : Both R x y) (hf : ∀ a b, R a b → S (f a) (g b)) :
    Both S (x.map f) (y.map g) := by
  cases x <;> cases y <;> simp only [Both] at h
  · trivial
  · exact hf _ _ h

theorem both_some {α β : Type} {R : α → β → Prop} {x : Option α} {y : Option β}
    (h : Both R x y) (a : α) (b : β) (ha : x = some a) (hb : y = some b) : R a b := by
  subst ha hb
  exact h

/-- Two loops whose conditions agree and whose bodies keep the relation run
side by side. -/
theorem whileLoop_both {σ τ : Type} (R : σ → τ → Prop)
    (c₁ : σ → Bool × σ) (b₁ : σ → Option σ) (c₂ : τ → Bool × τ) (b₂ : τ → Option τ)
    (hc : ∀ a b, R a b → (c₁ a).1 = (c₂ b).1 ∧ R (c₁ a).2 (c₂ b).2)
    (hb : ∀ a b, R a b → (c₁ a).1 = true → Both R (b₁ (c₁ a).2) (b₂ (c₂ b).2)) :
    ∀ (n : Nat) (a : σ) (b : τ), R a b →
      Both R (whileLoop c₁ b₁ n a) (whileLoop c₂ b₂ n b) := by
  intro n
  induction n with
  | zero =>
    intro a b h
    obtain ⟨e, r⟩ := hc a b h
    simp only [whileLoop, ← e]
    split_ifs
    · trivial
    · exact r
  | succ n ih =>
    intro a b h
    obtain ⟨e, r⟩ := hc a b h
    simp only [whileLoop, ← e]
    split_ifs with h1
    · exact both_bind (hb a b h h1) ih
    · exact r

/-- The states at the head of two such loops after `k` runs. -/
theorem loopState_both {σ τ : Type} (R : σ → τ → Prop)
    (c₁ : σ → Bool × σ) (b₁ : σ → Option σ) (c₂ : τ → Bool × τ) (b₂ : τ → Option τ)
    (hc : ∀ a b, R a b → (c₁ a).1 = (c₂ b).1 ∧ R (c₁ a).2 (c₂ b).2)
    (hb : ∀ a b, R a b → (c₁ a).1 = true → Both R (b₁ (c₁ a).2) (b₂ (c₂ b).2)) :
    ∀ (k : Nat) (a : σ) (b : τ), R a b →
      Both R (loopState c₁ b₁ k a) (loopState c₂ b₂ k b) := by
  intro k
  induction k with
  | zero =>
    intro a b h
    exact h
  | succ k ih =>
    intro a b h
    obtain ⟨e, -⟩ := hc a b h
    simp only [loopState, ← e]
    split_ifs with h1
    · exact both_bind (hb a b h h1) ih
    · trivial

theorem calls_append (l₁ l₂ : List Event) : calls (l₁ ++ l₂) = calls l₁ ++ calls l₂ := by
  simp [calls]

theorem calls_quiet (l : List Event) (h : Quiet l) : calls l = [] := by
  simp only [calls, List.filter_eq_nil_iff]
  intro e he
  simp [h e he]

theorem calls_loseEvents (s : Nat) : calls (loseEvents s) = [Event.call_lose] := by
  simp only [loseEvents, calls_append, calls_quiet _ (quiet_scoreEvents _ _), List.append_nil]
  rfl

theorem calls_winEvents (v : Variant) : calls (winEvents v) = [Event.call_win] := by
  cases v <;> rfl

theorem calls_startEvents (v : Variant) : calls (startEvents v) = [Event.call_start] := by
  cases v <;> rfl

theorem same_refl (g : Game) (h : g.mode = simon → g.maxStep < 256) : Same g g :=
  ⟨rfl, rfl, rfl, rfl, rfl, rfl, rfl, rfl, rfl, rfl, rfl, rfl, rfl, fun _ => rfl, h⟩

theorem same_waitPress (a b : Game) (h : Same a b) : Both Same (waitPress a) (waitPress b) := by
  unfold waitPress
  refine whileLoop_both Same _ _ _ _ ?_ ?_ _ a b h
  · intro s t hst
    exact ⟨by simp only [hst.button, hst.mode], hst⟩
  · intro s t hst _
    show Same (waitPressBody s) (waitPressBody t)
    rw [waitPressBody_eq, waitPressBody_eq]
    obtain ⟨h1, h2, h3, h4, h5, h6, h7, h8, h9, h10, h11, h12, h13, h14, h15⟩ := hst
    refine ⟨by simp only [h5, h1], h2, h3, by simp only [h6], by simp only [h5],
      by simp only [h6], h7, h8, h9, h10, h11, h12, ?_, ?_, ?_⟩
    · simp only [calls_append, h13]
    · intro hm
      split_ifs at hm with hc
      · simp [off, simon] at hm
      · exact h14 hm
    · intro hm
      split_ifs at hm with hc
      · simp [off, simon] at hm
      · exact h15 hm

theorem same_waitRelease (a b : Game) (h : Same a b) :
    Both Same (waitRelease a) (waitRelease b) := by
  unfold waitRelease
  refine whileLoop_both Same _ _ _ _ ?_ ?_ _ a b h
  · intro s t hst
    rw [releaseCond_eq, releaseCond_eq]
    obtain ⟨h1, h2, h3, h4, h5, h6, h7, h8, h9, h10, h11, h12, h13, h14, h15⟩ := hst
    exact ⟨by simp only [h6, h1],
      ⟨h1, h2, h3, h4, h5, by simp only [h6], h7, h8, h9, h10, h11, h12, h13, h14, h15⟩⟩
  · intro s t hst _
    show Same (idleTick (delay_ms 50 (releaseCond s).2)) (idleTick (delay_ms 50 (releaseCond t).2))
    rw [releaseBody_eq, releaseBody_eq, releaseCond_eq, releaseCond_eq]
    obtain ⟨h1, h2, h3, h4, h5, h6, h7, h8, h9, h10, h11, h12, h13, h14, h15⟩ := hst
    refine ⟨by simp only [h5, h1], h2, h3, h4, by simp only [h5],
      by simp only [h6], h7, h8, h9, h10, h11, h12, ?_, ?_, ?_⟩
    · simp only [calls_append, h13]
    · intro hm
      split_ifs at hm with hc
      · simp [off, simon] at hm
      · exact h14 hm
    · intro hm
      split_ifs at hm with hc
      · simp [off, simon] at hm
      · exact h15 hm

/-- The comparison of the guess in the two variants: the hooks differ, the
outcome does not. -/
theorem same_judge (a b : Game) (h : Same a b) :
    Both Same (judge Variant.game a) (judge Variant.starterGame b) := by
  obtain ⟨h1, h2, h3, h4, h5, h6, h7, h8, h9, h10, h11, h12, h13, h14, h15⟩ := h
  have hl : loadPattern a a.step = loadPattern b b.step := by
    simp only [loadPattern, h2, h3, h12]
  by_cases hc : a.button ≠ loadPattern a a.step ∧ a.mode = simon
  · rw [judge_miss_game a hc.2 hc.1 (h15 hc.2),
      judge_miss_starter b (by rw [← h1]; exact hc.2) (by rw [← h4, ← hl]; exact hc.1)]
    refine ⟨rfl, h2, h3, h4, h5, h6, h7, h8, h9, h10, by simp only [h11, h2, h3], h12, ?_, ?_, ?_⟩
    · simp only [calls_append, h13, calls_loseEvents]
      rfl
    · intro hm
      simp [off, simon] at hm
    · intro hm
      simp [off, simon] at hm
  · have hc' : ¬ (b.button ≠ loadPattern b b.step ∧ b.mode = simon) := by
      rw [← h1, ← h4, ← hl]
      exact hc
    have ea : judge Variant.game a = some (touchPattern a a.step) := by
      simp only [judge, readPattern]
      rw [if_neg (by rw [touchPattern_eq]; exact hc)]
    have eb : judge Variant.starterGame b = some (touchPattern b b.step) := by
      simp only [judge, readPattern]
      rw [if_neg (by rw [touchPattern_eq]; exact hc')]
    rw [ea, eb, touchPattern_eq, touchPattern_eq]
    exact ⟨h1, h2, h3, h4, h5, h6, h7, h8, h9, h10, by simp only [h11, h2, h3], h12, h13, h14,
      h15⟩

/-- One guess of the player in the two variants. -/
theorem same_guessStep (a b : Game) (h : Same a b) :
    Both Same (guessStep Variant.game a) (guessStep Variant.starterGame b) := by
  simp only [guessStep, readButton_eq]
  obtain ⟨h1, h2, h3, h4, h5, h6, h7, h8, h9, h10, h11, h12, h13, h14, h15⟩ := h
  refine both_bind (R := Same) (same_waitPress _ _
    ⟨h1, h2, h3, by simp only [h6], rfl, by simp only [h6], h7, h8, h9, h10, h11, h12, h13,
      h14, h15⟩) ?_
  intro s t hst
  refine both_bind (R := Same) (same_judge _ _ ?_) ?_
  · obtain ⟨k1, k2, k3, k4, k5, k6, k7, k8, k9, k10, k11, k12, k13, k14, k15⟩ := hst
    simp only [LED_eq, sound_eq]
    refine ⟨k1, k2, k3, k4, k5, k6, k7, k8, k9, k10, k11, k12, ?_, k14, k15⟩
    simp only [calls_append, k13, calls_quiet _ (quiet_soundEvents _)]
    rfl
  · intro s' t' hst'
    obtain ⟨k1, k2, k3, k4, k5, k6, k7, k8, k9, k10, k11, k12, k13, k14, k15⟩ := hst'
    exact same_waitRelease _ _
      ⟨k1, k2, by simp only [k3], k4, rfl, k6, k7, k8, k9, k10, k11, k12, k13, k14, k15⟩

theorem same_verifyCond (a b : Game) (h : Same a b) :
    (decide (a.step ≠ a.maxStep) && decide (a.mode = simon))
      = (decide (b.step ≠ b.maxStep) && decide (b.mode = simon)) := by
  by_cases hm : a.mode = simon
  · rw [← h.mode, ← h.step, ← h.maxStep hm]
  · have hm' : ¬ b.mode = simon := by rw [← h.mode]; exact hm
    simp [hm, hm']

/-- The verification loop in the two variants. -/
theorem same_verifyLoop (a b : Game) (h : Same a b) :
    Both Same (verifyLoop Variant.game a) (verifyLoop Variant.starterGame b) := by
  unfold verifyLoop
  exact whileLoop_both Same _ _ _ _ (fun s t hst => ⟨same_verifyCond s t hst, hst⟩)
    (fun s t hst _ => same_guessStep s t hst) _ a b h

/-- The playback loop on two states that agree on `maxStep` as well. -/
theorem same_playback (a b : Game) (h : Same a b) (hmax : a.maxStep = b.maxStep) :
    Both (fun s t => Same s t ∧ s.maxStep = t.maxStep) (playback a) (playback b) := by
  unfold playback playbackLoop
  obtain ⟨h1, h2, h3, h4, h5, h6, h7, h8, h9, h10, h11, h12, h13, h14, h15⟩ := h
  refine whileLoop_both (fun s t => Same s t ∧ s.maxStep = t.maxStep) _ _ _ _ ?_ ?_ _ _ _
    ⟨⟨h1, h2, rfl, h4, h5, h6, h7, h8, h9, h10, h11, h12, h13, h14, h15⟩, hmax⟩
  · intro s t hst
    exact ⟨by simp only [hst.1.step, hst.2], hst⟩
  · intro s t hst _
    obtain ⟨⟨k1, k2, k3, k4, k5, k6, k7, k8, k9, k10, k11, k12, k13, k14, k15⟩, km⟩ := hst
    show Same (playbackBody s) (playbackBody t) ∧ (playbackBody s).maxStep = (playbackBody t).maxStep
    rw [playbackBody_eq, playbackBody_eq]
    refine ⟨⟨k1, k2, by simp only [k3], k4, k5, k6, k7, k8, k9, k10, by simp only [k11, k2, k3],
      k12, ?_, k14, k15⟩, km⟩
    simp only [calls_append, k13, calls_quiet _ (quiet_playbackEvents _)]

/-- The start of a round in the two variants: afterwards `maxStep` is the
same in both. -/
theorem same_roundHead (a b : Game) (h : Same a b) (hm : a.mode = simon) :
    Same (roundHead Variant.game a) (roundHead Variant.starterGame b) ∧
      (roundHead Variant.game a).maxStep = (roundHead Variant.starterGame b).maxStep := by
  obtain ⟨h1, h2, h3, h4, h5, h6, h7, h8, h9, h10, h11, h12, h13, h14, h15⟩ := h
  have hmax := h14 hm
  have hlt : (b.maxStep + 1) % 256 < 256 := Nat.mod_lt _ (by norm_num)
  simp only [roundHead, callRand_eq, delay_ms_eq, storePattern, patternSet?, game_win_eq,
    ← h1, ← h2, ← h3, ← h4, ← h5, ← h6, ← h7, ← h8, ← h9, ← h10, ← h11, ← h12, hmax]
  by_cases hin : b.maxStep < patternLength <;> by_cases hw : (b.maxStep + 1) % 256 = patternLength + 1
  all_goals
    simp only [hin, hw, if_true, if_false]
    refine ⟨⟨rfl, rfl, rfl, rfl, rfl, rfl, rfl, rfl, rfl, rfl, rfl, rfl, ?_, fun _ => rfl, ?_⟩, trivial⟩
  · simp only [calls_append, h13, calls_winEvents]
  · intro hs; simp [off, simon] at hs
  · simp only [calls_append, h13]
  · intro _; exact hlt
  · simp only [calls_append, h13, calls_winEvents]
  · intro hs; simp [off, simon] at hs
  · simp only [calls_append, h13]
  · intro _; exact hlt

/-- A whole round in the two variants. -/
theorem same_round (a b : Game) (h : Same a b) (hm : a.mode = simon) :
    Both Same (round Variant.game a) (round Variant.starterGame b) := by
  unfold round
  obtain ⟨hs, hmax⟩ := same_roundHead a b h hm
  refine both_bind (same_playback _ _ hs hmax) ?_
  intro s t hst
  obtain ⟨⟨k1, k2, k3, k4, k5, k6, k7, k8, k9, k10, k11, k12, k13, k14, k15⟩, -⟩ := hst
  exact same_verifyLoop _ _
    ⟨k1, k2, rfl, k4, k5, k6, k7, k8, k9, k10, k11, k12, k13, k14, k15⟩

/-- The round loop in the two variants. -/
theorem same_roundLoop (a b : Game) (h : Same a b) :
    Both Same (roundLoop Variant.game a) (roundLoop Variant.starterGame b) := by
  unfold roundLoop
  exact whileLoop_both Same _ _ _ _ (fun s t hst => ⟨by simp only [hst.mode], hst⟩)
    (fun s t hst hc => same_round s t hst (by simpa using hc)) _ a b h

theorem calls_releasePins (sw : List Switches) : calls (releasePins sw) = [] := by
  simp only [calls, List.filter_eq_nil_iff]
  intro e he
  simp only [releasePins, List.mem_append, List.mem_map, List.mem_singleton] at he
  rcases he with ⟨s, -, rfl⟩ | rfl <;> simp [Event.isCall]

/-- The Off loop body in the two variants. -/
theorem same_started (T : Target) (a b : Game) (h : Same a b) :
    Same (started T Variant.game a) (started T Variant.starterGame b) := by
  obtain ⟨h1, h2, h3, h4, h5, h6, h7, h8, h9, h10, h11, h12, h13, h14, h15⟩ := h
  refine ⟨rfl, h2, h3, h4, h5, by simp only [started, h6], by simp only [started, nextSeed, h7, h8, h9],
    by simp only [started, h8], by simp only [started, nextSeed, h8, h9],
    by simp only [started, h8], h11, h12, ?_, fun _ => rfl, fun _ => by show 0 < 256; norm_num⟩
  simp only [started, calls_append, h13, calls_startEvents, calls_releasePins]
  rfl

theorem same_offBody (T : Target) (a b : Machine) (h : SameMachine a b) :
    Both SameMachine (offBody T Variant.game a) (offBody T Variant.starterGame b) := by
  obtain ⟨hg, hi, hw⟩ := h
  cases hwa : a.wakeups with
  | nil =>
    rw [offBody_none T _ a hwa, offBody_none T _ b (by rw [← hw]; exact hwa)]
    trivial
  | cons c rest =>
    rw [offBody_eq T _ a c rest hwa, offBody_eq T _ b c rest (by rw [← hw]; exact hwa)]
    exact ⟨same_started T _ _ hg, by simp only [hi], rfl⟩

theorem same_offLoop (T : Target) (a b : Machine) (h : SameMachine a b) :
    Both SameMachine (offLoop T Variant.game a) (offLoop T Variant.starterGame b) := by
  unfold offLoop
  exact whileLoop_both SameMachine _ _ _ _
    (fun s t hst => ⟨by simp only [hst.game.mode], hst⟩)
    (fun s t hst _ => same_offBody T s t hst) _ a b h

theorem same_mainIter (T : Target) (a b : Machine) (h : SameMachine a b) :
    Both SameMachine (mainIter T Variant.game a) (mainIter T Variant.starterGame b) := by
  unfold mainIter
  refine both_bind (same_offLoop T a b h) ?_
  intro s t hst
  exact both_map (same_roundLoop _ _ hst.game) (fun g g' hg => ⟨hg, hst.intr, hst.wakeups⟩)

theorem same_mainIters (T : Target) : ∀ (n : Nat) (a b : Machine), SameMachine a b →
    Both SameMachine (mainIters T Variant.game n a) (mainIters T Variant.starterGame n b) := by
  intro n
  induction n with
  | zero => intro a b h; exact h
  | succ n ih =>
    intro a b h
    simp only [mainIters]
    exact both_bind (same_mainIter T a b h) ih

/-- C20: run on the same button readings, timer samples, `rand()` results
and interrupts, the main loops of `UBMP4-Simon-Game.c` and
`UBMP4-Simon-Starter-Game.c` stay side by side: after any number of turns of
`while(1)`, at the head of every round and at the head of every guess, both
have returned or neither has, and the two states agree on the mode, the
pattern, `step`, the inputs still to come and the sequence of entries of
`game_start`, `game_win` and `game_lose`, and on `maxStep` as long as the
mode is `simon`; the turns return whenever interrupts end the sleeps. The
programs differ in the bodies of the three hooks, and so in the LEDs, the
rest of the trace and the value of `maxStep` between a loss and the next
game start. -/
theorem variant_equivalence (T : Target) (a b : Machine) (h : SameMachine a b) :
    (∀ n, Both SameMachine (mainIters T Variant.game n a)
      (mainIters T Variant.starterGame n b)) ∧
    (∀ n, a.game.mode = off → n ≤ a.wakeups.length →
      ∃ a' b', mainIters T Variant.game n a = some a' ∧
        mainIters T Variant.starterGame n b = some b' ∧ SameMachine a' b') ∧
    (∀ k, Both Same
      (loopState (fun s => (decide (s.mode = simon), s)) (round Variant.game) k a.game)
      (loopState (fun s => (decide (s.mode = simon), s)) (round Variant.starterGame) k b.game)) ∧
    (∀ k, Both Same
      (loopState (fun s => (decide (s.step ≠ s.maxStep) && decide (s.mode = simon), s))
        (guessStep Variant.game) k a.game)
      (loopState (fun s => (decide (s.step ≠ s.maxStep) && decide (s.mode = simon), s))
        (guessStep Variant.starterGame) k b.game)) := by
  refine ⟨fun n => same_mainIters T n a b h, fun n hoff hn => ?_, fun k => ?_, fun k => ?_⟩
  · obtain ⟨a', ha, -⟩ := mainIters_srand T Variant.game n a hoff hn
    obtain ⟨b', hb, -⟩ := mainIters_srand T Variant.starterGame n b
      (by rw [← h.game.mode]; exact hoff) (by rw [← h.wakeups]; exact hn)
    exact ⟨a', b', ha, hb, both_some (same_mainIters T n a b h) a' b' ha hb⟩
  · exact loopState_both Same _ _ _ _ (fun s t hst => ⟨by simp only [hst.mode], hst⟩)
      (fun s t hst hc => same_round s t hst (by simpa using hc)) k _ _ h.game
  · exact loopState_both Same _ _ _ _ (fun s t hst => ⟨same_verifyCond s t hst, hst⟩)
      (fun s t hst _ => same_guessStep s t hst) k _ _ h.game

set_option maxRecDepth 100000 in
/-- C20 on a machine whose player loses the first game in its first round
and then starts a second game: after the loss the two variants agree on the
mode and on the hook entries, `maxStep` is 0 in one and 1 in the other; after
the second game both hold the same values. -/
theorem variant_equivalence_witness :
    ∃ a₁ b₁ a₂ b₂,
      mainIters ubmp4 Variant.game 1 losingPlayer = some a₁ ∧
      mainIters ubmp4 Variant.starterGame 1 losingPlayer = some b₁ ∧
      SameMachine a₁ b₁ ∧ a₁.game.maxStep = 0 ∧ b₁.game.maxStep = 1 ∧
      calls a₁.game.trace = [Event.call_start, Event.call_lose] ∧
      mainIters ubmp4 Variant.game 2 losingPlayer = some a₂ ∧
      mainIters ubmp4 Variant.starterGame 2 losingPlayer = some b₂ ∧
      SameMachine a₂ b₂ := by
  obtain ⟨-, h, -, -⟩ := variant_equivalence ubmp4 losingPlayer losingPlayer
    ⟨same_refl _ (by decide), rfl, rfl⟩
  obtain ⟨a₁, b₁, ha₁, hb₁, s₁⟩ := h 1 rfl (by decide)
  obtain ⟨a₂, b₂, ha₂, hb₂, s₂⟩ := h 2 rfl (by decide)
  have m₁ : (mainIters ubmp4 Variant.game 1 losingPlayer).map (fun m => m.game.maxStep)
      = some 0 := by decide
  have m₂ : (mainIters ubmp4 Variant.starterGame 1 losingPlayer).map (fun m => m.game.maxStep)
      = some 1 := by decide
  have m₃ : (mainIters ubmp4 Variant.game 1 losingPlayer).map (fun m => calls m.game.trace)
      = some [Event.call_start, Event.call_lose] := by decide
  rw [ha₁] at m₁ m₃
  rw [hb₁] at m₂
  exact ⟨a₁, b₁, a₂, b₂, ha₁, hb₁, s₁, Option.some.inj m₁, Option.some.inj m₂,
    Option.some.inj m₃, ha₂, hb₂, s₂⟩

/-! ### The seed is made of the last two timer samples -/

/-- A loop whose condition and body stay within a reflexive and transitive
relation stays within it. -/
theorem whileLoop_rel {σ : Type} (R : σ → σ → Prop) (hr : ∀ s, R s s)
    (ht : ∀ a b c, R a b → R b c → R a c) (cond : σ → Bool × σ) (body : σ → Option σ)
    (hc : ∀ s, R s (cond s).2) (hb : ∀ s s', body s = some s' → R s s') :
    ∀ (n : Nat) (g g' : σ), whileLoop cond body n g = some g' → R g g' := by
  intro n g g' h
  refine whileLoop_inv cond body (fun s => R g s) (fun s => R g s) ?_ ?_ n g g' (hr g) h
  · intro s s' hI _ hb'
    exact ht _ _ _ (ht _ _ _ hI (hc s)) (hb _ _ hb')
  · intro s hI _
    exact ht _ _ _ hI (hc s)

theorem seedKept_refl (g : Game) : SeedKept g g := ⟨rfl, rfl, rfl⟩

theorem seedKept_trans (a b c : Game) (h₁ : SeedKept a b) (h₂ : SeedKept b c) : SeedKept a c :=
  ⟨h₂.1.trans h₁.1, h₂.2.1.trans h₁.2.1, h₂.2.2.trans h₁.2.2⟩

theorem waitPress_seed (g g' : Game) (h : waitPress g = some g') : SeedKept g g' := by
  unfold waitPress at h
  refine whileLoop_rel SeedKept seedKept_refl seedKept_trans _ _ (fun s => seedKept_refl s) ?_
    _ g g' h
  intro s s' hb
  simp only [Option.some.injEq] at hb
  subst hb
  rw [waitPressBody_eq]
  exact ⟨rfl, rfl, rfl⟩

theorem waitRelease_seed (g g' : Game) (h : waitRelease g = some g') : SeedKept g g' := by
  unfold waitRelease at h
  refine whileLoop_rel SeedKept seedKept_refl seedKept_trans _ _ ?_ ?_ _ g g' h
  · intro s
    rw [releaseCond_eq]
    exact ⟨rfl, rfl, rfl⟩
  · intro s s' hb
    simp only [Option.some.injEq] at hb
    subst hb
    rw [releaseBody_eq]
    exact ⟨rfl, rfl, rfl⟩

theorem scoreLoop_seed (c : Game → Bool) (num dec : Nat) (fuel : Nat) (g g' : Game)
    (h : whileLoop (fun s => (c s, s)) (fun s => some (scoreFlash num dec s)) fuel g = some g') :
    SeedKept g g' := by
  refine whileLoop_rel SeedKept seedKept_refl seedKept_trans _ _ (fun s => seedKept_refl s) ?_
    _ g g' h
  intro s s' hb
  simp only [Option.some.injEq] at hb
  subst hb
  simp only [SeedKept, scoreFlash, LED_eq, delay_ms_eq, and_self]

theorem game_lose_seed (v : Variant) (g g' : Game) (h : game_lose v g = some g') :
    SeedKept g g' := by
  cases v with
  | starterGame =>
    simp only [game_lose, Option.some.injEq] at h
    subst h
    exact ⟨rfl, rfl, rfl⟩
  | game =>
    simp only [game_lose] at h
    cases h1 : whileLoop (fun s => (decide (10 ≤ s.maxStep), s))
        (fun s => some (scoreFlash 1 10 s)) 256
        { emit (Event.delay_ms 500) (note_lower 400 (delay_ms 500 (note_low 500
          (emit Event.call_lose g)))) with
          maxStep := ((delay_ms 500 (note_lower 400 (delay_ms 500 (note_low 500
            (emit Event.call_lose g))))).maxStep + 256 - 1) % 256 } with
    | none =>
      simp only [delay_ms] at h h1
      rw [h1] at h
      simp at h
    | some g1 =>
      simp only [delay_ms] at h h1
      rw [h1] at h
      simp only [Option.some_bind] at h
      cases h2 : whileLoop (fun s => (decide (5 ≤ s.maxStep), s))
          (fun s => some (scoreFlash 2 5 s)) 256 g1 with
      | none => rw [h2] at h; simp at h
      | some g2 =>
        rw [h2] at h
        simp only [Option.some_bind] at h
        have a1 := scoreLoop_seed _ 1 10 256 _ _ h1
        have a2 := scoreLoop_seed _ 2 5 256 _ _ h2
        have a3 := scoreLoop_seed _ 3 1 256 _ _ h
        refine seedKept_trans _ _ _ (seedKept_trans _ _ _ (seedKept_trans _ _ _
          ?_ a1) a2) a3
        simp only [SeedKept, emit, note_low, note_lower, and_self]

theorem judge_seed (v : Variant) (g g' : Game) (h : judge v g = some g') : SeedKept g g' := by
  simp only [judge, readPattern] at h
  have ht : SeedKept g (touchPattern g g.step) := by
    rw [touchPattern_eq]
    exact ⟨rfl, rfl, rfl⟩
  generalize touchPattern g g.step = G at h ht
  split_ifs at h with hc
  · cases h1 : game_lose v (delay_ms 500 G) with
    | none => rw [h1] at h; simp at h
    | some g1 =>
      rw [h1] at h
      simp only [Option.map_some', Option.some.injEq] at h
      subst h
      have a1 := game_lose_seed v _ _ h1
      exact seedKept_trans _ _ _ ht (seedKept_trans _ _ _ (seedKept_trans _ _ _
        (show SeedKept G (delay_ms 500 G) from ⟨rfl, rfl, rfl⟩) a1) ⟨rfl, rfl, rfl⟩)
  · simp only [Option.some.injEq] at h
    subst h
    exact ht

theorem guessStep_seed (v : Variant) (g g' : Game) (h : guessStep v g = some g') :
    SeedKept g g' := by
  simp only [guessStep, readButton_eq] at h
  cases h1 : waitPress { g with
      idle := 0, sw := g.sw.tail, button := get_button (g.sw.headD released) } with
  | none => rw [h1] at h; simp at h
  | some g1 =>
    rw [h1] at h
    simp only [Option.some_bind] at h
    cases h2 : judge v (LED 0 (sound (LED g1.button g1).button (LED g1.button g1))) with
    | none => rw [h2] at h; simp at h
    | some g2 =>
      rw [h2] at h
      simp only [Option.some_bind] at h
      have a1 := waitPress_seed _ _ h1
      have a2 := judge_seed v _ _ h2
      have a3 := waitRelease_seed _ _ h
      have b2 : SeedKept g1 (LED 0 (sound (LED g1.button g1).button (LED g1.button g1))) := by
        simp only [LED_eq, sound_eq]
        exact ⟨rfl, rfl, rfl⟩
      exact seedKept_trans _ _ _ (seedKept_trans _ _ _ (seedKept_trans _ _ _
        (seedKept_trans _ _ _ (show SeedKept g _ from ⟨rfl, rfl, rfl⟩) a1) b2) a2)
        (seedKept_trans _ _ _ (show SeedKept g2 _ from ⟨rfl, rfl, rfl⟩) a3)

theorem round_seed (v : Variant) (g g' : Game) (h : round v g = some g') : SeedKept g g' := by
  unfold round at h
  cases h1 : playback (roundHead v g) with
  | none => rw [h1] at h; simp at h
  | some g1 =>
    rw [h1] at h
    simp only [Option.some_bind, verify, verifyLoop] at h
    have a0 : SeedKept g (roundHead v g) := by
      simp only [roundHead, callRand_eq, delay_ms_eq, storePattern, game_win_eq]
      split_ifs <;> split <;> exact ⟨rfl, rfl, rfl⟩
    have a1 : SeedKept (roundHead v g) g1 := by
      unfold playback playbackLoop at h1
      refine seedKept_trans _ _ _ (show SeedKept _ { roundHead v g with step := 0 } from
        ⟨rfl, rfl, rfl⟩) (whileLoop_rel SeedKept seedKept_refl seedKept_trans _ _
          (fun s => seedKept_refl s) ?_ _ _ _ h1)
      intro s s' hb
      simp only [Option.some.injEq] at hb
      subst hb
      rw [playbackBody_eq]
      exact ⟨rfl, rfl, rfl⟩
    have a2 : SeedKept { g1 with step := 0 } g' :=
      whileLoop_rel SeedKept seedKept_refl seedKept_trans _ _ (fun s => seedKept_refl s)
        (fun s s' hb => guessStep_seed v s s' hb) _ _ _ h
    exact seedKept_trans _ _ _ (seedKept_trans _ _ _ a0 a1)
      (seedKept_trans _ _ _ (show SeedKept g1 _ from ⟨rfl, rfl, rfl⟩) a2)

theorem roundLoop_seed (v : Variant) (g g' : Game) (h : roundLoop v g = some g') :
    SeedKept g g' := by
  unfold roundLoop at h
  exact whileLoop_rel SeedKept seedKept_refl seedKept_trans _ _ (fun s => seedKept_refl s)
    (fun s s' hb => round_seed v s s' hb) _ _ _ h

theorem seedsOf_append (a b : List Event) : seedsOf (a ++ b) = seedsOf a ++ seedsOf b := by
  induction a with
  | nil => rfl
  | cons e a ih => cases e <;> simp [seedsOf, ih]

theorem seedsOf_noSrand (l : List Event) (h : ∀ e ∈ l, e.isSrand = false) : seedsOf l = [] := by
  induction l with
  | nil => rfl
  | cons e l ih =>
    have he := h e (List.mem_cons_self _ _)
    have hl := ih (fun x hx => h x (List.mem_cons_of_mem _ hx))
    cases e <;> simp [seedsOf, hl, Event.isSrand] at he ⊢

/-- One turn of the main loop: the seed passed to `srand` is the new value
of `newSeed`, which the round loop leaves alone, and one timer sample is
used up. -/
theorem mainIter_seed (T : Target) (v : Variant) (m : Machine) (c : WakeUp)
    (rest : List WakeUp) (hoff : m.game.mode = off) (hw : m.wakeups = c :: rest) :
    ∃ m', mainIter T v m = some m' ∧ m'.game.mode = off ∧ m'.wakeups = rest ∧
      m'.game.newSeed = nextSeed m.game ∧ m'.game.tmr = m.game.tmr.tail ∧
      seedsOf m'.game.trace = seedsOf m.game.trace ++ [nextSeed m.game] := by
  obtain ⟨g', l, h, hmode, htr, hns⟩ := roundLoop_spec v (started T v m.game) rfl
    (by show 0 < 256; norm_num)
  obtain ⟨k1, -, k3⟩ := roundLoop_seed v _ _ h
  refine ⟨{ game := g', intr := wake T (raise T c (napRegs T m.intr)), wakeups := rest },
    ?_, hmode, rfl, k1, k3, ?_⟩
  · unfold mainIter
    rw [offLoop_eq T v m c rest hoff hw]
    simp only [Option.some_bind, h, Option.map_some']
  · show seedsOf g'.trace = _
    rw [htr]
    simp only [started, seedsOf_append, seedsOf_noSrand _ hns,
      seedsOf_noSrand _ (fun e he => (plain_startEvents v e he).2),
      seedsOf_noSrand _ (fun e he => (plain_releasePins _ e he).2)]
    simp [seedsOf]

theorem getLast?_cons_getD {α : Type} (a d : α) (l : List α) :
    (a :: l).getLast?.getD d = l.getLast?.getD a := by
  cases l with
  | nil => rfl
  | cons b l =>
    rw [List.getLast?_cons_cons]
    simp [List.getLast?_eq_getLast]

/-- Any number of turns of the main loop: the seeds passed to `srand`. -/
theorem mainIters_seed (T : Target) (v : Variant) : ∀ (n : Nat) (m : Machine),
    m.game.mode = off → n ≤ m.wakeups.length →
    ∃ m', mainIters T v n m = some m' ∧ m'.game.mode = off ∧
      m'.wakeups = m.wakeups.drop n ∧
      seedsOf m'.game.trace
        = seedsOf m.game.trace ++ seedRun m.game.newSeed m.game.tmr n ∧
      m'.game.newSeed
        = (seedRun m.game.newSeed m.game.tmr n).getLast?.getD m.game.newSeed := by
  intro n
  induction n with
  | zero =>
    intro m hoff _
    exact ⟨m, rfl, hoff, rfl, by simp [seedRun], rfl⟩
  | succ n ih =>
    intro m hoff hn
    cases hw : m.wakeups with
    | nil => rw [hw] at hn; simp at hn
    | cons c rest =>
      obtain ⟨m1, h1, hoff1, hwk1, hs1, ht1, htr1⟩ := mainIter_seed T v m c rest hoff hw
      rw [hw] at hn
      obtain ⟨m', h', hoff', hwk', htr', hs'⟩ := ih m1 hoff1 (by
        rw [hwk1]
        simp only [List.length_cons] at hn
        omega)
      refine ⟨m', ?_, hoff', ?_, ?_, ?_⟩
      · simp only [mainIters, h1, Option.some_bind, h']
      · rw [hwk', hwk1]
        rfl
      · rw [htr', htr1, hs1, ht1, List.append_assoc]
        rfl
      · rw [hs', hs1, ht1, seedRun, getLast?_cons_getD]
        rfl

theorem getD_tail {α : Type} (l : List α) (j : Nat) (d : α) :
    l.tail.getD j d = l.getD (j + 1) d := by
  cases l <;> simp

theorem seedRun_length (n : Nat) : ∀ (s : Nat) (ts : List Nat), (seedRun s ts n).length = n := by
  induction n with
  | zero => intro s ts; rfl
  | succ n ih => intro s ts; simp [seedRun, ih]

/-- Each seed is made of the low byte of the seed before and the new
sample. -/
theorem seedRun_get (n : Nat) : ∀ (s : Nat) (ts : List Nat) (i : Nat), i < n →
    (seedRun s ts n)[i]?
      = some ((if i = 0 then s % 256 else sample ts i) * 256 + sample ts (i + 1)) := by
  induction n with
  | zero => intro s ts i hi; omega
  | succ n ih =>
    intro s ts i hi
    have hm : mixSeed s (ts.headD 0 % 256) = (s % 256) * 256 + ts.headD 0 % 256 :=
      mixSeed_eq _ _ (Nat.mod_lt _ (by norm_num))
    have hh : ts.headD 0 = ts.getD 0 0 := by cases ts <;> rfl
    rw [hh] at hm
    cases i with
    | zero =>
      simp only [seedRun, List.getElem?_cons_zero, if_true, hh, hm, sample]
    | succ j =>
      simp only [seedRun, List.getElem?_cons_succ]
      rw [ih _ _ j (by omega)]
      have h256 : ts.getD 0 0 % 256 < 256 := Nat.mod_lt _ (by norm_num)
      have e1 : sample ts.tail (j + 1) = sample ts (j + 1 + 1) := by
        simp only [sample, Nat.add_sub_cancel, getD_tail]
      rw [e1]
      by_cases hj : j = 0
      · subst hj
        have e3 : sample ts (0 + 1) = ts.getD 0 0 % 256 := rfl
        have e4 : mixSeed s (ts.headD 0 % 256) % 256 = sample ts (0 + 1) := by
          rw [hh, hm, e3]
          omega
        simp only [if_true, e4]
        rfl
      · have e2 : sample ts.tail j = sample ts (j + 1) := by
          obtain ⟨k, rfl⟩ : ∃ k, j = k + 1 := ⟨j - 1, by omega⟩
          simp only [sample, Nat.add_sub_cancel, getD_tail]
        simp only [if_neg hj, if_neg (Nat.succ_ne_zero j), e2]

/-- C23: for every sequence of timer samples `t1, t2, ..., tn` with
`n ≥ 2`, whatever `newSeed` held before and whatever is read from the
buttons, `n` turns of the main loop return, they call `srand` `n` times, and
the seed of game `i`, for every `i` from 2 to `n`, is `256 * t(i-1) + ti`,
which is also the value of `newSeed` after game `n`: the seed is made of the
two most recent samples only. -/
theorem seed_window (T : Target) (v : Variant) (m : Machine) (n : Nat)
    (hoff : m.game.mode = off) (hn : n ≤ m.wakeups.length) :
    ∃ m' seeds, mainIters T v n m = some m' ∧
      seedsOf m'.game.trace = seedsOf m.game.trace ++ seeds ∧ seeds.length = n ∧
      (∀ i, 2 ≤ i → i ≤ n →
        seeds[i - 1]? = some (256 * sample m.game.tmr (i - 1) + sample m.game.tmr i)) ∧
      (2 ≤ n →
        m'.game.newSeed = 256 * sample m.game.tmr (n - 1) + sample m.game.tmr n) := by
  obtain ⟨m', h, -, -, htr, hs⟩ := mainIters_seed T v n m hoff hn
  have hget : ∀ i, 2 ≤ i → i ≤ n → (seedRun m.game.newSeed m.game.tmr n)[i - 1]?
      = some (256 * sample m.game.tmr (i - 1) + sample m.game.tmr i) := by
    intro i h2 hi
    rw [seedRun_get n _ _ (i - 1) (by omega), if_neg (by omega),
      show i - 1 + 1 = i by omega, Nat.mul_comm]
  refine ⟨m', seedRun m.game.newSeed m.game.tmr n, h, htr, seedRun_length n _ _, hget,
    fun h2 => ?_⟩
  rw [hs, List.getLast?_eq_getElem?, seedRun_length, hget n h2 (le_refl n)]
  rfl

/-- C23 on a machine whose `newSeed` is 7 and whose timer gives 9, 200
and 3: the seeds of the second and third game are `256 * 9 + 200` and
`256 * 200 + 3`. -/
theorem seed_window_witness :
    ∃ m' seeds,
      mainIters ubmp4 Variant.game 3
        { wonMachine with
          game := { wonMachine.game with tmr := [9, 200, 3] }
          wakeups := [WakeUp.other, WakeUp.other, WakeUp.other] } = some m' ∧
      seedsOf m'.game.trace = seeds ∧ seeds.length = 3 ∧
      seeds[1]? = some 2504 ∧ seeds[2]? = some 51203 ∧ m'.game.newSeed = 51203 := by
  obtain ⟨m', seeds, h1, h2, h3, h4, h5⟩ := seed_window ubmp4 Variant.game
    { wonMachine with
      game := { wonMachine.game with tmr := [9, 200, 3] }
      wakeups := [WakeUp.other, WakeUp.other, WakeUp.other] } 3 rfl (by decide)
  exact ⟨m', seeds, h1, by rw [h2]; rfl, h3, h4 2 (by decide) (by decide),
    h4 3 (by decide) (by decide), h5 (by decide)⟩

/-! ### The bound of the idle counter -/

/-- The heads of the loop that waits for a press: from `idle = i` the counter
counts up one by one, without wrapping, and the loop goes on only below
`timeOut`. -/
theorem waitPress_heads : ∀ (k i : Nat) (g s : Game), g.idle = i → i ≤ timeOut →
    (g.mode = simon → i < timeOut) →
    loopState (fun s => (decide (s.button = 0) && decide (s.mode = simon), s))
      (fun s => some (waitPressBody s)) k g = some s →
    s.idle = i + k ∧ i + k ≤ timeOut ∧ (s.mode = simon → i + k < timeOut) := by
  have ht : timeOut = 2400 := rfl
  intro k
  induction k with
  | zero =>
    intro i g s hi hle hlt h
    simp only [loopState, Option.some.injEq] at h
    subst h
    exact ⟨hi, hle, hlt⟩
  | succ k ih =>
    intro i g s hi hle hlt h
    rw [loopState] at h
    split_ifs at h with hc
    simp only [Bool.and_eq_true, decide_eq_true_eq] at hc
    simp only [Option.some_bind] at h
    have hi' := hlt hc.2
    have e : (g.idle + 1) % 65536 = i + 1 := by rw [hi]; omega
    obtain ⟨a, b, c⟩ := ih (i + 1) (waitPressBody g) s (by rw [waitPressBody_eq]; exact e)
      (by omega) (by
        rw [waitPressBody_eq]
        simp only [e]
        intro hm
        split_ifs at hm with h1
        · simp [off, simon] at hm
        · omega) h
    exact ⟨by rw [a]; omega, by omega, fun hm => by have := c hm; omega⟩

/-- The heads of the loop that waits for the release, in the same way. -/
theorem waitRelease_heads : ∀ (k i : Nat) (g s : Game), g.idle = i → i ≤ timeOut →
    (g.mode = simon → i < timeOut) →
    loopState releaseCond (fun s => some (idleTick (delay_ms 50 s))) k g = some s →
    s.idle = i + k ∧ i + k ≤ timeOut ∧ (s.mode = simon → i + k < timeOut) := by
  have ht : timeOut = 2400 := rfl
  intro k
  induction k with
  | zero =>
    intro i g s hi hle hlt h
    simp only [loopState, Option.some.injEq] at h
    subst h
    exact ⟨hi, hle, hlt⟩
  | succ k ih =>
    intro i g s hi hle hlt h
    rw [loopState] at h
    split_ifs at h with hc
    rw [releaseCond_eq] at hc
    simp only [Bool.and_eq_true, decide_eq_true_eq] at hc
    simp only [Option.some_bind] at h
    have hi' := hlt hc.2
    have e : (g.idle + 1) % 65536 = i + 1 := by rw [hi]; omega
    rw [releaseCond_eq, releaseBody_eq] at h
    simp only [e] at h
    obtain ⟨a, b, c⟩ := ih (i + 1) _ s rfl (by omega) (by
        intro hm
        simp only at hm
        split_ifs at hm with h1
        · simp [off, simon] at hm
        · omega) h
    exact ⟨by rw [a]; omega, by omega, fun hm => by have := c hm; omega⟩

/-- The result of the wait for a press is within the bound. -/
theorem waitPress_idle (g g' : Game) (hle : g.idle ≤ timeOut)
    (hlt : g.mode = simon → g.idle < timeOut) (h : waitPress g = some g') :
    g'.idle ≤ timeOut := by
  have ht : timeOut = 2400 := rfl
  unfold waitPress at h
  refine (whileLoop_inv _ _
    (fun s => s.idle ≤ timeOut ∧ (s.mode = simon → s.idle < timeOut))
    (fun s => s.idle ≤ timeOut) ?_ (fun s hI _ => hI.1) _ g g' ⟨hle, hlt⟩ h)
  intro s s' hI hc hb
  simp only [Bool.and_eq_true, decide_eq_true_eq] at hc
  simp only [Option.some.injEq] at hb
  subst hb
  have hi' := hI.2 hc.2
  have e : (s.idle + 1) % 65536 = s.idle + 1 := by omega
  rw [waitPressBody_eq]
  simp only [e]
  refine ⟨by omega, fun hm => ?_⟩
  split_ifs at hm with h1
  · simp [off, simon] at hm
  · omega

/-- The result of the wait for the release is within the bound. -/
theorem waitRelease_idle (g g' : Game) (hle : g.idle ≤ timeOut)
    (hlt : g.mode = simon → g.idle < timeOut) (h : waitRelease g = some g') :
    g'.idle ≤ timeOut := by
  have ht : timeOut = 2400 := rfl
  unfold waitRelease at h
  refine (whileLoop_inv _ _
    (fun s => s.idle ≤ timeOut ∧ (s.mode = simon → s.idle < timeOut))
    (fun s => s.idle ≤ timeOut) ?_ ?_ _ g g' ⟨hle, hlt⟩ h)
  · intro s s' hI hc hb
    rw [releaseCond_eq] at hc hb
    simp only [Bool.and_eq_true, decide_eq_true_eq] at hc
    simp only [Option.some.injEq] at hb
    subst hb
    have hi' := hI.2 hc.2
    have e : (s.idle + 1) % 65536 = s.idle + 1 := by omega
    rw [releaseBody_eq]
    simp only [e]
    refine ⟨by omega, fun hm => ?_⟩
    split_ifs at hm with h1
    · simp [off, simon] at hm
    · omega
  · intro s hI _
    rw [releaseCond_eq]
    exact hI.1

/-- The hook `game_lose` stays within any reflexive and transitive relation
that holds across an output other than a button tone, a write to the LEDs
and a write to `maxStep`. -/
theorem game_lose_rel (R : Game → Game → Prop) (hr : ∀ s, R s s)
    (ht : ∀ a b c, R a b → R b c → R a c)
    (hemit : ∀ s e, e.isTone = false → R s (emit e s))
    (hleds : ∀ (s : Game) (l : Leds), R s { s with leds := l })
    (hmax : ∀ (s : Game) (n : Nat), R s { s with maxStep := n })
    (v : Variant) (g g' : Game) (h : game_lose v g = some g') : R g g' := by
  have hd : ∀ s ms, R s (delay_ms ms s) := fun s ms => hemit s (Event.delay_ms ms) rfl
  have hl : ∀ s n, R s (LED n s) := fun s n =>
    ht _ _ _ (hleds s (s.leds.light n))
      (hemit _ (Event.LED n) (by simp [Event.isTone, soundEvents]))
  have hflash : ∀ num dec s, R s (scoreFlash num dec s) := by
    intro num dec s
    show R s { delay_ms 500 (LED 0 (delay_ms 500 (LED num s))) with
      maxStep := ((delay_ms 500 (LED 0 (delay_ms 500 (LED num s)))).maxStep + 256 - dec) % 256 }
    exact ht _ _ _ (ht _ _ _ (ht _ _ _ (ht _ _ _ (hl s num) (hd _ 500)) (hl _ 0)) (hd _ 500))
      (hmax _ _)
  have hloop : ∀ (c : Game → Bool) (num dec fuel : Nat) (a b : Game),
      whileLoop (fun s => (c s, s)) (fun s => some (scoreFlash num dec s)) fuel a = some b →
      R a b := by
    intro c num dec fuel a b hab
    refine whileLoop_rel R hr ht _ _ (fun s => hr s) ?_ _ a b hab
    intro s s' hb
    simp only [Option.some.injEq] at hb
    subst hb
    exact hflash num dec s
  cases v with
  | starterGame =>
    simp only [game_lose, Option.some.injEq] at h
    subst h
    exact hemit g Event.call_lose rfl
  | game =>
    simp only [game_lose] at h
    cases h1 : whileLoop (fun s => (decide (10 ≤ s.maxStep), s))
        (fun s => some (scoreFlash 1 10 s)) 256
        { emit (Event.delay_ms 500) (note_lower 400 (delay_ms 500 (note_low 500
          (emit Event.call_lose g)))) with
          maxStep := ((delay_ms 500 (note_lower 400 (delay_ms 500 (note_low 500
            (emit Event.call_lose g))))).maxStep + 256 - 1) % 256 } with
    | none =>
      simp only [delay_ms] at h h1
      rw [h1] at h
      simp at h
    | some g1 =>
      have h1' := h1
      simp only [delay_ms] at h h1
      rw [h1] at h
      simp only [Option.some_bind] at h
      cases h2 : whileLoop (fun s => (decide (5 ≤ s.maxStep), s))
          (fun s => some (scoreFlash 2 5 s)) 256 g1 with
      | none => rw [h2] at h; simp at h
      | some g2 =>
        rw [h2] at h
        simp only [Option.some_bind] at h
        have a1 := hloop _ 1 10 256 _ _ h1'
        have a2 := hloop _ 2 5 256 _ _ h2
        have a3 := hloop _ 3 1 256 _ _ h
        refine ht _ _ _ (ht _ _ _ (ht _ _ _ ?_ a1) a2) a3
        exact ht _ _ _ (ht _ _ _ (ht _ _ _ (ht _ _ _ (ht _ _ _
          (hemit g Event.call_lose rfl) (hemit _ (Event.note 1136 500) rfl)) (hd _ 500))
          (hemit _ (Event.note 2272 400) rfl)) (hd _ 500)) (hmax _ _)

/-- The comparison of the guess does not touch the idle counter. -/
theorem judge_idle (v : Variant) (g g' : Game) (h : judge v g = some g') :
    g'.idle = g.idle := by
  simp only [judge, readPattern] at h
  have ht : (touchPattern g g.step).idle = g.idle := by rw [touchPattern_eq]
  generalize touchPattern g g.step = G at h ht
  split_ifs at h with hc
  · cases h1 : game_lose v (delay_ms 500 G) with
    | none => rw [h1] at h; simp at h
    | some g1 =>
      rw [h1] at h
      simp only [Option.map_some', Option.some.injEq] at h
      subst h
      have a1 := game_lose_rel (fun a b : Game => b.idle = a.idle) (fun _ => rfl)
        (fun a b c h₁ h₂ => h₂.trans h₁) (fun _ _ _ => rfl) (fun _ _ => rfl) (fun _ _ => rfl)
        v _ _ h1
      simp only [a1, delay_ms_eq, ht]
  · simp only [Option.some.injEq] at h
    subst h
    exact ht

/-- Every guess step ends within the bound, whatever `idle` was before:
both of its wait loops are entered with `idle == 0`. -/
theorem guessStep_idle (v : Variant) (g g' : Game) (h : guessStep v g = some g') :
    g'.idle ≤ timeOut := by
  simp only [guessStep, readButton_eq] at h
  cases h1 : waitPress { g with
      idle := 0, sw := g.sw.tail, button := get_button (g.sw.headD released) } with
  | none => rw [h1] at h; simp at h
  | some g1 =>
    rw [h1] at h
    simp only [Option.some_bind] at h
    cases h2 : judge v (LED 0 (sound (LED g1.button g1).button (LED g1.button g1))) with
    | none => rw [h2] at h; simp at h
    | some g2 =>
      rw [h2] at h
      simp only [Option.some_bind] at h
      exact waitRelease_idle { g2 with step := (g2.step + 1) % 256, idle := 0 } g'
        (Nat.zero_le _) (fun _ => by show 0 < timeOut; decide) h

/-- The playback does not touch the idle counter. -/
theorem playback_idle (g g' : Game) (h : playback g = some g') : g'.idle = g.idle := by
  unfold playback playbackLoop at h
  refine whileLoop_rel (fun a b : Game => b.idle = a.idle) (fun _ => rfl)
    (fun a b c h₁ h₂ => h₂.trans h₁) _ _ (fun s => rfl) ?_ _ { g with step := 0 } g' h
  intro s s' hb
  simp only [Option.some.injEq] at hb
  subst hb
  rw [playbackBody_eq]

theorem roundHead_idle (v : Variant) (g : Game) : (roundHead v g).idle = g.idle := by
  simp only [roundHead, callRand_eq, delay_ms_eq, storePattern, game_win_eq]
  split_ifs <;> split <;> rfl

theorem verifyLoop_idle (v : Variant) (g g' : Game) (hle : g.idle ≤ timeOut)
    (h : verifyLoop v g = some g') : g'.idle ≤ timeOut := by
  unfold verifyLoop at h
  exact whileLoop_inv _ _ (fun s => s.idle ≤ timeOut) (fun s => s.idle ≤ timeOut)
    (fun s s' _ _ hb => guessStep_idle v s s' hb) (fun s hI _ => hI) _ g g' hle h

theorem round_idle (v : Variant) (g g' : Game) (hle : g.idle ≤ timeOut)
    (h : round v g = some g') : g'.idle ≤ timeOut := by
  unfold round at h
  cases h1 : playback (roundHead v g) with
  | none => rw [h1] at h; simp at h
  | some g1 =>
    rw [h1] at h
    simp only [Option.some_bind, verify] at h
    refine verifyLoop_idle v _ g' ?_ h
    show g1.idle ≤ timeOut
    rw [playback_idle _ _ h1, roundHead_idle]
    exact hle

theorem roundLoop_idle (v : Variant) (g g' : Game) (hle : g.idle ≤ timeOut)
    (h : roundLoop v g = some g') : g'.idle ≤ timeOut := by
  unfold roundLoop at h
  exact whileLoop_inv _ _ (fun s => s.idle ≤ timeOut) (fun s => s.idle ≤ timeOut)
    (fun s s' hI _ hb => round_idle v s s' hI hb) (fun s hI _ => hI) _ g g' hle h

theorem mainIter_idle (T : Target) (v : Variant) (m m' : Machine) (hle : m.game.idle ≤ timeOut)
    (h : mainIter T v m = some m') : m'.game.idle ≤ timeOut := by
  unfold mainIter at h
  cases h1 : offLoop T v m with
  | none => rw [h1] at h; simp at h
  | some m1 =>
    rw [h1] at h
    simp only [Option.some_bind] at h
    cases h2 : roundLoop v m1.game with
    | none => rw [h2] at h; simp at h
    | some g2 =>
      rw [h2] at h
      simp only [Option.map_some', Option.some.injEq] at h
      subst h
      refine roundLoop_idle v _ _ ?_ h2
      unfold offLoop at h1
      refine whileLoop_inv _ _ (fun s : Machine => s.game.idle ≤ timeOut)
        (fun s : Machine => s.game.idle ≤ timeOut) ?_ (fun s hI _ => hI) _ m m1 hle h1
      intro s s' hI _ hb
      rw [offBody_game T v s s' hb]
      exact hI

theorem mainIters_idle (T : Target) (v : Variant) : ∀ (n : Nat) (m m' : Machine),
    m.game.idle ≤ timeOut → mainIters T v n m = some m' → m'.game.idle ≤ timeOut := by
  intro n
  induction n with
  | zero =>
    intro m m' hle h
    simp only [mainIters, Option.some.injEq] at h
    subst h
    exact hle
  | succ n ih =>
    intro m m' hle h
    simp only [mainIters] at h
    cases h1 : mainIter T v m with
    | none => rw [h1] at h; simp at h
    | some m1 =>
      rw [h1] at h
      simp only [Option.some_bind] at h
      exact ih m1 m' (mainIter_idle T v m m1 hle h1) h

/-- C21: from a state with `idle ≤ timeOut = 2400`, as the one at power-on,
every state the main loop reaches has `idle ≤ timeOut`: after any number of
turns of `while(1)`, at the head of every round and of every guess. Both wait
loops of a guess step are entered with `idle == 0`; at their heads `idle` is
the number of polls made, counted without wrapping in the 16 bits, and a
loop goes on only with `idle < timeOut`, so that the test `idle == timeOut`
is not stepped over. Outside the wait loops (start of a round, playback,
comparison of the guess, Off loop) `idle` is not written. -/
theorem idle_bound (T : Target) (v : Variant) (m : Machine) (h : m.game.idle ≤ timeOut) :
    timeOut < 65536 ∧
    (∀ n m', mainIters T v n m = some m' → m'.game.idle ≤ timeOut) ∧
    (m.game.mode = off → ∀ n, n ≤ m.wakeups.length →
      ∃ m', mainIters T v n m = some m' ∧ m'.game.idle ≤ timeOut) ∧
    (∀ k s, loopState (fun s => (decide (s.mode = simon), s)) (round v) k m.game = some s →
      s.idle ≤ timeOut) ∧
    (∀ k s, loopState (fun s => (decide (s.step ≠ s.maxStep) && decide (s.mode = simon), s))
      (guessStep v) k m.game = some s → s.idle ≤ timeOut) ∧
    (∀ g, guessStep v g = (waitPress (pressEntry g)).bind fun s =>
      (judge v (LED 0 (sound s.button (LED s.button s)))).bind fun s =>
      waitRelease { s with step := (s.step + 1) % 256, idle := 0 }) ∧
    (∀ g k s, loopState (fun s => (decide (s.button = 0) && decide (s.mode = simon), s))
      (fun s => some (waitPressBody s)) k (pressEntry g) = some s →
      s.idle = k ∧ k ≤ timeOut ∧ (s.mode = simon → k < timeOut)) ∧
    (∀ g k s, g.idle = 0 →
      loopState releaseCond (fun s => some (idleTick (delay_ms 50 s))) k g = some s →
      s.idle = k ∧ k ≤ timeOut ∧ (s.mode = simon → k < timeOut)) ∧
    (∀ g g', guessStep v g = some g' → g'.idle ≤ timeOut) ∧
    (∀ g, (roundHead v g).idle = g.idle) ∧
    (∀ g g', playback g = some g' → g'.idle = g.idle) ∧
    (∀ g g', judge v g = some g' → g'.idle = g.idle) ∧
    (∀ g, (started T v g).idle = g.idle) := by
  refine ⟨by decide, fun n m' hm => mainIters_idle T v n m m' h hm, fun hoff n hn => ?_,
    fun k s hs => ?_, fun k s hs => ?_, fun g => ?_, fun g k s hs => ?_, fun g k s h0 hs => ?_,
    fun g g' hg => guessStep_idle v g g' hg, roundHead_idle v, playback_idle, judge_idle v,
    fun _ => rfl⟩
  · obtain ⟨m', hm, -⟩ := mainIters_srand T v n m hoff hn
    exact ⟨m', hm, mainIters_idle T v n m m' h hm⟩
  · exact loopState_inv _ _ (fun s => s.idle ≤ timeOut)
      (fun a b hI _ hb => round_idle v a b hI hb) k m.game s h hs
  · exact loopState_inv _ _ (fun s => s.idle ≤ timeOut)
      (fun a b _ _ hb => guessStep_idle v a b hb) k m.game s h hs
  · simp only [guessStep, readButton_eq, pressEntry]
    rfl
  · have := waitPress_heads k 0 (pressEntry g) s rfl (Nat.zero_le _)
      (fun _ => by show 0 < timeOut; decide) hs
    simpa using this
  · have := waitRelease_heads k 0 g s h0 (Nat.zero_le _)
      (fun _ => by show 0 < timeOut; decide) hs
    simpa using this

/-- C21 on a machine at power-on that plays two games, and on the guess
step of a player who keeps the matching button down: the counter stops at
`timeOut`. -/
theorem idle_bound_witness :
    losingPlayer.game.idle = 0 ∧
    (∃ m', mainIters ubmp4 Variant.game 2 losingPlayer = some m' ∧ m'.game.idle ≤ timeOut) ∧
    ∃ g', guessStep Variant.game stuckGame = some g' ∧ g'.idle = timeOut ∧
      g'.idle ≤ timeOut := by
  obtain ⟨-, -, h, -, -, -, -, -, hg, -⟩ :=
    idle_bound ubmp4 Variant.game losingPlayer (by decide)
  have hs := guessStep_stuck Variant.game stuckGame 0 (key 1) (List.replicate 2401 (key 1))
    rfl rfl (by decide) (by decide) rfl (fun i hi => by
      have hi' : i < 2401 := Nat.lt_succ_of_lt hi
      simp only [List.getD_eq_getElem?_getD, List.getElem?_replicate, if_pos hi',
        Option.getD_some]
      decide)
  exact ⟨rfl, h rfl 2 (by decide), _, hs, rfl, hg _ _ hs⟩

/-! ### One judgement for one press -/

theorem get_button_eq_zero (x : Switches) (h : get_button x = 0) : x = released := by
  rcases x with ⟨a, b, c, d⟩
  cases a <;> cases b <;> cases c <;> cases d <;> simp [get_button, pressed, released] at h ⊢

theorem get_button_le (x : Switches) : get_button x ≤ 4 := by
  unfold get_button
  split_ifs <;> omega

theorem rises_cons (a : Nat) (t : List Nat) :
    rises (a :: t) = (if a = 0 ∧ t.headD 0 ≠ 0 then 1 else 0) + rises t := rfl

theorem rises_le_append (A B : List Nat) : rises A ≤ rises (A ++ B) := by
  induction A with
  | nil => exact Nat.zero_le _
  | cons a A ih =>
    rw [List.cons_append, rises_cons, rises_cons]
    cases A with
    | nil =>
      have : ¬ (a = 0 ∧ ([] : List Nat).headD 0 ≠ 0) := by simp
      rw [if_neg this]
      omega
    | cons b A =>
      have e : ((b :: A) ++ B).headD 0 = (b :: A).headD 0 := rfl
      rw [e]
      omega

theorem rises_le_append_right (A B : List Nat) : rises B ≤ rises (A ++ B) := by
  induction A with
  | nil => exact le_refl _
  | cons a A ih =>
    rw [List.cons_append, rises_cons]
    omega

theorem rises_cons_le (P : List Nat) : rises (0 :: P) ≤ rises P + 1 := by
  rw [rises_cons]
  split_ifs <;> omega

/-- A button code after a 0 adds a transition. -/
theorem rises_press (A H : List Nat) (d : Nat) (hd : d ≠ 0) :
    rises (A ++ [0]) + 1 ≤ rises (A ++ 0 :: d :: H) := by
  induction A with
  | nil =>
    simp [rises, hd]
  | cons a A ih =>
    rw [List.cons_append, List.cons_append, rises_cons, rises_cons]
    have e : (A ++ [0]).headD 0 = (A ++ 0 :: d :: H).headD 0 := by
      cases A <;> rfl
    rw [e]
    omega

theorem rises_zeros (j : Nat) : rises (List.replicate j 0) = 0 := by
  induction j with
  | zero => rfl
  | succ j ih =>
    rw [List.replicate_succ, rises_cons, ih]
    have e : (List.replicate j 0).headD 0 = 0 := by cases j <;> rfl
    rw [e, if_neg (by simp)]

theorem zero_replicate (z : Nat) : [0] ++ List.replicate z 0 = List.replicate z 0 ++ [0] := by
  show 0 :: List.replicate z 0 = _
  rw [← List.replicate_succ, List.replicate_succ']

theorem rises_append_zeros (X : List Nat) (j : Nat) :
    rises (X ++ List.replicate j 0) = rises X := by
  induction X with
  | nil => simpa using rises_zeros j
  | cons a X ih =>
    rw [List.cons_append, rises_cons, rises_cons, ih]
    have e : (X ++ List.replicate j 0).headD 0 = X.headD 0 := by
      cases X with
      | nil => cases j <;> rfl
      | cons b X => rfl
    rw [e]

theorem rises_nonzero (X : List Nat) (h : ∀ x ∈ X, x ≠ 0) : rises X = 0 := by
  induction X with
  | nil => rfl
  | cons a X ih =>
    have ha := h a (List.mem_cons_self _ _)
    simp [rises, ha, ih (fun x hx => h x (List.mem_cons_of_mem _ hx))]

/-- Zeros, then a code, after a sequence that ends with 0: the transitions
grow by one when the code is a button, and do not shrink otherwise. -/
theorem rises_step (L0 H : List Nat) (z d : Nat) :
    rises (L0 ++ [0]) + (if d = 0 then 0 else 1)
      ≤ rises (L0 ++ [0] ++ (List.replicate z 0 ++ d :: H)) := by
  have e : L0 ++ [0] ++ (List.replicate z 0 ++ d :: H)
      = (L0 ++ List.replicate z 0) ++ 0 :: d :: H := by
    have := zero_replicate z
    calc L0 ++ [0] ++ (List.replicate z 0 ++ d :: H)
        = L0 ++ (([0] ++ List.replicate z 0) ++ d :: H) := by simp
      _ = L0 ++ ((List.replicate z 0 ++ [0]) ++ d :: H) := by rw [this]
      _ = (L0 ++ List.replicate z 0) ++ 0 :: d :: H := by simp
  have e2 : L0 ++ [0] ++ List.replicate z 0 = (L0 ++ List.replicate z 0) ++ [0] := by
    have := zero_replicate z
    calc L0 ++ [0] ++ List.replicate z 0 = L0 ++ ([0] ++ List.replicate z 0) := by simp
      _ = L0 ++ (List.replicate z 0 ++ [0]) := by rw [this]
      _ = (L0 ++ List.replicate z 0) ++ [0] := by simp
  have h1 : rises (L0 ++ [0]) ≤ rises ((L0 ++ List.replicate z 0) ++ [0]) := by
    rw [← e2]
    exact rises_le_append _ _
  rw [e]
  by_cases hd : d = 0
  · simp only [hd, if_true, Nat.add_zero]
    refine le_trans h1 ?_
    have := rises_le_append ((L0 ++ List.replicate z 0) ++ [0]) (0 :: H)
    simpa using this
  · simp only [if_neg hd]
    have := rises_press (L0 ++ List.replicate z 0) H d hd
    omega

theorem heard_refl (a : Game) : Heard a a [] 0 :=
  ⟨⟨0, by simp⟩, [], by simp, rfl⟩

theorem heard_trans {a b c : Game} {Q₁ Q₂ : List Switches} {n₁ n₂ : Nat}
    (h₁ : Heard a b Q₁ n₁) (h₂ : Heard b c Q₂ n₂) : Heard a c (Q₁ ++ Q₂) (n₁ + n₂) := by
  obtain ⟨⟨j₁, r₁⟩, l₁, t₁, c₁⟩ := h₁
  obtain ⟨⟨j₂, r₂⟩, l₂, t₂, c₂⟩ := h₂
  refine ⟨⟨j₁ + j₂, ?_⟩, l₁ ++ l₂, by rw [t₂, t₁, List.append_assoc], by
    rw [List.countP_append, c₁, c₂]⟩
  rw [List.append_assoc, r₂, ← List.append_assoc, r₁, List.append_assoc,
    List.replicate_add]

/-- A step that reads nothing from the pins. -/
theorem heard_of (a b : Game) (l : List Event) (n : Nat) (hsw : b.sw = a.sw)
    (htr : b.trace = a.trace ++ l) (hl : l.countP Event.isTone = n) : Heard a b [] n :=
  ⟨⟨0, by simp [hsw]⟩, l, htr, hl⟩

/-- A step that reads the pins once. -/
theorem heard_read (a b : Game) (l : List Event) (n : Nat) (hsw : b.sw = a.sw.tail)
    (htr : b.trace = a.trace ++ l) (hl : l.countP Event.isTone = n) :
    Heard a b [a.sw.headD released] n := by
  refine ⟨?_, l, htr, hl⟩
  rw [hsw]
  cases a.sw with
  | nil => exact ⟨1, rfl⟩
  | cons x r => exact ⟨0, by simp⟩

/-- The wait for a press reads released pins and then the sample that ends
it, which gives `button`; it plays no tone. -/
theorem waitPress_heard (e s : Game) (x0 : Switches) (hx : e.button = get_button x0)
    (h : waitPress e = some s) :
    ∃ Q z y, Heard e s Q 0 ∧ x0 :: Q = List.replicate z released ++ [y] ∧
      s.button = get_button y := by
  unfold waitPress at h
  refine whileLoop_inv _ _
    (fun t => ∃ Q z y, Heard e t Q 0 ∧ x0 :: Q = List.replicate z released ++ [y] ∧
      t.button = get_button y)
    (fun t => ∃ Q z y, Heard e t Q 0 ∧ x0 :: Q = List.replicate z released ++ [y] ∧
      t.button = get_button y)
    ?_ (fun t hI _ => hI) _ e s ⟨[], 0, x0, heard_refl e, rfl, hx⟩ h
  intro t t' hI hc hb
  obtain ⟨Q, z, y, hq, hz, hy⟩ := hI
  simp only [Bool.and_eq_true, decide_eq_true_eq] at hc
  simp only [Option.some.injEq] at hb
  subst hb
  have hyr : y = released := get_button_eq_zero y (by rw [← hy]; exact hc.1)
  have step : Heard t (waitPressBody t) [t.sw.headD released] 0 := by
    refine heard_read t _ [Event.delay_ms 50] 0 ?_ ?_ rfl
    · rw [waitPressBody_eq]
    · rw [waitPressBody_eq]
  refine ⟨Q ++ [t.sw.headD released], z + 1, t.sw.headD released, heard_trans hq step, ?_, ?_⟩
  · rw [← List.cons_append, hz, hyr, List.replicate_succ']
  · rw [waitPressBody_eq]

/-- The wait for the release plays no tone, and when it ends with the game
going on the last sample it read shows the pins released. -/
theorem waitRelease_heard (r s : Game) (h : waitRelease r = some s) :
    ∃ Q, Heard r s Q 0 ∧ (s.mode = simon → ∃ Q0, Q = Q0 ++ [released]) := by
  unfold waitRelease at h
  refine whileLoop_inv _ _ (fun t => ∃ Q, Heard r t Q 0)
    (fun t => ∃ Q, Heard r t Q 0 ∧ (t.mode = simon → ∃ Q0, Q = Q0 ++ [released]))
    ?_ ?_ _ r s ⟨[], heard_refl r⟩ h
  · intro t t' hI hc hb
    obtain ⟨Q, hq⟩ := hI
    simp only [Option.some.injEq] at hb
    subst hb
    have step : Heard t (idleTick (delay_ms 50 (releaseCond t).2)) [t.sw.headD released] 0 := by
      refine heard_read t _ [Event.delay_ms 50] 0 ?_ ?_ rfl
      · rw [releaseBody_eq, releaseCond_eq]
      · rw [releaseBody_eq, releaseCond_eq]
    exact ⟨_, heard_trans hq step⟩
  · intro t hI hc
    obtain ⟨Q, hq⟩ := hI
    rw [releaseCond_eq] at hc ⊢
    have step : Heard t { t with sw := t.sw.tail } [t.sw.headD released] 0 :=
      heard_read t _ [] 0 rfl (by simp) rfl
    refine ⟨Q ++ [t.sw.headD released], heard_trans hq step, fun hm => ?_⟩
    have hm' : t.mode = simon := hm
    simp only [hm', decide_True, Bool.and_true, decide_eq_false_iff_not, not_not] at hc
    exact ⟨Q, by rw [get_button_eq_zero _ hc]⟩

/-- The comparison of the guess, with its losing branch, reads no pins,
plays no button tone and keeps `button`. -/
theorem judge_heard (v : Variant) (g g' : Game) (h : judge v g = some g') :
    Heard g g' [] 0 ∧ g'.button = g.button := by
  have hr : ∀ s : Game, Heard s s [] 0 ∧ s.button = s.button := fun s => ⟨heard_refl s, rfl⟩
  have ht : ∀ a b c : Game, (Heard a b [] 0 ∧ b.button = a.button) →
      (Heard b c [] 0 ∧ c.button = b.button) → (Heard a c [] 0 ∧ c.button = a.button) :=
    fun a b c h₁ h₂ => ⟨by simpa using heard_trans h₁.1 h₂.1, h₂.2.trans h₁.2⟩
  simp only [judge, readPattern] at h
  have h0 : Heard g (touchPattern g g.step) [] 0 ∧ (touchPattern g g.step).button = g.button := by
    rw [touchPattern_eq]
    exact ⟨heard_of _ _ [] 0 rfl (by simp) rfl, rfl⟩
  generalize touchPattern g g.step = G at h h0
  split_ifs at h with hc
  · cases h1 : game_lose v (delay_ms 500 G) with
    | none => rw [h1] at h; simp at h
    | some g1 =>
      rw [h1] at h
      simp only [Option.map_some', Option.some.injEq] at h
      subst h
      have a1 := game_lose_rel (fun a b : Game => Heard a b [] 0 ∧ b.button = a.button) hr ht
        (fun s e he => ⟨heard_of s (emit e s) [e] 0 rfl rfl (by simp [he]), rfl⟩)
        (fun s l => ⟨heard_of s _ [] 0 rfl (by simp) rfl, rfl⟩)
        (fun s n => ⟨heard_of s _ [] 0 rfl (by simp) rfl, rfl⟩) v _ _ h1
      have a0 : Heard G (delay_ms 500 G) [] 0 ∧ (delay_ms 500 G).button = G.button :=
        ⟨heard_of _ _ [Event.delay_ms 500] 0 rfl rfl rfl, rfl⟩
      have a2 : Heard g1 { g1 with mode := off } [] 0 ∧
          ({ g1 with mode := off } : Game).button = g1.button :=
        ⟨heard_of _ _ [] 0 rfl (by simp) rfl, rfl⟩
      exact ht _ _ _ (ht _ _ _ (ht _ _ _ h0 a0) a1) a2
  · simp only [Option.some.injEq] at h
    subst h
    exact h0

theorem waitRelease_button (r s : Game) (h : waitRelease r = some s) : s.button = r.button := by
  unfold waitRelease at h
  refine whileLoop_rel (fun a b : Game => b.button = a.button) (fun _ => rfl)
    (fun a b c h₁ h₂ => h₂.trans h₁) _ _ ?_ ?_ _ r s h
  · intro t
    rw [releaseCond_eq]
  · intro t t' hb
    simp only [Option.some.injEq] at hb
    subst hb
    rw [releaseBody_eq]

/-- A guess is shown with one button tone, or with none when no button was
read. -/
theorem tones_guessEvents (x : Switches) :
    (guessEvents (get_button x)).countP Event.isTone = if get_button x = 0 then 0 else 1 := by
  have h := get_button_le x
  generalize get_button x = b at h
  interval_cases b <;> decide

/-- One guess of the player: it reads released pins, then the sample `y`
that gives `button`, then the samples of the wait for the release, of which
the last one shows the pins released when the game goes on; it plays one
button tone if `y` is a press, and none otherwise. -/
theorem guessStep_heard (v : Variant) (g g' : Game) (h : guessStep v g = some g') :
    ∃ z y Q2, Heard g g' (List.replicate z released ++ y :: Q2)
        (if get_button y = 0 then 0 else 1) ∧
      g'.button = get_button y ∧ (g'.mode = simon → ∃ Q0, Q2 = Q0 ++ [released]) := by
  simp only [guessStep, readButton_eq] at h
  cases h1 : waitPress { g with
      idle := 0, sw := g.sw.tail, button := get_button (g.sw.headD released) } with
  | none => rw [h1] at h; simp at h
  | some g1 =>
    rw [h1] at h
    simp only [Option.some_bind] at h
    cases h2 : judge v (LED 0 (sound (LED g1.button g1).button (LED g1.button g1))) with
    | none => rw [h2] at h; simp at h
    | some g2 =>
      rw [h2] at h
      simp only [Option.some_bind] at h
      have a0 : Heard g { g with
          idle := 0, sw := g.sw.tail, button := get_button (g.sw.headD released) }
          [g.sw.headD released] 0 := heard_read g _ [] 0 rfl (by simp) rfl
      obtain ⟨Q, z, y, a1, hz, hy⟩ := waitPress_heard _ g1 (g.sw.headD released) rfl h1
      have a2 : Heard g1 (LED 0 (sound (LED g1.button g1).button (LED g1.button g1))) []
          (if get_button y = 0 then 0 else 1) := by
        refine heard_of _ _ (guessEvents g1.button) _ ?_ ?_ ?_
        · simp only [LED_eq, sound_eq]
        · simp [LED_eq, sound_eq, guessEvents]
        · rw [hy]
          exact tones_guessEvents y
      obtain ⟨a3, hb3⟩ := judge_heard v _ _ h2
      have a4 : Heard g2 { g2 with step := (g2.step + 1) % 256, idle := 0 } [] 0 :=
        heard_of _ _ [] 0 rfl (by simp) rfl
      obtain ⟨Q2, a5, hrel⟩ := waitRelease_heard _ g' h
      have hb5 := waitRelease_button _ g' h
      have tot := heard_trans (heard_trans (heard_trans (heard_trans (heard_trans a0 a1) a2) a3)
        a4) a5
      refine ⟨z, y, Q2, ?_, ?_, hrel⟩
      · have e : [g.sw.headD released] ++ Q ++ [] ++ [] ++ [] ++ Q2
            = List.replicate z released ++ y :: Q2 := by
          simp only [List.append_nil, List.singleton_append, hz, List.append_assoc]
        rw [e] at tot
        simpa using tot
      · rw [hb5]
        show g2.button = _
        rw [hb3]
        simp only [LED_eq, sound_eq]
        exact hy

theorem codes_zeros (j : Nat) :
    (List.replicate j released).map get_button = List.replicate j 0 := by
  simp [get_button_released]

/-- The verification loop, seen from its entry: the button tones played so
far are at most the transitions from released to pressed among the samples
read so far, counted after a released sample put in front; and at the head
of a guess the last sample read shows the pins released. -/
theorem verifyLoop_heard (v : Variant) (g g' : Game) (h : verifyLoop v g = some g') :
    ∃ P n, Heard g g' P n ∧ n ≤ rises (0 :: P.map get_button) := by
  unfold verifyLoop at h
  refine whileLoop_inv _ _
    (fun s => ∃ P n, Heard g s P n ∧ n ≤ rises (0 :: P.map get_button) ∧
      (s.mode = simon → ∃ L0, 0 :: P.map get_button = L0 ++ [0]))
    (fun s => ∃ P n, Heard g s P n ∧ n ≤ rises (0 :: P.map get_button))
    ?_ (fun s hI _ => by
      obtain ⟨P, n, hq, hn, -⟩ := hI
      exact ⟨P, n, hq, hn⟩) _ g g'
    ⟨[], 0, heard_refl g, Nat.zero_le _, fun _ => ⟨[], rfl⟩⟩ h
  intro s s' hI hc hb
  obtain ⟨P, n, hq, hn, hlast⟩ := hI
  simp only [Bool.and_eq_true, decide_eq_true_eq] at hc
  obtain ⟨L0, hL⟩ := hlast hc.2
  obtain ⟨z, y, Q2, hq', -, hrel⟩ := guessStep_heard v s s' hb
  have hmap : 0 :: (P ++ (List.replicate z released ++ y :: Q2)).map get_button
      = L0 ++ [0] ++ (List.replicate z 0 ++ get_button y :: Q2.map get_button) := by
    rw [List.map_append, ← List.cons_append, hL, List.map_append, codes_zeros, List.map_cons]
  refine ⟨P ++ (List.replicate z released ++ y :: Q2), _, heard_trans hq hq', ?_, fun hm => ?_⟩
  · rw [hmap]
    have := rises_step L0 (Q2.map get_button) z (get_button y)
    rw [hL] at hn
    omega
  · obtain ⟨Q0, hQ0⟩ := hrel hm
    refine ⟨L0 ++ [0] ++ (List.replicate z 0 ++ get_button y :: Q0.map get_button), ?_⟩
    rw [hmap, hQ0]
    simp [get_button_released]

/-- C22: within a round, whatever is read from the buttons, the
verification loop returns and the number of presses it shows and compares
(one button tone each) is at most the number of transitions of `get_button`
from 0 to a button code in the sequence of samples, plus one; a button held
down through all samples is judged at most once. Every guess step reads
released pins, then the sample that gives `button`, then the samples of the
release wait, and when it leaves the game going on the last sample it read
shows the pins released: the next press is read only after that. -/
theorem one_press_one_step (v : Variant) (g : Game) (hmax : g.maxStep < 256)
    (hstep : g.step ≤ g.maxStep) :
    ∃ g' l, verifyLoop v g = some g' ∧ g'.trace = g.trace ++ l ∧
      l.countP Event.isTone ≤ rises (g.sw.map get_button) + 1 ∧
      ((∀ x ∈ g.sw, get_button x ≠ 0) → l.countP Event.isTone ≤ 1) ∧
      ∀ a b, guessStep v a = some b →
        ∃ z y Q2, Heard a b (List.replicate z released ++ y :: Q2)
            (if get_button y = 0 then 0 else 1) ∧
          b.button = get_button y ∧ (b.mode = simon → ∃ Q0, Q2 = Q0 ++ [released]) := by
  obtain ⟨g', h, -⟩ := verifyLoop_spec v g hmax hstep
  obtain ⟨P, n, ⟨⟨j, hr⟩, l, htr, hl⟩, hn⟩ := verifyLoop_heard v g g' h
  have h1 : rises (P.map get_button) ≤ rises (g.sw.map get_button) := by
    have := rises_le_append (P.map get_button) (g'.sw.map get_button)
    rw [← List.map_append, hr, List.map_append, codes_zeros, rises_append_zeros] at this
    exact this
  have h2 := rises_cons_le (P.map get_button)
  have hle : l.countP Event.isTone ≤ rises (g.sw.map get_button) + 1 := by
    rw [hl]
    omega
  refine ⟨g', l, h, htr, hle, fun hall => ?_, fun a b hab => guessStep_heard v a b hab⟩
  have h0 : rises (g.sw.map get_button) = 0 := by
    apply rises_nonzero
    intro x hx
    obtain ⟨s, hs, rfl⟩ := List.mem_map.1 hx
    exact hall s hs
  omega

/-- C22 on the three taps of the loss scenario, with two transitions after
the first press, and on a button that is held down through 2402 samples. -/
theorem one_press_one_step_witness :
    (∃ g' l, verifyLoop Variant.game lossScenario = some g' ∧
      g'.trace = lossScenario.trace ++ l ∧ l.countP Event.isTone ≤ 3) ∧
    ∃ g' l, verifyLoop Variant.game stuckGame = some g' ∧
      g'.trace = stuckGame.trace ++ l ∧ l.countP Event.isTone ≤ 1 := by
  obtain ⟨a, l, h1, h2, h3, -⟩ :=
    one_press_one_step Variant.game lossScenario (by decide) (by decide)
  obtain ⟨b, k, k1, k2, -, k4, -⟩ :=
    one_press_one_step Variant.game stuckGame (by decide) (by decide)
  refine ⟨⟨a, l, h1, h2, ?_⟩, b, k, k1, k2, k4 ?_⟩
  · have e : rises (lossScenario.sw.map get_button) = 2 := by decide
    rw [e] at h3
    exact h3
  · intro x hx
    have hx' : x = key 1 := by
      simp only [stuckGame, sampleGame, List.mem_cons, List.mem_replicate] at hx
      rcases hx with h | ⟨-, h⟩ <;> exact h
    rw [hx']
    decide

/-! ### The win and the byte behind the array -/

end Simon
